import Mathlib

/-!
The file `file-apng.c`: frame tags, disposal labelling, frame offsets and
palette remapping.

A shallow embedding of the parts of `src/file-apng.c` (the GIMP APNG plug-in)
that decide how layer names are parsed into frame controls when an animation
is saved, how frame controls are turned into layer names when an animation is
loaded, how layer offsets travel through the file, how the palette of an
indexed image with alpha is re-ordered around one transparent index and how
the pixels are rewritten with it, how the rows of a frame are read band by
band and what the error handler leaves behind when the row codec fails, and
what the load procedure then returns.

Conventions of the embedding.

* A C string (`const gchar *`) is the `List Char` of its characters before the
  terminating NUL; `str[i]` is `cstr_at str i`, which yields NUL at
  `i = strlen (str)`.  Every character stands for one byte of the name; the
  parsers only ever compare against ASCII characters.
* `gint` is `Int`; where the source can overflow a 32-bit `gint` the value is
  reduced with `wrap32` (two's complement).  `png_uint_32`, `png_uint_16`,
  `png_byte` and `guchar` are `Nat` reduced modulo `2^32`, `2^16`, `2^8`.
* Loops are structural recursions on a counter that bounds the remaining
  iterations (`length - offset`); the section on loop counters shows that the
  counters passed are sufficient.
-/

namespace FileApng

/-! ## Machine integers -/

/-- Two's complement reduction of a mathematical integer to a 32-bit `gint`. -/
def wrap32 (x : Int) : Int := (x + 2147483648) % 4294967296 - 2147483648

/-- Conversion of a `gint` to `png_uint_32`. -/
def to_uint32 (x : Int) : Nat := (x % 4294967296).toNat

/-- The cast `(gint) v` of a `png_uint_32`. -/
def to_gint (v : Nat) : Int := wrap32 (v : Int)

/-- Store into a `png_uint_16`. -/
def to_uint16 (x : Nat) : Nat := x % 65536

/-- Store into a `guchar` / `png_byte`. -/
def to_uchar (x : Nat) : Nat := x % 256

/-- The assignment `a[i] = v` on an array indexed by naturals. -/
def array_set {α : Type} (a : Nat → α) (i : Nat) (v : α) : Nat → α :=
  fun j => if j = i then v else a j

/-! ## libpng constants

The plug-in takes these from the header of the APNG-patched libpng, which is
not part of the source file; the values are those of the APNG format. -/

/-- Modelled from the spec: the disposal `None` of `DisposeOp` (the frame is
left on the canvas); the libpng header that gives it the value 0 is missing. -/
def PNG_DISPOSE_OP_NONE : Nat := 0

/-- Modelled from the spec: the disposal `Background` of `DisposeOp` (the
frame's region is cleared); the libpng header that gives it the value 1 is
missing. -/
def PNG_DISPOSE_OP_BACKGROUND : Nat := 1

/-- Modelled from the spec: the disposal `Previous` of `DisposeOp` (the
previous canvas is restored); the libpng header that gives it the value 2 is
missing. -/
def PNG_DISPOSE_OP_PREVIOUS : Nat := 2

/-- Modelled from the spec: the blend operation `Source` of `BlendOp`; the
libpng header that gives it the value 0 is missing. -/
def PNG_BLEND_OP_SOURCE : Nat := 0

/-- Modelled from the spec: the blend operation `Over` of `BlendOp`; the
libpng header that gives it the value 1 is missing. -/
def PNG_BLEND_OP_OVER : Nat := 1

/-! ## The save settings (`PngSaveVals`, `defaults`) -/

/-- The record `PngSaveVals` (lines 87-107); `gboolean` and `gint` fields are
`Int`, the APNG fields are unsigned. -/
structure PngSaveVals where
  interlaced : Int
  bkgd : Int
  gama : Int
  offs : Int
  phys : Int
  time : Int
  comment : Int
  save_transp_pixels : Int
  compression_level : Int
  as_animation : Int
  first_frame_is_hidden : Int
  num_plays : Nat
  delay_num : Nat
  delay_den : Nat
  dispose_op : Nat
  blend_op : Nat
  deriving DecidableEq, Repr

/-- The constant `defaults` (lines 228-248). -/
def defaults : PngSaveVals where
  interlaced := 0
  bkgd := 1
  gama := 0
  offs := 0
  phys := 1
  time := 1
  comment := 1
  save_transp_pixels := 1
  compression_level := 9
  as_animation := 0
  first_frame_is_hidden := 0
  num_plays := 0
  delay_num := 1
  delay_den := 100
  dispose_op := PNG_DISPOSE_OP_NONE
  blend_op := PNG_BLEND_OP_OVER

/-! ## C strings and glib character functions -/

/-- The character `str[i]` of a NUL-terminated string: NUL at (and past) the end. -/
def cstr_at (str : List Char) (i : Nat) : Char := str.getD i (Char.ofNat 0)

/-- The glib function `g_ascii_isdigit`. -/
def g_ascii_isdigit (c : Char) : Bool := decide (48 ≤ c.toNat ∧ c.toNat ≤ 57)

/-- The glib function `g_ascii_toupper`: only `a` .. `z` are changed. -/
def g_ascii_toupper (c : Char) : Char :=
  if 97 ≤ c.toNat ∧ c.toNat ≤ 122 then Char.ofNat (c.toNat - 32) else c

/-! ## `parse_ms_tag` (lines 2006-2042) -/

/-- The loop `while ((offset < length) && (str[offset] != '(')) offset++;`.
The first argument bounds the iterations still possible (`length - offset`). -/
def skip_to_bra (str : List Char) : Nat → Nat → Nat
  | 0, offset => offset
  | n + 1, offset =>
    if offset < str.length ∧ cstr_at str offset ≠ '(' then
      skip_to_bra str n (offset + 1)
    else offset

/-- The loop
`do { sum *= 10; sum += str[offset] - '0'; offset++; }
 while ((offset < length) && (g_ascii_isdigit (str[offset])));`
on the `gint` accumulator `sum`.  The body runs once before the first test;
the first argument bounds the iterations after that first one. -/
def read_digits (str : List Char) : Nat → Int → Nat → Int × Nat
  | n, sum, offset =>
    let sum1 := wrap32 (wrap32 (sum * 10) + ((cstr_at str offset).toNat - 48))
    let offset1 := offset + 1
    match n with
    | 0 => (sum1, offset1)
    | m + 1 =>
      if offset1 < str.length ∧ g_ascii_isdigit (cstr_at str offset1) = true then
        read_digits str m sum1 offset1
      else (sum1, offset1)

/-- The body of `parse_ms_tag` from the label `find_another_bra` on, entered
with the current `offset`.  The first argument bounds the number of times the
label can still be reached with `offset < length`; at `0` the scan is at the
end of the string and the function returns `-1`. -/
def parse_ms_tag_from (str : List Char) : Nat → Nat → Int
  | 0, _ => -1
  | n + 1, offset =>
    let offset1 := skip_to_bra str (str.length - offset) offset
    if offset1 ≥ str.length then -1
    else
      let offset2 := offset1 + 1
      if g_ascii_isdigit (cstr_at str offset2) = false then
        parse_ms_tag_from str n offset2
      else
        let r := read_digits str (str.length - offset2 - 1) 0 offset2
        let sum := r.1
        let offset3 := r.2
        if (str.length : Int) - (offset3 : Int) ≤ 2 then -3
        else if g_ascii_toupper (cstr_at str offset3) ≠ 'M'
            ∨ g_ascii_toupper (cstr_at str (offset3 + 1)) ≠ 'S' then -4
        else sum

/-- The function `parse_ms_tag`. -/
def parse_ms_tag (str : List Char) : Int := parse_ms_tag_from str str.length 0

/-! ## `parse_delay_tag` (lines 1980-2004) -/

/-- The loop `for (n = 1000; n > 0; n /= 10) if ((delay % n) == 0) break;`
for a non-negative `delay`, entered with the current `n`; yields the value of
`n` after the loop.  The first argument bounds the remaining iterations. -/
def delay_divisor_loop (delay : Nat) : Nat → Nat → Nat
  | 0, n => n
  | k + 1, n =>
    if n > 0 then
      if delay % n = 0 then n else delay_divisor_loop delay k (n / 10)
    else n

/-- The function `parse_delay_tag`: the pair written to `*delay_num`,
`*delay_den`. -/
def parse_delay_tag (pngvals : PngSaveVals) (str : List Char) : Nat × Nat :=
  let delay := parse_ms_tag str
  if delay < 0 then (pngvals.delay_num, pngvals.delay_den)
  else
    let n := delay_divisor_loop delay.toNat 4 1000
    (to_uint16 (delay.toNat / n), to_uint16 (1000 / n))

/-! ## `parse_dispose_op_tag` (lines 2044-2062) -/

/-- The test `strncmp (&str[offset], lit, 9) == 0` for a nine character
literal, used where `offset + 9 <= length`. -/
def strncmp9_eq (str : List Char) (offset : Nat) (lit : List Char) : Bool :=
  decide ((str.drop offset).take 9 = lit)

/-- The loop of `parse_dispose_op_tag`, entered with the current `offset`. -/
def parse_dispose_op_tag_from (pngvals : PngSaveVals) (str : List Char) : Nat → Nat → Nat
  | 0, _ => pngvals.dispose_op
  | n + 1, offset =>
    if offset + 9 ≤ str.length then
      if strncmp9_eq str offset "(combine)".toList = true then PNG_DISPOSE_OP_NONE
      else if strncmp9_eq str offset "(replace)".toList = true then PNG_DISPOSE_OP_BACKGROUND
      else parse_dispose_op_tag_from pngvals str n (offset + 1)
    else pngvals.dispose_op

/-- The function `parse_dispose_op_tag`. -/
def parse_dispose_op_tag (pngvals : PngSaveVals) (str : List Char) : Nat :=
  parse_dispose_op_tag_from pngvals str str.length 0

/-! ## Formatting of `%d` -/

/-- The decimal digit `d` as a character. -/
def digit_char (d : Nat) : Char := Char.ofNat (48 + d)

/-- Decimal digits of `n`, most significant first, pushed in front of `acc`.
The first argument bounds the number of digits. -/
def fmt_nat_aux : Nat → Nat → List Char → List Char
  | 0, _, acc => acc
  | k + 1, n, acc =>
    let acc1 := digit_char (n % 10) :: acc
    if n / 10 = 0 then acc1 else fmt_nat_aux k (n / 10) acc1

/-- Decimal text of a natural number. -/
def fmt_nat (n : Nat) : List Char := fmt_nat_aux (n + 1) n []

/-- The text `printf` produces for `%d`. -/
def fmt_d (v : Int) : List Char :=
  if v < 0 then '-' :: fmt_nat v.natAbs else fmt_nat v.toNat

/-- The decimal value of a string of digits read after the value `v`. -/
def decimal_value_from (v : Nat) (ds : List Char) : Nat :=
  ds.foldl (fun acc c => acc * 10 + (c.toNat - 48)) v

/-- The decimal value of a string of digits. -/
def decimal_value (ds : List Char) : Nat := decimal_value_from 0 ds

/-! ## Frames and layers -/

/-- The fields of a frame control chunk as `png_get_next_frame_fcTL` returns
them and `png_write_frame_head` takes them. -/
structure FcTL where
  width : Nat
  height : Nat
  x_offset : Nat
  y_offset : Nat
  delay_num : Nat
  delay_den : Nat
  dispose_op : Nat
  blend_op : Nat
  deriving DecidableEq, Repr

/-- A GIMP layer as far as the frame loops use it: its name, size and offsets. -/
structure Layer where
  name : List Char
  width : Nat
  height : Nat
  offset_x : Int
  offset_y : Int
  deriving DecidableEq, Repr

/-- What `load_image` knows of the stream when it enters the frame loop: the
image size of the header and the `oFFs` chunk, if there is one. -/
structure PngInfo where
  image_width : Nat
  image_height : Nat
  oFFs : Option (Int × Int)
  deriving DecidableEq, Repr

/-! ## The frame loop of `load_image` (lines 1053-1168) -/

/-- Lines 1088-1091: `delay = frame_delay_num * 1000 / frame_delay_den` with a
zero denominator replaced by 100. -/
def frame_delay (fctl : FcTL) : Int :=
  let frame_delay_den := if fctl.delay_den = 0 then 100 else fctl.delay_den
  ((fctl.delay_num * 1000 / frame_delay_den : Nat) : Int)

/-- Lines 1077-1103: the `delay` of a frame, `-1` when it has no control chunk. -/
def head_delay (head : Option FcTL) : Int :=
  match head with
  | some fctl => frame_delay fctl
  | none => -1

/-- Lines 1077-1115: `frame_dispose_op` as it stands after the `frame == 0`
block: the declared value, `PNG_DISPOSE_OP_NONE` without a control chunk, and
on frame 0 `PNG_DISPOSE_OP_PREVIOUS` replaced by `PNG_DISPOSE_OP_BACKGROUND`. -/
def head_dispose_op (frame : Nat) (head : Option FcTL) : Nat :=
  let frame_dispose_op :=
    match head with
    | some fctl => fctl.dispose_op
    | none => PNG_DISPOSE_OP_NONE
  if frame = 0 then
    if frame_dispose_op = PNG_DISPOSE_OP_PREVIOUS then PNG_DISPOSE_OP_BACKGROUND
    else frame_dispose_op
  else frame_dispose_op

/-- Lines 1105-1128: the name of the frame before the label is appended (the
untranslated format strings). -/
def framename_base (frame : Nat) (delay : Int) : List Char :=
  if frame = 0 then
    if delay < 0 then "Background".toList
    else "Background (".toList ++ fmt_d delay ++ "ms".toList ++ ")".toList
  else
    if delay < 0 then "Frame ".toList ++ fmt_d (to_gint ((frame + 1) % 4294967296))
    else "Frame ".toList ++ fmt_d (to_gint ((frame + 1) % 4294967296))
          ++ " (".toList ++ fmt_d delay ++ "ms".toList ++ ")".toList

/-- Lines 1130-1150: the `switch (previous_dispose_op)` that appends the label. -/
def append_dispose_label (previous_dispose_op : Nat) (framename : List Char) : List Char :=
  if previous_dispose_op = PNG_DISPOSE_OP_NONE then framename ++ " (combine)".toList
  else if previous_dispose_op = PNG_DISPOSE_OP_BACKGROUND then framename ++ " (replace)".toList
  else if previous_dispose_op = PNG_DISPOSE_OP_PREVIOUS then framename ++ " (combine) (!)".toList
  else framename

/-- Lines 1153-1162: the layer made for a frame: created at the origin, moved
to the file offset when `offset_x != 0 && offset_y != 0`, then translated by
the frame offsets cast to `gint`. -/
def place_layer (info : PngInfo) (framename : List Char) (frame_width frame_height : Nat)
    (frame_x_offset frame_y_offset : Nat) : Layer :=
  let offset_x := match info.oFFs with
    | some o => o.1
    | none => 0
  let offset_y := match info.oFFs with
    | some o => o.2
    | none => 0
  let set_x := if offset_x ≠ 0 ∧ offset_y ≠ 0 then offset_x else 0
  let set_y := if offset_x ≠ 0 ∧ offset_y ≠ 0 then offset_y else 0
  { name := framename
    width := frame_width
    height := frame_height
    offset_x := wrap32 (set_x + to_gint frame_x_offset)
    offset_y := wrap32 (set_y + to_gint frame_y_offset) }

/-- One iteration of the frame loop of `load_image`: the layer made for frame
number `frame` and the new value of `previous_dispose_op`. -/
def load_frame (info : PngInfo) (frame : Nat) (previous_dispose_op : Nat)
    (head : Option FcTL) : Layer × Nat :=
  let delay := head_delay head
  let frame_width := match head with
    | some fctl => fctl.width
    | none => info.image_width
  let frame_height := match head with
    | some fctl => fctl.height
    | none => info.image_height
  let frame_x_offset := match head with
    | some fctl => fctl.x_offset
    | none => 0
  let frame_y_offset := match head with
    | some fctl => fctl.y_offset
    | none => 0
  let frame_dispose_op := head_dispose_op frame head
  let framename := append_dispose_label previous_dispose_op (framename_base frame delay)
  (place_layer info framename frame_width frame_height frame_x_offset frame_y_offset,
   frame_dispose_op)

/-- The frame loop `for (frame = 0; frame < num_frames; frame++)`, entered at
frame number `frame` with the frame heads still to be read, the current
`previous_dispose_op` and the layer list of the image.  Each new layer is
added at position 0 (`gimp_image_add_layer (image, layer, 0)`).  Yields the
layer list and the final `previous_dispose_op`. -/
def load_frames (info : PngInfo) : List (Option FcTL) → Nat → Nat → List Layer → List Layer × Nat
  | [], _, previous_dispose_op, layers => (layers, previous_dispose_op)
  | head :: rest, frame, previous_dispose_op, layers =>
    let r := load_frame info frame previous_dispose_op head
    load_frames info rest (frame + 1) r.2 (r.1 :: layers)

/-- The animation branch of `load_image`: `previous_dispose_op` starts as
`PNG_DISPOSE_OP_NONE`, the image has no layer yet. -/
def load_image_frames (info : PngInfo) (heads : List (Option FcTL)) : List Layer :=
  (load_frames info heads 0 PNG_DISPOSE_OP_NONE []).1

/-- The layer `load_image` made for frame number `i`: layers are added at
position 0, so it is layer `N - 1 - i` of the list. -/
def frame_layer (layers : List Layer) (i : Nat) : Option Layer :=
  layers.reverse.get? i

/-! ## The frame loop of `save_image` and the frame head of `write_frame` -/

/-- Lines 1872-1888 of `write_frame`: the control chunk written for a layer.
`offx`, `offy` arrive as `png_uint_32`; the subtraction is unsigned. -/
def write_frame_head (drawable : Layer) (offx offy : Nat)
    (frame_delay_num frame_delay_den frame_dispose_op frame_blend_op : Nat) : FcTL :=
  { width := drawable.width
    height := drawable.height
    x_offset := to_uint32 (drawable.offset_x - (offx : Int))
    y_offset := to_uint32 (drawable.offset_y - (offy : Int))
    delay_num := frame_delay_num
    delay_den := frame_delay_den
    dispose_op := frame_dispose_op
    blend_op := frame_blend_op }

/-- Lines 1772-1780: the body of the loop of `save_image` for one layer. -/
def save_frame (pngvals : PngSaveVals) (offx offy : Int) (layer : Layer) : FcTL :=
  let d := parse_delay_tag pngvals layer.name
  let frame_dispose_op := to_uchar (parse_dispose_op_tag pngvals layer.name)
  write_frame_head layer (to_uint32 offx) (to_uint32 offy) d.1 d.2 frame_dispose_op
    pngvals.blend_op

/-- Lines 1764-1781: the loop `for (i = nlayers - 1; i >= 0; i--)`; the
argument is `i + 1`.  Yields the control chunks in the order written. -/
def save_frames_loop (pngvals : PngSaveVals) (offx offy : Int) (layers : List Layer) :
    Nat → List FcTL
  | 0 => []
  | i + 1 =>
    match layers.get? i with
    | some layer => save_frame pngvals offx offy layer :: save_frames_loop pngvals offx offy layers i
    | none => save_frames_loop pngvals offx offy layers i

/-- Lines 1677-1686: `offx`, `offy` of `save_image`; `base` is what
`gimp_drawable_offsets (drawable_ID, ...)` returns. -/
def save_offsets (pngvals : PngSaveVals) (base : Int × Int) : Int × Int :=
  if pngvals.offs ≠ 0 then base else (0, 0)

/-- Lines 1682-1685: the `oFFs` chunk, set when `offx != 0 || offy != 0`. -/
def save_oFFs (pngvals : PngSaveVals) (base : Int × Int) : Option (Int × Int) :=
  let off := save_offsets pngvals base
  if off.1 ≠ 0 ∨ off.2 ≠ 0 then some off else none

/-- What `save_image` writes for an animation (`nlayers > 1`): the `oFFs`
chunk, the frame count of the `acTL` chunk and the frame control chunks. -/
structure ApngStream where
  oFFs : Option (Int × Int)
  num_frames : Nat
  frames : List FcTL
  deriving DecidableEq, Repr

/-- The animation branch of `save_image` (lines 1677-1686, 1739-1782). -/
def save_image_frames (pngvals : PngSaveVals) (base : Int × Int) (layers : List Layer) :
    ApngStream :=
  let off := save_offsets pngvals base
  { oFFs := save_oFFs pngvals base
    num_frames := layers.length
    frames := save_frames_loop pngvals off.1 off.2 layers layers.length }

/-- Reading back a stream written by `save_image`: every frame has its control
chunk, the frame loop runs over the `num_frames` frames of the `acTL` chunk. -/
def load_stream (image_width image_height : Nat) (s : ApngStream) : List Layer :=
  load_image_frames
    { image_width := image_width, image_height := image_height, oFFs := s.oFFs }
    ((s.frames.take s.num_frames).map some)

/-! ## Palette re-ordering: `ia_has_transparent_pixels`, `find_unused_ia_color`,
`respin_cmap` (lines 2065-2240) -/

/-- A pixel of an indexed drawable with alpha: `pixel[0]` and `pixel[1]`. -/
structure IAPixel where
  index : Nat
  alpha : Nat
  deriving DecidableEq, Repr

/-- An entry of a colormap (`png_color`). -/
structure PngColor where
  red : Nat
  green : Nat
  blue : Nat
  deriving DecidableEq, Repr

/-- The function `ia_has_transparent_pixels` over the pixels of the drawable. -/
def ia_has_transparent_pixels (pixels : List IAPixel) : Bool :=
  pixels.any (fun pixel => decide (pixel.alpha ≤ 127))

/-- Lines 2112-2140: the pixel scan of `find_unused_ia_color`, yielding
`ix_used` and `trans_used`.  Entries of `ix_used` at and above `*colors` are
not initialised by the source and never read; they start as `false` here. -/
def scan_ia_pixels (pixels : List IAPixel) : (Nat → Bool) × Bool :=
  pixels.foldl
    (fun st pixel =>
      if pixel.alpha > 127 then (array_set st.1 pixel.index true, st.2)
      else (st.1, true))
    (fun _ => false, false)

/-- The function `find_unused_ia_color`: the returned index (`-1` for none)
and the new value of `*colors`. -/
def find_unused_ia_color (pixels : List IAPixel) (colors : Nat) : Int × Nat :=
  let st := scan_ia_pixels pixels
  if st.2 = false then (-1, colors)
  else
    match (List.range colors).find? (fun i => st.1 i = false) with
    | some i => ((i : Int), colors)
    | none =>
      if colors < 256 then (((colors + 1 - 1 : Nat) : Int), colors + 1)
      else (-1, colors)

/-- Lines 2209-2211: `for (i = 1; i <= transparent; i++) remap[i] = i - 1;`
the argument is the number of iterations done. -/
def remap_shift (remap : Nat → Nat) : Nat → (Nat → Nat)
  | 0 => remap
  | k + 1 => array_set (remap_shift remap k) (k + 1) (to_uchar k)

/-- What `respin_cmap` leaves behind: the `remap` table, whether the one byte
transparency chunk was set, the palette handed to `png_set_PLTE`, and whether
the lossy-transparency message was shown.  A palette entry is `none` where
the source reads past the colormap it got. -/
structure RespinResult where
  remap : Nat → Nat
  trns : Bool
  palette : List (Option PngColor)
  warned : Bool

/-- Lines 1617-1621 of `save_image`: `for (i = 0; i < 256; i++) remap[i] = i;`. -/
def init_remap : Nat → Nat := fun i => i

/-- Lines 2178-2187: the colormap `before` that `respin_cmap` works on; an
empty colormap is replaced by one zeroed entry. -/
def colormap_before (colormap : List PngColor) : List PngColor :=
  if colormap.length = 0 then [PngColor.mk 0 0 0] else colormap

/-- Lines 2178-2187: the colour count `colors` that `respin_cmap` works on. -/
def colormap_colors (colormap : List PngColor) : Nat :=
  if colormap.length = 0 then 1 else colormap.length

/-- The function `respin_cmap`, called with the `remap` table of `save_image`,
the colormap of the image and the pixels of the drawable. -/
def respin_cmap (remap : Nat → Nat) (colormap : List PngColor) (pixels : List IAPixel) :
    RespinResult :=
  let before := colormap_before colormap
  let colors := colormap_colors colormap
  if ia_has_transparent_pixels pixels = true then
    let r := find_unused_ia_color pixels colors
    let transparent := r.1
    let colors1 := r.2
    if transparent ≠ -1 then
      let remap1 := remap_shift (array_set remap 0 (to_uchar transparent.toNat))
        transparent.toNat
      { remap := remap1
        trns := true
        palette := (List.range colors1).map (fun i => before.get? (remap1 i))
        warned := false }
    else
      { remap := remap
        trns := false
        palette := before.map some
        warned := true }
  else
    { remap := remap
      trns := false
      palette := before.map some
      warned := false }

/-! ## The palette rows of `write_frame` (lines 1924-1958) -/

/-- Lines 1930-1931: `for (i = 0; i < 256; i++) inverse_remap[ remap[i] ] = i;`
the last argument is the number of iterations done.  `inverse_remap` is a
local array that the source does not initialise; its initial content is the
second argument. -/
def inverse_remap_loop (remap : Nat → Nat) (inverse_remap : Nat → Nat) : Nat → (Nat → Nat)
  | 0 => inverse_remap
  | i + 1 => array_set (inverse_remap_loop remap inverse_remap i) (remap i) (to_uchar i)

/-- The table `inverse_remap` of `write_frame` after its loop. -/
def build_inverse_remap (uninit : Nat → Nat) (remap : Nat → Nat) : Nat → Nat :=
  inverse_remap_loop remap uninit 256

/-- Lines 1936-1941: the loop over `k` that rewrites one row `fixed` in place,
`fixed[k] = (fixed[k*2+1] > 127) ? inverse_remap[ fixed[k*2] ] : 0;`
the last argument is the number of iterations done. -/
def fix_row_trns (inverse_remap : Nat → Nat) (fixed : Nat → Nat) : Nat → (Nat → Nat)
  | 0 => fixed
  | k + 1 =>
    let row := fix_row_trns inverse_remap fixed k
    array_set row k (if row (k * 2 + 1) > 127 then inverse_remap (row (k * 2)) else 0)

/-- Lines 1951-1954: the loop over `k` that drops the alpha bytes of one row
in place, `fixed[k] = fixed[k * 2];`. -/
def fix_row_plte (fixed : Nat → Nat) : Nat → (Nat → Nat)
  | 0 => fixed
  | k + 1 =>
    let row := fix_row_plte fixed k
    array_set row k (row (k * 2))

/-- Lines 1924-1958 for one row of an indexed drawable with alpha (`bpp == 2`):
the `width` palette indices handed to `png_write_rows`.  `trns_valid` is
`png_get_valid (pp, info, PNG_INFO_tRNS)`, `plte_valid` is
`png_get_valid (pp, info, PNG_INFO_PLTE)`, `fixed` holds the row as read from
the drawable: index and alpha byte of pixel `k` at `2 * k` and `2 * k + 1`. -/
def write_frame_row (trns_valid plte_valid : Bool) (remap uninit : Nat → Nat) (width : Nat)
    (fixed : Nat → Nat) : List Nat :=
  let fixed1 :=
    if trns_valid = true then fix_row_trns (build_inverse_remap uninit remap) fixed width
    else if plte_valid = true then fix_row_plte fixed width
    else fixed
  (List.range width).map fixed1

/-- An indexed drawable with alpha: its width and its rows, each row holding
index and alpha byte of pixel `k` at positions `2 * k` and `2 * k + 1`. -/
structure IADrawable where
  width : Nat
  rows : List (Nat → Nat)

/-- Pixel `k` of a row. -/
def row_pixel (row : Nat → Nat) (k : Nat) : IAPixel :=
  { index := row (k * 2), alpha := row (k * 2 + 1) }

/-- The pixels of a drawable, as the pixel region iterators of
`ia_has_transparent_pixels` and `find_unused_ia_color` visit them. -/
def drawable_pixels (drawable : IADrawable) : List IAPixel :=
  drawable.rows.flatMap (fun row => (List.range drawable.width).map (row_pixel row))

/-- Lines 1623-1637 of `save_image` for an indexed image with alpha: the
palette is set up from the drawable of `layers[0]` alone. -/
def save_image_palette (colormap : List PngColor) (layers : List IADrawable) : RespinResult :=
  match layers with
  | [] => respin_cmap init_remap colormap []
  | drawable :: _ => respin_cmap init_remap colormap (drawable_pixels drawable)

/-- The rows `save_image` writes for an indexed animation with alpha: every
layer goes through `write_frame` with the one `remap` table of the save; the
loop runs from `layers[nlayers - 1]` down to `layers[0]`. -/
def save_image_rows (colormap : List PngColor) (uninit : Nat → Nat) (layers : List IADrawable) :
    List (List (List Nat)) :=
  let r := save_image_palette colormap layers
  layers.reverse.map (fun drawable =>
    drawable.rows.map (write_frame_row r.trns true r.remap uninit drawable.width))

/-- A row built from a list of pixels (zero beyond them). -/
def row_of_pixels (pixels : List IAPixel) : Nat → Nat :=
  fun j =>
    match pixels.get? (j / 2) with
    | some p => if j % 2 = 0 then p.index else p.alpha
    | none => 0

/-! ## `read_frame` and `on_read_error` (lines 715-766, 1286-1391)

The rows of a frame are values of a type `α` with a value `zero` for a row of
zero bytes.  The layer's pixel region is a `FrameBuffer`: the content of each
row and whether the row has been written since the layer was created.  The
row codec is a function `codec pass row old`: the content of row `row` after
libpng has decoded it in pass `pass` into a buffer row that held `old`; a
decoding error leaves the buffer row as it was. -/

/-- The pixel region of the layer: row contents and which rows were written. -/
structure FrameBuffer (α : Type) where
  rows : Nat → α
  written : Nat → Bool

/-- Modelled from the spec: the framebuffer operation `set_rect` over full
rows, `gimp_pixel_rgn_set_rect (&pixel_rgn, pixel, 0, y, width, num)`; the
host library is not part of the source. -/
def gimp_pixel_rgn_set_rect {α : Type} (fb : FrameBuffer α) (pixel : Nat → α) (y num : Nat) :
    FrameBuffer α :=
  { rows := fun r => if y ≤ r ∧ r < y + num then pixel (r - y) else fb.rows r
    written := fun r => if y ≤ r ∧ r < y + num then true else fb.written r }

/-- Modelled from the spec: the framebuffer operation `get_rect` over full
rows, `gimp_pixel_rgn_get_rect (&pixel_rgn, pixel, 0, y, width, num)`, reading
`num` rows into the tile buffer `pixel`. -/
def gimp_pixel_rgn_get_rect {α : Type} (fb : FrameBuffer α) (pixel : Nat → α) (y num : Nat) :
    Nat → α :=
  fun i => if i < num then fb.rows (y + i) else pixel i

/-- Modelled from the spec: the row codec, `png_read_rows (pp, pixels, NULL, k)`
having decoded `k` rows of the band that starts at row `y` into the tile
buffer. -/
def png_read_rows {α : Type} (codec : Nat → Nat → α → α) (pass y : Nat) (pixel : Nat → α)
    (k : Nat) : Nat → α :=
  fun i => if i < k then codec pass (y + i) (pixel i) else pixel i

/-- The record `struct read_error_data` (lines 715-727), without the fields
that only size the rows. -/
structure ReadErrorData (α : Type) where
  pixel : Nat → α
  height : Nat
  tile_height : Nat
  begin_row : Nat
  end_row : Nat
  num : Nat

/-- Lines 750-763: the loop of `on_read_error` that writes the zeroed tile
buffer over the later bands, entered with the current `begin` and `end`.  The
first argument bounds the iterations. -/
def zero_fill_loop {α : Type} (zero : α) (tile_height height : Nat) :
    Nat → Nat → Nat → FrameBuffer α → FrameBuffer α
  | 0, _, _, fb => fb
  | n + 1, begin_row, end_row, fb =>
    if begin_row < height then
      let end1 := if end_row > height then height else end_row
      let num := end1 - begin_row
      zero_fill_loop zero tile_height height n (begin_row + tile_height) (end1 + tile_height)
        (gimp_pixel_rgn_set_rect fb (fun _ => zero) begin_row num)
    else fb

/-- The function `on_read_error` up to its `longjmp`: the half-read band is
flushed, the tile buffer is zeroed and written over every later band. -/
def on_read_error {α : Type} (zero : α) (fb : FrameBuffer α) (d : ReadErrorData α) :
    FrameBuffer α :=
  let fb1 := gimp_pixel_rgn_set_rect fb d.pixel d.begin_row d.num
  zero_fill_loop zero d.tile_height d.height d.height (d.begin_row + d.tile_height)
    (d.end_row + d.tile_height) fb1

/-- What the band loop of `read_frame` leaves: the pixel region, the tile
buffer, and whether the row codec failed (control then left through
`on_read_error`). -/
structure ReadState (α : Type) where
  fb : FrameBuffer α
  pixel : Nat → α
  truncated : Bool

/-- The row at which the row codec fails while it decodes the band
`[begin_row, end_row)` in pass `pass`, if it fails there: `fault = some (p, r)`
makes the codec fail when it is to decode row `r` in pass `p`. -/
def fault_in_band (fault : Option (Nat × Nat)) (pass begin_row end_row : Nat) : Option Nat :=
  match fault with
  | some (p, r) => if p = pass ∧ begin_row ≤ r ∧ r < end_row then some r else none
  | none => none

/-- Lines 1358-1384: the band loop of `read_frame` for one pass, entered with
the current `begin` and `end`.  When the row codec fails at row `r` of the
band, the rows before `r` are in the tile buffer and control goes to
`on_read_error`.  The first argument bounds the iterations. -/
def read_band_loop {α : Type} (codec : Nat → Nat → α → α) (zero : α)
    (fault : Option (Nat × Nat)) (tile_height frame_height pass : Nat) :
    Nat → Nat → Nat → FrameBuffer α → (Nat → α) → ReadState α
  | 0, _, _, fb, pixel => { fb := fb, pixel := pixel, truncated := false }
  | n + 1, begin_row, end_row, fb, pixel =>
    if begin_row < frame_height then
      let end1 := if end_row > frame_height then frame_height else end_row
      let num := end1 - begin_row
      let pixel1 := if pass ≠ 0 then gimp_pixel_rgn_get_rect fb pixel begin_row num else pixel
      match fault_in_band fault pass begin_row end1 with
      | some r =>
        { fb := on_read_error zero fb
            { pixel := png_read_rows codec pass begin_row pixel1 (r - begin_row)
              height := frame_height
              tile_height := tile_height
              begin_row := begin_row
              end_row := end1
              num := num }
          pixel := fun _ => zero
          truncated := true }
      | none =>
        read_band_loop codec zero fault tile_height frame_height pass n
          (begin_row + tile_height) (end1 + tile_height)
          (gimp_pixel_rgn_set_rect fb (png_read_rows codec pass begin_row pixel1 num)
            begin_row num)
          (fun _ => zero)
    else { fb := fb, pixel := pixel, truncated := false }

/-- Lines 1352-1385: the loop over the passes, entered with the current
`pass`; the first argument is the number of passes still to run. -/
def read_pass_loop {α : Type} (codec : Nat → Nat → α → α) (zero : α)
    (fault : Option (Nat × Nat)) (tile_height frame_height : Nat) :
    Nat → Nat → FrameBuffer α → (Nat → α) → ReadState α
  | 0, _, fb, pixel => { fb := fb, pixel := pixel, truncated := false }
  | n + 1, pass, fb, pixel =>
    let s := read_band_loop codec zero fault tile_height frame_height pass frame_height 0
      tile_height fb pixel
    if s.truncated = true then s
    else read_pass_loop codec zero fault tile_height frame_height n (pass + 1) s.fb s.pixel

/-- Lines 1327-1385 of `read_frame`: the tile buffer starts zeroed (`g_new0`),
no row of the new layer has been written; `init` is the content the rows of
the layer have before they are written. -/
def read_frame {α : Type} (codec : Nat → Nat → α → α) (zero : α) (init : Nat → α)
    (fault : Option (Nat × Nat)) (tile_height frame_height num_passes : Nat) : ReadState α :=
  read_pass_loop codec zero fault tile_height frame_height num_passes 0
    { rows := init, written := fun _ => false } (fun _ => zero)

/-- The content of a row once the passes before `pass` have decoded it: the
zeroed buffer row refined by each pass in turn. -/
def refined {α : Type} (codec : Nat → Nat → α → α) (zero : α) : Nat → Nat → α
  | 0, _ => zero
  | pass + 1, row => codec pass row (refined codec zero pass row)

/-- A codec for the examples, not interlaced: rows are numbers and decoding
row `row` stores `row + 1`. -/
def example_codec (_pass row _old : Nat) : Nat := row + 1

/-- A codec for the examples, interlaced the way the first two passes of
Adam7 are: both passes touch only the rows that are multiples of 8 and add
to what the row holds. -/
def example_interlaced_codec (pass row old : Nat) : Nat :=
  if row % 8 = 0 then old + row + pass + 1 else old

/-! ## The error path of `load_image` and the load branch of `run`
(lines 499-516, 704-711, 785-810, 1279) -/

/-- Modelled from the spec: the status the load procedure hands back to its
caller, success or an error; the libgimp header that declares
`GimpPDBStatusType` is missing. -/
inductive GimpPDBStatusType where
  | GIMP_PDB_EXECUTION_ERROR
  | GIMP_PDB_CALLING_ERROR
  | GIMP_PDB_PASS_THROUGH
  | GIMP_PDB_SUCCESS
  | GIMP_PDB_CANCEL
  deriving DecidableEq, Repr

/-- The messages `load_image` can put into `*error`. -/
inductive LoadError where
  | error_while_reading
  | could_not_open
  | unknown_color_model
  | could_not_create_image
  deriving DecidableEq, Repr

/-- Where libpng raises an error during `load_image`, ending in `longjmp` to
the `setjmp` of line 800. -/
inductive LoadFault where
  | no_fault
  | in_read_info
  | in_frame_rows
  deriving DecidableEq, Repr

/-- What `load_image` meets: whether the file opens, where libpng fails,
whether the colour type is known, and the ID `gimp_image_new` returns. -/
structure LoadInput where
  fopen_ok : Bool
  fault : LoadFault
  color_type_known : Bool
  new_image : Int
  deriving DecidableEq, Repr

/-- The control flow of `load_image`: the returned image ID and `*error`.
The `setjmp` branch sets the error and returns the current value of the
`volatile` variable `image`: `-1` until `gimp_image_new` has returned, the new
image after that. -/
def load_image (inp : LoadInput) : Int × Option LoadError :=
  if inp.fopen_ok = false then (-1, some LoadError.could_not_open)
  else if inp.fault = LoadFault.in_read_info then (-1, some LoadError.error_while_reading)
  else if inp.color_type_known = false then (-1, some LoadError.unknown_color_model)
  else if inp.new_image = -1 then (-1, some LoadError.could_not_create_image)
  else if inp.fault = LoadFault.in_frame_rows then
    (inp.new_image, some LoadError.error_while_reading)
  else (inp.new_image, none)

/-- A return value of the load procedure after the status. -/
inductive ReturnValue where
  | image (id : Int)
  | message (e : LoadError)
  deriving DecidableEq, Repr

/-- What `run` returns for the load procedure: `values[0].data.d_status`,
`*nreturn_vals` and `values[1]`. -/
structure RunResult where
  status : GimpPDBStatusType
  nreturn_vals : Nat
  value1 : Option ReturnValue
  deriving DecidableEq, Repr

/-- The load branch of `run` (lines 484-516) followed by its last lines
(704-711). -/
def run_load (inp : LoadInput) : RunResult :=
  let r := load_image inp
  let image_ID := r.1
  let error := r.2
  let status :=
    if image_ID ≠ -1 then GimpPDBStatusType.GIMP_PDB_SUCCESS
    else GimpPDBStatusType.GIMP_PDB_EXECUTION_ERROR
  let nreturn_vals := if image_ID ≠ -1 then 2 else 1
  let value1 := if image_ID ≠ -1 then some (ReturnValue.image image_ID) else none
  match error with
  | some e =>
    if status ≠ GimpPDBStatusType.GIMP_PDB_SUCCESS then
      { status := status, nreturn_vals := 2, value1 := some (ReturnValue.message e) }
    else { status := status, nreturn_vals := nreturn_vals, value1 := value1 }
  | none => { status := status, nreturn_vals := nreturn_vals, value1 := value1 }

/-- A load in which the file opens, the image with ID 1 is created and the
row codec fails while the rows of a frame are read. -/
def example_truncated_load : LoadInput :=
  { fopen_ok := true, fault := LoadFault.in_frame_rows, color_type_known := true,
    new_image := 1 }

/-! ## The animation header and the order of the frames of `save_image`
(lines 1739-1788) -/

/-- Lines 1739-1749 of `save_image`: the frame count handed to `png_set_acTL`,
which is called only when `nlayers > 1`. -/
def save_image_acTL (nlayers : Nat) : Option Nat :=
  if nlayers > 1 then some nlayers else none

/-- The loop `for (i = nlayers - 1; i >= 0; i--)` of lines 1764-1781: the
indices `i` of the layers `layers[i]` handed to `write_frame`, in the order of
the calls; the argument is `i + 1`. -/
def save_layer_order : Nat → List Nat
  | 0 => []
  | i + 1 => i :: save_layer_order i

/-- Lines 1761-1788: the indices of the layers handed to `write_frame`: the
loop when `nlayers > 1`, otherwise `layers[0]` alone. -/
def save_image_layer_order (nlayers : Nat) : List Nat :=
  if nlayers > 1 then save_layer_order nlayers else [0]

/-! ## The persisted defaults: `load_defaults`, `save_defaults` (lines 2400-2466) -/

/-- The C library test `isspace` in the C locale: space and the controls
9 .. 13. -/
def isspace (c : Char) : Bool := decide (c.toNat = 32 ∨ (9 ≤ c.toNat ∧ c.toNat ≤ 13))

/-- The glib function `g_strndup`: at most `n` bytes, up to the first NUL. -/
def g_strndup (str : List Char) (n : Nat) : List Char :=
  (str.take n).takeWhile (fun c => decide (c ≠ Char.ofNat 0))

/-- One conversion `%d` of `sscanf`: white space is skipped, an optional sign
is read, then one or more decimal digits.  Yields the value and the rest of
the input; `none` when no digit is there.  The value is the mathematical one,
which is what `sscanf` stores when the digits denote a value in the range of
`int` (-2147483648 .. 2147483647); for other digits C leaves the stored value
undefined, and what is stated about stored values is stated for that range. -/
def scan_d (s : List Char) : Option (Int × List Char) :=
  let s1 := s.dropWhile isspace
  let s2 := if cstr_at s1 0 = '-' ∨ cstr_at s1 0 = '+' then s1.drop 1 else s1
  let ds := s2.takeWhile g_ascii_isdigit
  if ds = [] then none
  else
    some (if cstr_at s1 0 = '-' then -((decimal_value ds : Nat) : Int)
          else ((decimal_value ds : Nat) : Int),
          s2.dropWhile g_ascii_isdigit)

/-- The call `sscanf (def_str, "%d %d ... %d", ...)` with `k` conversions:
the values assigned, in order, up to the first conversion that fails.  The
white space of the format matches any amount of white space, none included,
which `%d` skips anyway. -/
def sscanf_d : Nat → List Char → List Int
  | 0, _ => []
  | k + 1, s =>
    match scan_d s with
    | none => []
    | some (v, rest) => v :: sscanf_d k rest

/-- The value `sscanf` returns for the values `fields` it has assigned: their
number, or `EOF` (-1) when the input ends before the first conversion. -/
def sscanf_return (s : List Char) (fields : List Int) : Int :=
  if fields = [] ∧ s.dropWhile isspace = [] then -1 else (fields.length : Int)

/-- The function `load_defaults`: the new value of `pngvals`.  `tmpvals` is the
content of the local record before `sscanf` writes to it (only the fields that
are converted are assigned); `parasite` is the data of the parasite, if it is
found. -/
def load_defaults (tmpvals : PngSaveVals) (parasite : Option (List Char)) : PngSaveVals :=
  match parasite with
  | some data =>
    let def_str := g_strndup data data.length
    let fields := sscanf_d 9 def_str
    let num_fields := sscanf_return def_str fields
    let tmpvals1 : PngSaveVals :=
      { tmpvals with
        interlaced := fields.getD 0 tmpvals.interlaced
        bkgd := fields.getD 1 tmpvals.bkgd
        gama := fields.getD 2 tmpvals.gama
        offs := fields.getD 3 tmpvals.offs
        phys := fields.getD 4 tmpvals.phys
        time := fields.getD 5 tmpvals.time
        comment := fields.getD 6 tmpvals.comment
        save_transp_pixels := fields.getD 7 tmpvals.save_transp_pixels
        compression_level := fields.getD 8 tmpvals.compression_level }
    if num_fields = 9 then tmpvals1 else defaults
  | none => defaults

/-- The function `save_defaults`: the data of the parasite it attaches, the
text printed with `"%d %d %d %d %d %d %d %d %d"`. -/
def save_defaults (pngvals : PngSaveVals) : List Char :=
  fmt_d pngvals.interlaced ++ ' ' :: (fmt_d pngvals.bkgd ++ ' ' :: (fmt_d pngvals.gama
    ++ ' ' :: (fmt_d pngvals.offs ++ ' ' :: (fmt_d pngvals.phys ++ ' ' :: (fmt_d pngvals.time
    ++ ' ' :: (fmt_d pngvals.comment ++ ' ' :: (fmt_d pngvals.save_transp_pixels
    ++ ' ' :: fmt_d pngvals.compression_level)))))))

/-- The get-defaults branch of `run` (lines 655-677): `values[1]` ..
`values[9]`. -/
def run_get_defaults (tmpvals : PngSaveVals) (parasite : Option (List Char)) : List Int :=
  let pngvals := load_defaults tmpvals parasite
  [pngvals.interlaced, pngvals.compression_level, pngvals.bkgd, pngvals.gama, pngvals.offs,
   pngvals.phys, pngvals.time, pngvals.comment, pngvals.save_transp_pixels]

/-- The set-defaults branch of `run` (lines 678-698): the status, the new
`pngvals` and the parasite attached by `save_defaults`, if it is called. -/
def run_set_defaults (pngvals : PngSaveVals) (param : List Int) :
    GimpPDBStatusType × PngSaveVals × Option (List Char) :=
  match param with
  | [p0, p1, p2, p3, p4, p5, p6, p7, p8] =>
    let pngvals1 : PngSaveVals :=
      { pngvals with
        interlaced := p0
        compression_level := p1
        bkgd := p2
        gama := p3
        offs := p4
        phys := p5
        time := p6
        comment := p7
        save_transp_pixels := p8 }
    (GimpPDBStatusType.GIMP_PDB_SUCCESS, pngvals1, some (save_defaults pngvals1))
  | _ => (GimpPDBStatusType.GIMP_PDB_CALLING_ERROR, pngvals, none)

/-! ## The band loop of `read_frame` and `write_frame` -/

/-- The band loop of `read_frame` (lines 1358-1362) and of `write_frame`
(lines 1893-1899),
`for (begin = 0, end = tile_height; begin < height;
      begin += tile_height, end += tile_height)
   { if (end > height) end = height; num = end - begin; ... }`,
entered with the current `begin` and `end`: the bands `(begin, end)` whose rows
the body handles, in the order of the iterations.  The first argument bounds
the iterations; the result is `none` when the bound is used up before the loop
condition fails.  Heights and tile heights stay far below the limit of `gint`,
so the sums are taken without wrapping. -/
def band_loop (tile_height height : Nat) : Nat → Nat → Nat → Option (List (Nat × Nat))
  | 0, _, _ => none
  | n + 1, begin_row, end_row =>
    if begin_row < height then
      let end1 := if end_row > height then height else end_row
      (band_loop tile_height height n (begin_row + tile_height) (end1 + tile_height)).map
        (fun bands => (begin_row, end1) :: bands)
    else some []

/-- The bands of one pass: the loop starts with `begin = 0`,
`end = tile_height` in every pass. -/
def pass_bands (tile_height height : Nat) : Option (List (Nat × Nat)) :=
  band_loop tile_height height (height + 1) 0 tile_height

/-! ## The colormap of an indexed image with a `tRNS` chunk
(lines 872-887, 1025-1051, 1393-1423) -/

/-- Lines 875-881 of `load_image`: the table `alpha`: the entries of the `tRNS`
chunk, then 255. -/
def load_alpha (alpha_ptr : List Nat) : Nat → Nat :=
  fun i => if i < alpha_ptr.length then to_uchar (alpha_ptr.getD i 0) else 255

/-- Line 1036: the loop
`for (empty = 0; empty < 256 && alpha[empty] == 0; ++empty);`
entered with the current `empty`.  The first argument bounds the iterations. -/
def count_empty (alpha : Nat → Nat) : Nat → Nat → Nat
  | 0, empty => empty
  | n + 1, empty =>
    if empty < 256 ∧ alpha empty = 0 then count_empty alpha n (empty + 1) else empty

/-- Lines 1036-1040: `empty` after `empty = MIN (empty, num_palette - 1)`. -/
def load_empty (alpha : Nat → Nat) (num_palette : Int) : Int :=
  min ((count_empty alpha 256 0 : Nat) : Int) (num_palette - 1)

/-- Lines 1042-1043: the colormap `gimp_image_set_colormap` is given, the
`num_palette - empty` entries from `palette + empty` on; an entry is `none`
where that is outside the palette. -/
def load_colormap (palette : List PngColor) (empty : Int) : List (Option PngColor) :=
  (List.range ((palette.length : Int) - empty).toNat).map
    (fun (j : Nat) =>
      if 0 ≤ empty + (j : Int) then palette.get? (empty + (j : Int)).toNat else none)

/-- Lines 1414-1415 of `read_frame`: a decoded palette index `p` becomes the
pixel `pixel[1] = alpha[p]`, `pixel[0] = p - empty` (a byte). -/
def read_frame_trns_pixel (alpha : Nat → Nat) (empty : Int) (p : Nat) : IAPixel :=
  { index := (((p : Int) - empty) % 256).toNat, alpha := alpha p }

/-! ## The bit depth of `save_image` (lines 1591-1605) -/

/-- Lines 1594-1605 of `save_image`: the bit depth written in the header.
`num_colors` is what the local variable of that name holds when line 1598
reads it; no statement before that line assigns it (its only assignment is in
line 1629), so it is the indeterminate initial content of the variable, not
the colour count of the colormap. -/
def save_image_bit_depth (color_type_palette : Bool) (num_colors : Int) : Nat :=
  if color_type_palette = true then
    if num_colors ≤ 2 then 1
    else if num_colors ≤ 4 then 2
    else if num_colors ≤ 16 then 4
    else 8
  else 8

/-! ## Reference definitions that follow the wording of the specification -/

/-- A delay tag at the start of `s`: `(`, one or more ASCII digits, `ms` in
any letter case, `)`.  Yields the decimal value of the digits. -/
def ms_tag_here (s : List Char) : Option Nat :=
  match s with
  | [] => none
  | c :: rest =>
    if c = '(' then
      match rest.takeWhile g_ascii_isdigit, rest.dropWhile g_ascii_isdigit with
      | _ :: _, m :: s1 :: c2 :: _ =>
        if (m = 'm' ∨ m = 'M') ∧ (s1 = 's' ∨ s1 = 'S') ∧ c2 = ')' then
          some (decimal_value (rest.takeWhile g_ascii_isdigit))
        else none
      | _, _ => none
    else none

/-- The value of the first (leftmost) delay tag of a name, if it has one. -/
def first_ms_tag : List Char → Option Nat
  | [] => none
  | c :: cs =>
    match ms_tag_here (c :: cs) with
    | some v => some v
    | none => first_ms_tag cs

/-- The part of a name that starts at the leftmost `(` which is immediately
followed by an ASCII digit, if there is one. -/
def first_bra_digit : List Char → Option (List Char)
  | [] => none
  | c :: cs =>
    if c = '(' ∧ g_ascii_isdigit (cstr_at cs 0) = true then some (c :: cs)
    else first_bra_digit cs

/-- The layers the frame loop of `load_image` makes, listed in frame order
(the loop itself adds each at position 0 of the layer list). -/
def load_frames_in_order (info : PngInfo) : List (Option FcTL) → Nat → Nat → List Layer
  | [], _, _ => []
  | head :: rest, frame, previous_dispose_op =>
    (load_frame info frame previous_dispose_op head).1
      :: load_frames_in_order info rest (frame + 1)
          (load_frame info frame previous_dispose_op head).2

/-- Reference: the blob that consists of the given integers in decimal,
separated by single spaces. -/
def blob_of_integers : List Int → List Char
  | [] => []
  | [v] => fmt_d v
  | v :: w :: vs => fmt_d v ++ ' ' :: blob_of_integers (w :: vs)

/-- Reference: the nine persisted fields of a settings record, in the order of
the blob. -/
def persisted_fields (v : PngSaveVals) : List Int :=
  [v.interlaced, v.bkgd, v.gama, v.offs, v.phys, v.time, v.comment, v.save_transp_pixels,
   v.compression_level]

/-- Reference: the bit depth the number of colours of a colormap calls for. -/
def palette_bit_depth (colors : Nat) : Nat :=
  if colors ≤ 2 then 1 else if colors ≤ 4 then 2 else if colors ≤ 16 then 4 else 8

/-! ## Concrete inputs used by the examples -/

/-- A one by one layer with the given name and offsets. -/
def example_layer (name : String) (x y : Int) : Layer :=
  { name := name.toList, width := 1, height := 1, offset_x := x, offset_y := y }

/-- A frame control chunk of a one by one frame at the origin with delay
1/10 s and the given disposal. -/
def example_fctl (dispose_op : Nat) : FcTL :=
  { width := 1, height := 1, x_offset := 0, y_offset := 0, delay_num := 1, delay_den := 10,
    dispose_op := dispose_op, blend_op := PNG_BLEND_OP_SOURCE }

/-- The stream information of a one by one image without an `oFFs` chunk. -/
def example_info : PngInfo := { image_width := 1, image_height := 1, oFFs := none }

/-- The settings `defaults` with the session disposal set to `dispose_op`. -/
def defaults_with_dispose (dispose_op : Nat) : PngSaveVals :=
  { defaults with dispose_op := dispose_op }

/-- The settings `defaults` with the save-layer-offset option switched on. -/
def defaults_with_offs : PngSaveVals := { defaults with offs := 1 }

/-- A colormap of four entries. -/
def example_colormap : List PngColor :=
  [PngColor.mk 255 0 0, PngColor.mk 0 255 0, PngColor.mk 0 0 255, PngColor.mk 9 9 9]

/-- Pixels that use indices 0, 1, 2 opaquely and index 3 only transparently. -/
def example_pixels : List IAPixel :=
  [IAPixel.mk 0 255, IAPixel.mk 1 255, IAPixel.mk 2 200, IAPixel.mk 3 0]

/-- A colormap of 256 grey entries. -/
def full_colormap : List PngColor := (List.range 256).map (fun i => PngColor.mk i i i)

/-- Pixels that use every index 0..255 opaquely, and one transparent pixel. -/
def full_pixels : List IAPixel :=
  IAPixel.mk 0 0 :: (List.range 256).map (fun i => IAPixel.mk i 255)

/-- A one row drawable holding the given pixels. -/
def example_drawable (pixels : List IAPixel) : IADrawable :=
  { width := pixels.length, rows := [row_of_pixels pixels] }

/-- A colormap of two entries. -/
def two_colormap : List PngColor := [PngColor.mk 255 0 0, PngColor.mk 0 255 0]

/-- Pixels that use both indices of a two-colour colormap opaquely, and one
transparent pixel. -/
def two_pixels : List IAPixel := [IAPixel.mk 0 255, IAPixel.mk 1 255, IAPixel.mk 0 0]

/-- The literal `lit` occurs in `str` at position `i`. -/
def occurs_at (lit str : List Char) (i : Nat) : Prop :=
  (str.drop i).take lit.length = lit

instance (lit str : List Char) (i : Nat) : Decidable (occurs_at lit str i) := by
  unfold occurs_at; infer_instance

/-- The members of `{1000, 100, 10, 1}`. -/
def powers_of_ten : List Nat := [1000, 100, 10, 1]

end FileApng

namespace FileApng

/-! ## Machine integer facts -/

theorem wrap32_of_range (x : Int) (h0 : 0 ≤ x) (h1 : x < 2147483648) : wrap32 x = x := by
  unfold wrap32; omega

theorem to_uint16_of_le (x : Nat) (h : x ≤ 65535) : to_uint16 x = x := by
  unfold to_uint16; omega

/-! ## C string facts -/

theorem cstr_at_append (a r : List Char) (i : Nat) :
    cstr_at (a ++ r) (a.length + i) = cstr_at r i := by
  induction a with
  | nil => simp
  | cons c a ih =>
    have : (c :: a).length + i = (a.length + i) + 1 := by simp; omega
    rw [List.cons_append, this]
    simpa [cstr_at] using ih

theorem cstr_at_append_zero (a r : List Char) : cstr_at (a ++ r) a.length = cstr_at r 0 := by
  simpa using cstr_at_append a r 0

theorem cstr_at_cons_zero (c : Char) (r : List Char) : cstr_at (c :: r) 0 = c := by
  simp [cstr_at]

theorem cstr_at_nil (i : Nat) : cstr_at [] i = Char.ofNat 0 := by
  simp [cstr_at]

theorem isdigit_nul : g_ascii_isdigit (Char.ofNat 0) = false := by decide

/-! ## The loop counters are sufficient -/

theorem skip_to_bra_ge (str : List Char) : ∀ (n o : Nat), o ≤ skip_to_bra str n o := by
  intro n
  induction n with
  | zero => intro o; exact le_refl _
  | succ n ih =>
    intro o
    simp only [skip_to_bra]
    split
    · exact le_trans (Nat.le_succ o) (ih (o + 1))
    · exact le_refl _

/-- On return from `skip_to_bra` the condition of the `while` loop is false. -/
theorem skip_to_bra_exit (str : List Char) :
    ∀ (n o : Nat), str.length - o ≤ n →
      ¬ (skip_to_bra str n o < str.length ∧ cstr_at str (skip_to_bra str n o) ≠ '(') := by
  intro n
  induction n with
  | zero =>
    intro o h
    simp only [skip_to_bra]
    omega
  | succ n ih =>
    intro o h
    simp only [skip_to_bra]
    split
    · exact ih (o + 1) (by omega)
    · assumption

/-- On return from `read_digits` the condition of the `do ... while` loop is
false. -/
theorem read_digits_exit (str : List Char) :
    ∀ (n : Nat) (sum : Int) (o : Nat), str.length - o ≤ n + 1 →
      ¬ ((read_digits str n sum o).2 < str.length ∧
          g_ascii_isdigit (cstr_at str (read_digits str n sum o).2) = true) := by
  intro n
  induction n with
  | zero =>
    intro sum o h
    unfold read_digits
    simp only []
    omega
  | succ n ih =>
    intro sum o h
    unfold read_digits
    simp only []
    split
    · exact ih _ (o + 1) (by omega)
    · assumption

/-- The result of `parse_ms_tag_from` does not depend on the counter once it
covers the rest of the string: the base case of the counter is only reached
at the end of the string, where the source returns `-1`. -/
theorem parse_ms_tag_from_counter (str : List Char) :
    ∀ (n m o : Nat), str.length - o ≤ n → str.length - o ≤ m →
      parse_ms_tag_from str n o = parse_ms_tag_from str m o := by
  have hend : ∀ (k o : Nat), str.length ≤ o → parse_ms_tag_from str k o = -1 := by
    intro k o h
    cases k with
    | zero => rfl
    | succ k =>
      simp only [parse_ms_tag_from]
      rw [if_pos (le_trans h (skip_to_bra_ge str _ o))]
  intro n
  induction n with
  | zero =>
    intro m o hn _
    rw [hend 0 o (by omega), hend m o (by omega)]
  | succ n ih =>
    intro m o hn hm
    cases m with
    | zero => rw [hend (n + 1) o (by omega), hend 0 o (by omega)]
    | succ m =>
      have hge := skip_to_bra_ge str (str.length - o) o
      simp only [parse_ms_tag_from]
      by_cases h1 : skip_to_bra str (str.length - o) o ≥ str.length
      · rw [if_pos h1, if_pos h1]
      · rw [if_neg h1, if_neg h1]
        by_cases h2 : g_ascii_isdigit
            (cstr_at str (skip_to_bra str (str.length - o) o + 1)) = false
        · rw [if_pos h2, if_pos h2]
          exact ih m _ (by omega) (by omega)
        · rw [if_neg h2, if_neg h2]

/-- The result of `parse_dispose_op_tag_from` does not depend on the counter
once it covers the rest of the string. -/
theorem parse_dispose_op_tag_from_counter (pngvals : PngSaveVals) (str : List Char) :
    ∀ (n m o : Nat), str.length - o ≤ n → str.length - o ≤ m →
      parse_dispose_op_tag_from pngvals str n o = parse_dispose_op_tag_from pngvals str m o := by
  have hend : ∀ (k o : Nat), str.length ≤ o →
      parse_dispose_op_tag_from pngvals str k o = pngvals.dispose_op := by
    intro k o h
    cases k with
    | zero => rfl
    | succ k =>
      simp only [parse_dispose_op_tag_from]
      rw [if_neg (by omega)]
  intro n
  induction n with
  | zero =>
    intro m o hn _
    rw [hend 0 o (by omega), hend m o (by omega)]
  | succ n ih =>
    intro m o hn hm
    cases m with
    | zero => rw [hend (n + 1) o (by omega), hend 0 o (by omega)]
    | succ m =>
      simp only [parse_dispose_op_tag_from]
      rw [ih m (o + 1) (by omega) (by omega)]

/-- The loop of `save_image` writes one frame for each layer: the branch for a
missing layer is never taken. -/
theorem save_frames_loop_length (pngvals : PngSaveVals) (offx offy : Int)
    (layers : List Layer) :
    ∀ (i : Nat), i ≤ layers.length →
      (save_frames_loop pngvals offx offy layers i).length = i := by
  intro i
  induction i with
  | zero => intro _; rfl
  | succ i ih =>
    intro h
    have hlt : i < layers.length := by omega
    simp only [save_frames_loop, List.get?_eq_get hlt, List.length_cons, ih (by omega)]

/-! ## `parse_delay_tag` -/

theorem delay_divisor_loop_eq (d : Nat) :
    delay_divisor_loop d 4 1000 =
      if d % 1000 = 0 then 1000 else if d % 100 = 0 then 100 else if d % 10 = 0 then 10 else 1 := by
  simp [delay_divisor_loop, Nat.mod_one]

/-- The loop of `parse_delay_tag` always leaves through its `break`: the final
`n` is positive and divides the delay. -/
theorem delay_divisor_loop_break (d : Nat) :
    0 < delay_divisor_loop d 4 1000 ∧ d % delay_divisor_loop d 4 1000 = 0 := by
  rw [delay_divisor_loop_eq]
  split_ifs <;> omega

/-- C1. For every layer name whose delay tag parses to a millisecond value `d`
with `0 <= d <= 65535`, `parse_delay_tag` outputs `delay_num = d / n` and
`delay_den = 1000 / n`, where `n` is the largest element of
`{1000, 100, 10, 1}` that divides `d`. -/
theorem parse_delay_tag_power_of_ten (pngvals : PngSaveVals) (str : List Char) (d n : Nat)
    (hparse : parse_ms_tag str = (d : Int)) (hd : d ≤ 65535)
    (hn : n ∈ powers_of_ten) (hdiv : n ∣ d)
    (hmax : ∀ m ∈ powers_of_ten, m ∣ d → m ≤ n) :
    parse_delay_tag pngvals str = (d / n, 1000 / n) := by
  have hloop : delay_divisor_loop d 4 1000 = n := by
    rw [delay_divisor_loop_eq]
    have h1000 := hmax 1000 (by simp [powers_of_ten])
    have h100 := hmax 100 (by simp [powers_of_ten])
    have h10 := hmax 10 (by simp [powers_of_ten])
    simp only [Nat.dvd_iff_mod_eq_zero] at h1000 h100 h10 hdiv
    simp only [powers_of_ten, List.mem_cons, List.mem_singleton, List.not_mem_nil, or_false] at hn
    rcases hn with rfl | rfl | rfl | rfl <;> split_ifs <;> omega
  have hnpos : 0 < n := by
    simp only [powers_of_ten, List.mem_cons, List.mem_singleton, List.not_mem_nil, or_false] at hn
    omega
  have hq : d / n ≤ 65535 := le_trans (Nat.div_le_self d n) hd
  have hq2 : 1000 / n ≤ 65535 := le_trans (Nat.div_le_self 1000 n) (by omega)
  unfold parse_delay_tag
  simp only [hparse, Int.toNat_ofNat, hloop]
  rw [if_neg (by omega), to_uint16_of_le _ hq, to_uint16_of_le _ hq2]

/-- Witness for C1: the name `Frame 2 (120ms)` parses to 120 ms, the largest
power of ten dividing 120 is 10, and the output is 12/100. -/
theorem parse_delay_tag_power_of_ten_witness :
    parse_ms_tag "Frame 2 (120ms)".toList = ((120 : Nat) : Int) ∧
      parse_delay_tag defaults "Frame 2 (120ms)".toList = (12, 100) :=
  ⟨by decide,
   parse_delay_tag_power_of_ten defaults "Frame 2 (120ms)".toList 120 10 (by decide) (by decide)
     (by decide) (by decide) (by decide)⟩

/-! ## `parse_ms_tag` -/

theorem skip_to_bra_at_bra (str : List Char) (k o : Nat) (h : cstr_at str o = '(') :
    skip_to_bra str k o = o := by
  cases k with
  | zero => rfl
  | succ k => simp [skip_to_bra, h]

theorem skip_to_bra_step (str : List Char) (o : Nat) (h1 : o < str.length)
    (h2 : cstr_at str o ≠ '(') :
    skip_to_bra str (str.length - o) o = skip_to_bra str (str.length - (o + 1)) (o + 1) := by
  obtain ⟨k, hk⟩ : ∃ k, str.length - o = k + 1 := ⟨str.length - o - 1, by omega⟩
  have hk2 : str.length - (o + 1) = k := by omega
  rw [hk, hk2, skip_to_bra, if_pos ⟨h1, h2⟩]

theorem parse_ms_tag_from_skip (str : List Char) (n o : Nat) (h1 : o < str.length)
    (h2 : cstr_at str o ≠ '(') :
    parse_ms_tag_from str (n + 1) o = parse_ms_tag_from str (n + 1) (o + 1) := by
  simp only [parse_ms_tag_from]
  rw [skip_to_bra_step str o h1 h2]

theorem decimal_value_from_ge (ds : List Char) (v : Nat) : v ≤ decimal_value_from v ds := by
  induction ds generalizing v with
  | nil => simp [decimal_value_from]
  | cons c ds ih =>
    have h := ih (v * 10 + (c.toNat - 48))
    simp only [decimal_value_from, List.foldl_cons] at h ⊢
    omega

theorem read_digits_value (ds : List Char) :
    ∀ (a b : List Char) (v n : Nat), ds ≠ [] → ds.length ≤ n + 1 →
      (∀ c ∈ ds, g_ascii_isdigit c = true) →
      g_ascii_isdigit (cstr_at b 0) = false →
      decimal_value_from v ds < 2147483648 →
      read_digits (a ++ (ds ++ b)) n (v : Int) a.length
        = (((decimal_value_from v ds : Nat) : Int), a.length + ds.length) := by
  induction ds with
  | nil => intro a b v n h; exact absurd rfl h
  | cons c ds ih =>
    intro a b v n _ hfuel hdig hb hlt
    have hc : g_ascii_isdigit c = true := hdig c (List.mem_cons_self _ _)
    have hc2 : 48 ≤ c.toNat := by
      simp only [g_ascii_isdigit, decide_eq_true_eq] at hc; exact hc.1
    have hge := decimal_value_from_ge ds (v * 10 + (c.toNat - 48))
    have hlt2 : decimal_value_from (v * 10 + (c.toNat - 48)) ds < 2147483648 := by
      simpa [decimal_value_from] using hlt
    have hval : decimal_value_from v (c :: ds)
        = decimal_value_from (v * 10 + (c.toNat - 48)) ds := by
      simp [decimal_value_from]
    have hsum : wrap32 (wrap32 ((v : Int) * 10) + (((cstr_at (a ++ (c :: ds ++ b)) a.length).toNat : Int) - 48))
        = ((v * 10 + (c.toNat - 48) : Nat) : Int) := by
      rw [cstr_at_append_zero, List.cons_append, cstr_at_cons_zero]
      have h1 : wrap32 ((v : Int) * 10) = (v : Int) * 10 :=
        wrap32_of_range _ (by omega) (by omega)
      rw [h1, wrap32_of_range _ (by omega) (by omega)]
      omega
    have hstr : a ++ (c :: ds ++ b) = (a ++ [c]) ++ (ds ++ b) := by simp
    have hnext : cstr_at (a ++ (c :: ds ++ b)) (a.length + 1) = cstr_at (ds ++ b) 0 := by
      rw [hstr]; simpa using cstr_at_append_zero (a ++ [c]) (ds ++ b)
    unfold read_digits
    simp only [hsum]
    cases ds with
    | nil =>
      have hnd : g_ascii_isdigit (cstr_at (a ++ (c :: [] ++ b)) (a.length + 1)) = false := by
        rw [hnext]; simpa using hb
      rw [hval]
      cases n with
      | zero => rfl
      | succ m =>
        simp only []
        rw [if_neg (by intro h; rw [hnd] at h; exact absurd h.2 (by simp))]
        rfl
    | cons c1 ds1 =>
      have hd1 : g_ascii_isdigit (cstr_at (a ++ (c :: (c1 :: ds1) ++ b)) (a.length + 1)) = true := by
        rw [hnext]
        simpa [cstr_at_cons_zero] using hdig c1 (by simp)
      have hlen : a.length + 1 < (a ++ (c :: (c1 :: ds1) ++ b)).length := by
        simp
      cases n with
      | zero => simp at hfuel
      | succ m =>
        simp only []
        rw [if_pos ⟨hlen, hd1⟩]
        have := ih (a ++ [c]) b (v * 10 + (c.toNat - 48)) m (by simp)
          (by simp at hfuel ⊢; omega)
          (fun x hx => hdig x (List.mem_cons_of_mem _ hx)) hb hlt2
        rw [hstr, hval]
        simp only [List.length_append, List.length_singleton] at this
        rw [this]
        simp only [List.length_cons, Prod.mk.injEq, true_and]
        omega

theorem ms_tag_here_some (cs : List Char) (v : Nat)
    (h : ms_tag_here ('(' :: cs) = some v) :
    ∃ ds m s1 suf, cs = ds ++ m :: s1 :: ')' :: suf ∧ ds ≠ [] ∧
      (∀ c ∈ ds, g_ascii_isdigit c = true) ∧ (m = 'm' ∨ m = 'M') ∧ (s1 = 's' ∨ s1 = 'S') ∧
      v = decimal_value ds := by
  simp only [ms_tag_here, if_true] at h
  split at h
  · rename_i d ds' m s1 c2 suf hds htl
    split at h
    · rename_i hcond
      obtain ⟨hm, hs, hc2⟩ := hcond
      refine ⟨List.takeWhile g_ascii_isdigit cs, m, s1, suf, ?_, ?_, ?_, hm, hs, ?_⟩
      · rw [← hc2, ← htl, List.takeWhile_append_dropWhile]
      · rw [hds]; simp
      · intro c hc
        exact List.mem_takeWhile_imp hc
      · exact (Option.some.inj h).symm
    · exact absurd h (by simp)
  · exact absurd h (by simp)

theorem toupper_m (m : Char) (h : m = 'm' ∨ m = 'M') : g_ascii_toupper m = 'M' := by
  rcases h with rfl | rfl <;> decide

theorem toupper_s (c : Char) (h : c = 's' ∨ c = 'S') : g_ascii_toupper c = 'S' := by
  rcases h with rfl | rfl <;> decide

theorem isdigit_m (m : Char) (h : m = 'm' ∨ m = 'M') : g_ascii_isdigit m = false := by
  rcases h with rfl | rfl <;> decide

theorem parse_ms_tag_from_tag (pre cs : List Char) (n v : Nat)
    (h : ms_tag_here ('(' :: cs) = some v) (hv : v ≤ 2147483647) :
    parse_ms_tag_from (pre ++ '(' :: cs) (n + 1) pre.length = (v : Int) := by
  obtain ⟨ds, m, s1, suf, hcs, hne, hdig, hm, hs, hval⟩ := ms_tag_here_some cs v h
  subst hcs
  obtain ⟨d, ds', rfl⟩ := List.exists_cons_of_ne_nil hne
  have hbra : cstr_at (pre ++ '(' :: (d :: ds' ++ m :: s1 :: ')' :: suf)) pre.length = '(' := by
    rw [cstr_at_append_zero, cstr_at_cons_zero]
  have hstr : pre ++ '(' :: (d :: ds' ++ m :: s1 :: ')' :: suf)
      = (pre ++ ['(']) ++ ((d :: ds') ++ (m :: s1 :: ')' :: suf)) := by simp
  have hd : g_ascii_isdigit (cstr_at (pre ++ '(' :: (d :: ds' ++ m :: s1 :: ')' :: suf))
      (pre.length + 1)) = true := by
    rw [hstr]
    have := cstr_at_append_zero (pre ++ ['(']) ((d :: ds') ++ (m :: s1 :: ')' :: suf))
    simp only [List.length_append, List.length_singleton] at this
    rw [this, List.cons_append, cstr_at_cons_zero]
    exact hdig d (List.mem_cons_self _ _)
  have hlenstr : (pre ++ '(' :: (d :: ds' ++ m :: s1 :: ')' :: suf)).length
      = pre.length + 1 + (d :: ds').length + 3 + suf.length := by
    simp; omega
  have hrd : ∀ N, (d :: ds').length ≤ N + 1 →
      read_digits (pre ++ '(' :: (d :: ds' ++ m :: s1 :: ')' :: suf)) N 0 (pre.length + 1)
        = (((decimal_value_from 0 (d :: ds') : Nat) : Int), pre.length + 1 + (d :: ds').length) := by
    intro N hN
    have := read_digits_value (d :: ds') (pre ++ ['(']) (m :: s1 :: ')' :: suf) 0 N
      (by simp) hN hdig (by rw [cstr_at_cons_zero]; exact isdigit_m m hm)
      (by rw [hval] at hv; unfold decimal_value at hv; omega)
    rw [← hstr] at this
    simpa only [List.length_append, List.length_singleton, Nat.cast_zero] using this
  have hm1 : cstr_at (pre ++ '(' :: (d :: ds' ++ m :: s1 :: ')' :: suf))
      (pre.length + 1 + (d :: ds').length) = m := by
    have hstr2 : pre ++ '(' :: (d :: ds' ++ m :: s1 :: ')' :: suf)
        = (pre ++ '(' :: (d :: ds')) ++ (m :: s1 :: ')' :: suf) := by simp
    have := cstr_at_append_zero (pre ++ '(' :: (d :: ds')) (m :: s1 :: ')' :: suf)
    rw [← hstr2] at this
    simp only [List.length_append, List.length_cons] at this ⊢
    rw [show pre.length + 1 + (ds'.length + 1) = pre.length + (ds'.length + 1 + 1) by omega,
      this, cstr_at_cons_zero]
  have hs1 : cstr_at (pre ++ '(' :: (d :: ds' ++ m :: s1 :: ')' :: suf))
      (pre.length + 1 + (d :: ds').length + 1) = s1 := by
    have hstr2 : pre ++ '(' :: (d :: ds' ++ m :: s1 :: ')' :: suf)
        = (pre ++ '(' :: (d :: ds') ++ [m]) ++ (s1 :: ')' :: suf) := by simp
    have := cstr_at_append_zero (pre ++ '(' :: (d :: ds') ++ [m]) (s1 :: ')' :: suf)
    rw [← hstr2] at this
    simp only [List.length_append, List.length_cons, List.length_singleton, List.length_nil] at this ⊢
    rw [show pre.length + 1 + (ds'.length + 1) + 1 = pre.length + (ds'.length + 1 + 1) + (0 + 1) by omega,
      this, cstr_at_cons_zero]
  simp only [parse_ms_tag_from]
  rw [skip_to_bra_at_bra _ _ _ hbra]
  rw [if_neg (by simp)]
  rw [if_neg (by rw [hd]; simp)]
  rw [hrd _ (by rw [hlenstr]; omega)]
  simp only []
  rw [if_neg (by rw [hlenstr]; push_cast; omega)]
  rw [hm1, hs1, toupper_m m hm, toupper_s s1 hs]
  simp [hval, decimal_value]

theorem parse_ms_tag_from_first_bra_digit (rest : List Char) :
    ∀ (pre : List Char) (n : Nat) (t : List Char) (v : Nat), rest.length ≤ n →
      first_bra_digit rest = some t → ms_tag_here t = some v → v ≤ 2147483647 →
      parse_ms_tag_from (pre ++ rest) n pre.length = (v : Int) := by
  induction rest with
  | nil => intro pre n t v _ h; simp [first_bra_digit] at h
  | cons c cs ih =>
    intro pre n t v hn ht hv hle
    cases n with
    | zero => simp at hn
    | succ k =>
      have hstr : pre ++ c :: cs = (pre ++ [c]) ++ cs := by simp
      have hnext : cstr_at (pre ++ c :: cs) (pre.length + 1) = cstr_at cs 0 := by
        rw [hstr]; simpa using cstr_at_append_zero (pre ++ [c]) cs
      have hcur : cstr_at (pre ++ c :: cs) pre.length = c := by
        rw [cstr_at_append_zero, cstr_at_cons_zero]
      have hlt : pre.length < (pre ++ c :: cs).length := by simp
      simp only [first_bra_digit] at ht
      split at ht
      · rename_i hcond
        obtain ⟨hc, _⟩ := hcond
        subst hc
        have ht2 : t = '(' :: cs := (Option.some.inj ht).symm
        subst ht2
        exact parse_ms_tag_from_tag pre cs k v hv hle
      · rename_i hcond
        by_cases hc : c = '('
        · have hnd : g_ascii_isdigit (cstr_at cs 0) = false := by
            cases hdg : g_ascii_isdigit (cstr_at cs 0) with
            | false => rfl
            | true => exact absurd ⟨hc, hdg⟩ hcond
          have hrec := ih (pre ++ [c]) k t v (by simpa using hn) ht hv hle
          rw [← hstr] at hrec
          simp only [List.length_append, List.length_singleton] at hrec
          simp only [parse_ms_tag_from]
          rw [skip_to_bra_at_bra _ _ _ (by rw [hcur]; exact hc)]
          rw [if_neg (by omega), if_pos (by rw [hnext]; exact hnd)]
          exact hrec
        · have hrec := ih (pre ++ [c]) (k + 1) t v
            (by simp only [List.length_cons] at hn; omega) ht hv hle
          rw [← hstr] at hrec
          simp only [List.length_append, List.length_singleton] at hrec
          rw [parse_ms_tag_from_skip _ _ _ hlt (by rw [hcur]; exact hc)]
          exact hrec

/-- C2, as stated, fails.  The name `(1) (120ms)` has the delay tag `(120ms)`
as its first well-formed tag, yet `parse_ms_tag` stops at the earlier group
`(1` and returns `-4`; and the digits of `(4294967296ms)` do not fit the
32-bit `gint` that `parse_ms_tag` returns. -/
theorem parse_ms_tag_not_first_tag :
    first_ms_tag "(1) (120ms)".toList = some 120 ∧
      parse_ms_tag "(1) (120ms)".toList = -4 ∧
      first_ms_tag "(4294967296ms)".toList = some 4294967296 ∧
      parse_ms_tag "(4294967296ms)".toList = 0 := by
  decide

/-- C2, amended. For every layer name in which the leftmost `(` that is
immediately followed by an ASCII digit begins a substring made of `(`, one or
more ASCII digits, `ms` in any letter case and `)`, and the decimal value of
those digits is at most 2147483647, `parse_ms_tag` returns that value. -/
theorem parse_ms_tag_first_bra_digit (str t : List Char) (v : Nat)
    (ht : first_bra_digit str = some t) (hv : ms_tag_here t = some v)
    (hle : v ≤ 2147483647) :
    parse_ms_tag str = (v : Int) := by
  have h := parse_ms_tag_from_first_bra_digit str [] str.length t v (le_refl _) ht hv hle
  simpa [parse_ms_tag] using h

/-- Witness for C2, amended: the name `Frame 2 (120ms)`. -/
theorem parse_ms_tag_first_bra_digit_witness :
    first_bra_digit "Frame 2 (120ms)".toList = some "(120ms)".toList ∧
      ms_tag_here "(120ms)".toList = some 120 ∧
      parse_ms_tag "Frame 2 (120ms)".toList = ((120 : Nat) : Int) :=
  ⟨by decide, by decide,
   parse_ms_tag_first_bra_digit "Frame 2 (120ms)".toList "(120ms)".toList 120
     (by decide) (by decide) (by decide)⟩

/-- C3 fails on the code. The name `Frame (120msec)` contains no substring
`(` + digits + `ms` + `)`, yet `parse_ms_tag` accepts `(120ms` followed by any
character: it returns 120 and `parse_delay_tag` outputs 12/100 instead of the
session values 1/100. -/
theorem parse_delay_tag_unclosed_tag :
    first_ms_tag "Frame (120msec)".toList = none ∧
      parse_ms_tag "Frame (120msec)".toList = 120 ∧
      parse_delay_tag defaults "Frame (120msec)".toList = (12, 100) ∧
      (defaults.delay_num, defaults.delay_den) = (1, 100) := by
  decide

/-! ## `parse_dispose_op_tag` -/

theorem strncmp9_eq_iff (str lit : List Char) (o : Nat) (hlit : lit.length = 9) :
    strncmp9_eq str o lit = true ↔ occurs_at lit str o := by
  simp [strncmp9_eq, occurs_at, hlit]

theorem occurs_at_length (lit str : List Char) (i : Nat) (hpos : 0 < lit.length)
    (h : occurs_at lit str i) : i + lit.length ≤ str.length := by
  unfold occurs_at at h
  have := congrArg List.length h
  simp only [List.length_take, List.length_drop] at this
  omega

theorem combine_ne_replace : "(combine)".toList ≠ "(replace)".toList := by decide

theorem combine_length : "(combine)".toList.length = 9 := by decide

theorem replace_length : "(replace)".toList.length = 9 := by decide

theorem strncmp9_combine (str : List Char) (o : Nat) :
    strncmp9_eq str o "(combine)".toList = true ↔ occurs_at "(combine)".toList str o :=
  strncmp9_eq_iff str _ o combine_length

theorem strncmp9_replace (str : List Char) (o : Nat) :
    strncmp9_eq str o "(replace)".toList = true ↔ occurs_at "(replace)".toList str o :=
  strncmp9_eq_iff str _ o replace_length

theorem occurs_at_tag_length (str : List Char) (i : Nat)
    (h : occurs_at "(combine)".toList str i ∨ occurs_at "(replace)".toList str i) :
    i + 9 ≤ str.length := by
  rcases h with h | h
  · have := occurs_at_length _ _ _ (by decide) h
    rwa [combine_length] at this
  · have := occurs_at_length _ _ _ (by decide) h
    rwa [replace_length] at this

theorem parse_dispose_op_tag_from_first (pngvals : PngSaveVals) (str : List Char) :
    ∀ (n o i : Nat), o ≤ i → str.length ≤ n + o →
      (occurs_at "(combine)".toList str i ∨ occurs_at "(replace)".toList str i) →
      (∀ j, o ≤ j → j < i →
        ¬ occurs_at "(combine)".toList str j ∧ ¬ occurs_at "(replace)".toList str j) →
      parse_dispose_op_tag_from pngvals str n o
        = if occurs_at "(combine)".toList str i then PNG_DISPOSE_OP_NONE
          else PNG_DISPOSE_OP_BACKGROUND := by
  intro n
  induction n with
  | zero =>
    intro o i hoi hlen hocc _
    have h9 : i + 9 ≤ str.length := occurs_at_tag_length str i hocc
    omega
  | succ n ih =>
    intro o i hoi hlen hocc hfirst
    have h9 : i + 9 ≤ str.length := occurs_at_tag_length str i hocc
    simp only [parse_dispose_op_tag_from]
    rw [if_pos (by omega)]
    rcases Nat.eq_or_lt_of_le hoi with heq | hlt
    · subst heq
      by_cases hc : occurs_at "(combine)".toList str o
      · rw [if_pos ((strncmp9_combine _ _).2 hc), if_pos hc]
      · have hr : occurs_at "(replace)".toList str o := hocc.resolve_left hc
        rw [if_neg (fun h => hc ((strncmp9_combine _ _).1 h)),
          if_pos ((strncmp9_replace _ _).2 hr), if_neg hc]
    · have hno := hfirst o (le_refl _) hlt
      rw [if_neg (fun h => hno.1 ((strncmp9_combine _ _).1 h)),
        if_neg (fun h => hno.2 ((strncmp9_replace _ _).1 h))]
      exact ih (o + 1) i hlt (by omega) hocc (fun j hj hji => hfirst j (by omega) hji)

theorem parse_dispose_op_tag_from_none (pngvals : PngSaveVals) (str : List Char) :
    ∀ (n o : Nat),
      (∀ j, o ≤ j → j ≤ str.length →
        ¬ occurs_at "(combine)".toList str j ∧ ¬ occurs_at "(replace)".toList str j) →
      parse_dispose_op_tag_from pngvals str n o = pngvals.dispose_op := by
  intro n
  induction n with
  | zero => intro o _; rfl
  | succ n ih =>
    intro o hno
    simp only [parse_dispose_op_tag_from]
    split
    · rename_i h9
      have h := hno o (le_refl _) (by omega)
      rw [if_neg (fun hh => h.1 ((strncmp9_combine _ _).1 hh)),
        if_neg (fun hh => h.2 ((strncmp9_replace _ _).1 hh))]
      exact ih (o + 1) (fun j hj hjl => hno j (by omega) hjl)
    · rfl

/-- C4. For every layer name, `parse_dispose_op_tag` returns
`PNG_DISPOSE_OP_NONE` if the leftmost occurrence of either literal `(combine)`
or `(replace)` in the name is `(combine)`, returns `PNG_DISPOSE_OP_BACKGROUND`
if it is `(replace)`, and returns the session default disposal if neither
literal occurs anywhere in the name. -/
theorem parse_dispose_op_tag_leftmost (pngvals : PngSaveVals) (str : List Char) :
    (∀ i, occurs_at "(combine)".toList str i →
        (∀ j, j < i →
          ¬ occurs_at "(combine)".toList str j ∧ ¬ occurs_at "(replace)".toList str j) →
        parse_dispose_op_tag pngvals str = PNG_DISPOSE_OP_NONE) ∧
    (∀ i, occurs_at "(replace)".toList str i →
        (∀ j, j < i →
          ¬ occurs_at "(combine)".toList str j ∧ ¬ occurs_at "(replace)".toList str j) →
        parse_dispose_op_tag pngvals str = PNG_DISPOSE_OP_BACKGROUND) ∧
    ((∀ j, j ≤ str.length →
          ¬ occurs_at "(combine)".toList str j ∧ ¬ occurs_at "(replace)".toList str j) →
        parse_dispose_op_tag pngvals str = pngvals.dispose_op) := by
  refine ⟨?_, ?_, ?_⟩
  · intro i hc hfirst
    have h := parse_dispose_op_tag_from_first pngvals str str.length 0 i (Nat.zero_le _)
      (by omega) (Or.inl hc) (fun j _ hj => hfirst j hj)
    rw [if_pos hc] at h
    exact h
  · intro i hr hfirst
    have hc : ¬ occurs_at "(combine)".toList str i := by
      intro hc
      unfold occurs_at at hc hr
      rw [combine_length] at hc
      rw [replace_length] at hr
      exact combine_ne_replace (hc.symm.trans hr)
    have h := parse_dispose_op_tag_from_first pngvals str str.length 0 i (Nat.zero_le _)
      (by omega) (Or.inr hr) (fun j _ hj => hfirst j hj)
    rw [if_neg hc] at h
    exact h
  · intro hno
    exact parse_dispose_op_tag_from_none pngvals str str.length 0 (fun j _ hj => hno j hj)

/-- Witness for C4: in `Layer (replace)` the literal `(replace)` occurs at
position 6 and nothing occurs before it. -/
theorem parse_dispose_op_tag_leftmost_witness :
    occurs_at "(replace)".toList "Layer (replace)".toList 6 ∧
      parse_dispose_op_tag defaults "Layer (replace)".toList = PNG_DISPOSE_OP_BACKGROUND :=
  ⟨by decide,
   (parse_dispose_op_tag_leftmost defaults "Layer (replace)".toList).2.1 6 (by decide)
     (by decide)⟩

/-! ## The frame loop of `load_image` -/

theorem load_frames_fst (info : PngInfo) (heads : List (Option FcTL)) :
    ∀ (frame prev : Nat) (layers : List Layer),
      (load_frames info heads frame prev layers).1
        = (load_frames_in_order info heads frame prev).reverse ++ layers := by
  induction heads with
  | nil => intro frame prev layers; simp [load_frames, load_frames_in_order]
  | cons head rest ih =>
    intro frame prev layers
    simp only [load_frames, load_frames_in_order, ih, List.reverse_cons, List.append_assoc,
      List.singleton_append]

theorem load_image_frames_reverse (info : PngInfo) (heads : List (Option FcTL)) :
    (load_image_frames info heads).reverse
      = load_frames_in_order info heads 0 PNG_DISPOSE_OP_NONE := by
  simp [load_image_frames, load_frames_fst]

theorem load_frame_snd (info : PngInfo) (frame prev : Nat) (head : Option FcTL) :
    (load_frame info frame prev head).2 = head_dispose_op frame head := rfl

theorem load_frame_name (info : PngInfo) (frame prev : Nat) (head : Option FcTL) :
    (load_frame info frame prev head).1.name
      = append_dispose_label prev (framename_base frame (head_delay head)) := rfl

theorem load_frames_in_order_zero (info : PngInfo) (heads : List (Option FcTL))
    (frame prev : Nat) (head : Option FcTL) (h : heads.get? 0 = some head) :
    (load_frames_in_order info heads frame prev).get? 0
      = some (load_frame info frame prev head).1 := by
  cases heads with
  | nil => simp at h
  | cons h0 rest =>
    simp only [List.get?_cons_zero, Option.some.injEq] at h
    subst h
    simp [load_frames_in_order]

theorem load_frames_in_order_succ (info : PngInfo) (heads : List (Option FcTL)) :
    ∀ (frame prev i : Nat) (head_prev head : Option FcTL),
      heads.get? i = some head_prev → heads.get? (i + 1) = some head →
      (load_frames_in_order info heads frame prev).get? (i + 1)
        = some (load_frame info (frame + (i + 1)) (head_dispose_op (frame + i) head_prev) head).1 := by
  induction heads with
  | nil => intro frame prev i head_prev head h; simp at h
  | cons h0 rest ih =>
    intro frame prev i head_prev head hp hc
    cases i with
    | zero =>
      simp only [List.get?_cons_zero, Option.some.injEq] at hp
      subst hp
      simp only [List.get?_cons_succ] at hc
      simp only [load_frames_in_order, List.get?_cons_succ]
      rw [load_frames_in_order_zero info rest (frame + 1) _ head hc, load_frame_snd]
      rfl
    | succ i =>
      simp only [List.get?_cons_succ] at hp hc
      simp only [load_frames_in_order, List.get?_cons_succ]
      rw [ih (frame + 1) _ i head_prev head hp hc]
      have e1 : frame + 1 + (i + 1) = frame + (i + 1 + 1) := by omega
      have e2 : frame + 1 + i = frame + (i + 1) := by omega
      rw [e1, e2]

/-- C5. When an animation is decoded, the layer for frame 0 is labelled
` (combine)` and, for every `i >= 1`, the layer for frame `i` is labelled from
the disposal stored for frame `i - 1`: `PNG_DISPOSE_OP_NONE` gives
` (combine)`, `PNG_DISPOSE_OP_BACKGROUND` gives ` (replace)`,
`PNG_DISPOSE_OP_PREVIOUS` gives ` (combine) (!)`. -/
theorem load_image_frame_labels (info : PngInfo) (heads : List (Option FcTL)) :
    (∀ head0, heads.get? 0 = some head0 →
      ∃ layer, frame_layer (load_image_frames info heads) 0 = some layer ∧
        layer.name = framename_base 0 (head_delay head0) ++ " (combine)".toList) ∧
    (∀ i head_prev head, heads.get? i = some head_prev → heads.get? (i + 1) = some head →
      ∃ layer, frame_layer (load_image_frames info heads) (i + 1) = some layer ∧
        (head_dispose_op i head_prev = PNG_DISPOSE_OP_NONE →
          layer.name = framename_base (i + 1) (head_delay head) ++ " (combine)".toList) ∧
        (head_dispose_op i head_prev = PNG_DISPOSE_OP_BACKGROUND →
          layer.name = framename_base (i + 1) (head_delay head) ++ " (replace)".toList) ∧
        (head_dispose_op i head_prev = PNG_DISPOSE_OP_PREVIOUS →
          layer.name = framename_base (i + 1) (head_delay head) ++ " (combine) (!)".toList)) := by
  refine ⟨?_, ?_⟩
  · intro head0 h0
    refine ⟨(load_frame info 0 PNG_DISPOSE_OP_NONE head0).1, ?_, ?_⟩
    · rw [frame_layer, load_image_frames_reverse]
      exact load_frames_in_order_zero info heads 0 _ head0 h0
    · rw [load_frame_name]; rfl
  · intro i head_prev head hp hc
    refine ⟨(load_frame info (0 + (i + 1)) (head_dispose_op (0 + i) head_prev) head).1, ?_, ?_⟩
    · rw [frame_layer, load_image_frames_reverse]
      exact load_frames_in_order_succ info heads 0 _ i head_prev head hp hc
    · simp only [Nat.zero_add, load_frame_name]
      refine ⟨?_, ?_, ?_⟩
      · intro hd; rw [hd]; rfl
      · intro hd; rw [hd]; rfl
      · intro hd; rw [hd]; rfl

/-- Witness for C5: three frames with disposals None, Background, None; frame
1 is labelled combine and frame 2 is labelled replace. -/
theorem load_image_frame_labels_witness :
    (∃ layer, frame_layer (load_image_frames example_info
          [some (example_fctl 0), some (example_fctl 1), some (example_fctl 0)]) 1 = some layer ∧
        layer.name = "Frame 2 (100ms) (combine)".toList) ∧
    (∃ layer, frame_layer (load_image_frames example_info
          [some (example_fctl 0), some (example_fctl 1), some (example_fctl 0)]) 2 = some layer ∧
        layer.name = "Frame 3 (100ms) (replace)".toList) := by
  have h := (load_image_frame_labels example_info
    [some (example_fctl 0), some (example_fctl 1), some (example_fctl 0)]).2
  obtain ⟨l1, hl1, hn1, _, _⟩ := h 0 (some (example_fctl 0)) (some (example_fctl 1)) rfl rfl
  obtain ⟨l2, hl2, _, hb2, _⟩ := h 1 (some (example_fctl 1)) (some (example_fctl 0)) rfl rfl
  refine ⟨⟨l1, hl1, ?_⟩, ⟨l2, hl2, ?_⟩⟩
  · rw [hn1 (by decide)]; decide
  · rw [hb2 (by decide)]; decide

/-- C6. When decoding, if frame 0's control record declares disposal Previous,
the disposal stored for frame 0 is Background: after frame 0 is processed
`previous_dispose_op` is never Previous, and frame 1 is therefore labelled
` (replace)`. -/
theorem load_image_frame0_previous (info : PngInfo) (fctl : FcTL) (head1 : Option FcTL)
    (rest : List (Option FcTL)) (h : fctl.dispose_op = PNG_DISPOSE_OP_PREVIOUS) :
    (load_frames info [some fctl] 0 PNG_DISPOSE_OP_NONE []).2 = PNG_DISPOSE_OP_BACKGROUND ∧
    (∀ head0, (load_frames info [head0] 0 PNG_DISPOSE_OP_NONE []).2 ≠ PNG_DISPOSE_OP_PREVIOUS) ∧
    (∃ layer, frame_layer (load_image_frames info (some fctl :: head1 :: rest)) 1 = some layer ∧
      layer.name = framename_base 1 (head_delay head1) ++ " (replace)".toList) := by
  have hstored : head_dispose_op 0 (some fctl) = PNG_DISPOSE_OP_BACKGROUND := by
    simp [head_dispose_op, h]
  refine ⟨?_, ?_, ?_⟩
  · simp only [load_frames, load_frame_snd]
    exact hstored
  · intro head0
    simp only [load_frames, load_frame_snd, head_dispose_op, if_true]
    cases head0 with
    | none => simp only []; decide
    | some f0 =>
      simp only []
      split
      · decide
      · assumption
  · refine ⟨(load_frame info (0 + (0 + 1)) (head_dispose_op (0 + 0) (some fctl)) head1).1, ?_, ?_⟩
    · rw [frame_layer, load_image_frames_reverse]
      exact load_frames_in_order_succ info _ 0 _ 0 (some fctl) head1 rfl rfl
    · simp only [Nat.zero_add, Nat.add_zero, load_frame_name, hstored]
      rfl

/-- Witness for C6: a first frame that declares disposal Previous. -/
theorem load_image_frame0_previous_witness :
    (example_fctl 2).dispose_op = PNG_DISPOSE_OP_PREVIOUS ∧
    (load_frames example_info [some (example_fctl 2)] 0 PNG_DISPOSE_OP_NONE []).2
      = PNG_DISPOSE_OP_BACKGROUND ∧
    (∃ layer, frame_layer (load_image_frames example_info
          [some (example_fctl 2), some (example_fctl 0)]) 1 = some layer ∧
        layer.name = "Frame 2 (100ms) (replace)".toList) := by
  have h := load_image_frame0_previous example_info (example_fctl 2) (some (example_fctl 0)) []
    rfl
  obtain ⟨h1, _, layer, hl, hn⟩ := h
  exact ⟨rfl, h1, layer, hl, by rw [hn]; decide⟩

/-! ## The frame loop of `save_image` -/

theorem parse_dispose_op_tag_from_range (pngvals : PngSaveVals) (str : List Char) :
    ∀ (n o : Nat),
      parse_dispose_op_tag_from pngvals str n o = PNG_DISPOSE_OP_NONE ∨
      parse_dispose_op_tag_from pngvals str n o = PNG_DISPOSE_OP_BACKGROUND ∨
      parse_dispose_op_tag_from pngvals str n o = pngvals.dispose_op := by
  intro n
  induction n with
  | zero => intro o; exact Or.inr (Or.inr rfl)
  | succ n ih =>
    intro o
    simp only [parse_dispose_op_tag_from]
    split
    · split
      · exact Or.inl rfl
      · split
        · exact Or.inr (Or.inl rfl)
        · exact ih (o + 1)
    · exact Or.inr (Or.inr rfl)

theorem save_frames_loop_head (pngvals : PngSaveVals) (offx offy : Int) (layers : List Layer)
    (i : Nat) (layer : Layer) (h : layers.get? i = some layer) :
    (save_frames_loop pngvals offx offy layers (i + 1)).head?
      = some (save_frame pngvals offx offy layer) := by
  simp only [save_frames_loop, h, List.head?_cons]

theorem save_frame_dispose_op (pngvals : PngSaveVals) (offx offy : Int) (layer : Layer) :
    (save_frame pngvals offx offy layer).dispose_op
      = to_uchar (parse_dispose_op_tag pngvals layer.name) := rfl

/-- C7, as stated, fails. With the session default disposal Previous and an
untagged first layer, the disposal written for frame 0 is Previous. -/
theorem save_image_frame0_default_previous :
    (save_image_frames (defaults_with_dispose PNG_DISPOSE_OP_PREVIOUS) (0, 0)
        [example_layer "Frame 2" 0 0, example_layer "Background" 0 0]).frames.head?.map
          (fun f => f.dispose_op)
      = some PNG_DISPOSE_OP_PREVIOUS := by
  decide

/-- C7, amended. For every list of `N >= 2` layers, every layer name and every
session default disposal other than Previous, the disposal operation the
encoder writes for frame 0 (the first frame written) is not Previous. -/
theorem save_image_frame0_not_previous (pngvals : PngSaveVals) (base : Int × Int)
    (layers : List Layer) (hN : 2 ≤ layers.length) (hbyte : pngvals.dispose_op < 256)
    (hdef : pngvals.dispose_op ≠ PNG_DISPOSE_OP_PREVIOUS) :
    ∃ f, (save_image_frames pngvals base layers).frames.head? = some f ∧
      f.dispose_op ≠ PNG_DISPOSE_OP_PREVIOUS := by
  obtain ⟨k, hk⟩ : ∃ k, layers.length = k + 1 := ⟨layers.length - 1, by omega⟩
  obtain ⟨layer, hl⟩ : ∃ layer, layers.get? k = some layer := by
    have hlt : k < layers.length := by omega
    exact ⟨layers.get ⟨k, hlt⟩, List.get?_eq_get hlt⟩
  refine ⟨save_frame pngvals (save_offsets pngvals base).1 (save_offsets pngvals base).2 layer,
    ?_, ?_⟩
  · simp only [save_image_frames, hk]
    exact save_frames_loop_head pngvals _ _ layers k layer hl
  · rw [save_frame_dispose_op]
    unfold parse_dispose_op_tag
    rcases parse_dispose_op_tag_from_range pngvals layer.name layer.name.length 0 with h | h | h
    · rw [h]; decide
    · rw [h]; decide
    · rw [h]
      unfold to_uchar
      rw [Nat.mod_eq_of_lt hbyte]
      exact hdef

/-- Witness for C7, amended: two untagged layers saved with the settings
`defaults`, whose disposal is None. -/
theorem save_image_frame0_not_previous_witness :
    ∃ f, (save_image_frames defaults (0, 0)
        [example_layer "Frame 2" 0 0, example_layer "Background" 0 0]).frames.head? = some f ∧
      f.dispose_op ≠ PNG_DISPOSE_OP_PREVIOUS :=
  save_image_frame0_not_previous defaults (0, 0)
    [example_layer "Frame 2" 0 0, example_layer "Background" 0 0] (by decide) (by decide)
    (by decide)

/-- C8 fails on the code. Two layers, frame 0 named `Frame 1 (replace)` and
frame 1 named `Frame 2 (combine)` (the layer list holds the last frame first),
are written with disposals Background and None; read back, frame 0 is
labelled ` (combine)` and frame 1 ` (replace)`: each label has moved to the
next frame. -/
theorem save_load_labels_shift :
    (save_image_frames defaults (0, 0)
        [example_layer "Frame 2 (combine)" 0 0, example_layer "Frame 1 (replace)" 0 0]).frames.map
          (fun f => f.dispose_op)
      = [PNG_DISPOSE_OP_BACKGROUND, PNG_DISPOSE_OP_NONE] ∧
    (load_stream 1 1 (save_image_frames defaults (0, 0)
        [example_layer "Frame 2 (combine)" 0 0, example_layer "Frame 1 (replace)" 0 0])).map
          (fun l => l.name)
      = ["Frame 2 (10ms) (replace)".toList, "Background (10ms) (combine)".toList] ∧
    (load_stream 1 1 (save_image_frames defaults (0, 0)
        [example_layer "Frame 2 (combine)" 0 0, example_layer "Frame 1 (replace)" 0 0])).map
          (fun l => parse_dispose_op_tag defaults l.name)
      ≠ [example_layer "Frame 2 (combine)" 0 0, example_layer "Frame 1 (replace)" 0 0].map
          (fun l => parse_dispose_op_tag defaults l.name) := by
  decide

/-- C9 fails on the code. With the save-layer-offset option on and the base
drawable at (5, 0), `save_image` writes the `oFFs` chunk (5, 0) because
`offx != 0 || offy != 0`, but `load_image` applies it only when
`offset_x != 0 && offset_y != 0`: layers at (7, 3) and (5, 0) come back at
(2, 3) and (0, 0). -/
theorem save_load_offsets_lost :
    (save_image_frames defaults_with_offs (5, 0)
        [example_layer "Frame 2" 7 3, example_layer "Background" 5 0]).oFFs = some (5, 0) ∧
    (load_stream 1 1 (save_image_frames defaults_with_offs (5, 0)
        [example_layer "Frame 2" 7 3, example_layer "Background" 5 0])).map
          (fun l => (l.offset_x, l.offset_y))
      = [(2, 3), (0, 0)] := by
  decide

/-! ## Palette re-ordering -/

theorem remap_shift_apply (remap : Nat → Nat) (k i : Nat) :
    remap_shift remap k i = if 1 ≤ i ∧ i ≤ k then to_uchar (i - 1) else remap i := by
  induction k with
  | zero =>
    simp only [remap_shift]
    rw [if_neg (by omega)]
  | succ k ih =>
    simp only [remap_shift, array_set]
    by_cases h : i = k + 1
    · subst h
      rw [if_pos rfl, if_pos (by omega)]
      rfl
    · rw [if_neg h, ih]
      by_cases h2 : 1 ≤ i ∧ i ≤ k
      · rw [if_pos h2, if_pos (by omega)]
      · rw [if_neg h2, if_neg (by omega)]

theorem scan_ia_pixels_foldl (pixels : List IAPixel) :
    ∀ (st : (Nat → Bool) × Bool),
      (∀ i, (pixels.foldl
          (fun st pixel =>
            if pixel.alpha > 127 then (array_set st.1 pixel.index true, st.2)
            else (st.1, true)) st).1 i = true
        ↔ (st.1 i = true ∨ ∃ p ∈ pixels, p.alpha > 127 ∧ p.index = i)) ∧
      ((pixels.foldl
          (fun st pixel =>
            if pixel.alpha > 127 then (array_set st.1 pixel.index true, st.2)
            else (st.1, true)) st).2 = true
        ↔ (st.2 = true ∨ ∃ p ∈ pixels, p.alpha ≤ 127)) := by
  induction pixels with
  | nil => intro st; simp
  | cons p ps ih =>
    intro st
    simp only [List.foldl_cons]
    by_cases hp : p.alpha > 127
    · rw [if_pos hp]
      obtain ⟨h1, h2⟩ := ih (array_set st.1 p.index true, st.2)
      refine ⟨?_, ?_⟩
      · intro i
        rw [h1 i]
        simp only [array_set, List.mem_cons, exists_eq_or_imp]
        by_cases hi : i = p.index
        · subst hi; simp [hp]
        · have hi2 : ¬ p.index = i := fun h => hi h.symm
          simp [hi, hi2]
      · rw [h2]
        simp only [List.mem_cons, exists_eq_or_imp]
        have : ¬ p.alpha ≤ 127 := by omega
        simp [this]
    · rw [if_neg hp]
      obtain ⟨h1, h2⟩ := ih (st.1, true)
      refine ⟨?_, ?_⟩
      · intro i
        rw [h1 i]
        simp only [List.mem_cons, exists_eq_or_imp]
        simp [hp]
      · rw [h2]
        simp only [List.mem_cons, exists_eq_or_imp]
        have : p.alpha ≤ 127 := by omega
        simp [this]

theorem scan_ia_pixels_used (pixels : List IAPixel) (i : Nat) :
    (scan_ia_pixels pixels).1 i = true ↔ ∃ p ∈ pixels, p.alpha > 127 ∧ p.index = i := by
  have h := (scan_ia_pixels_foldl pixels (fun _ => false, false)).1 i
  simpa [scan_ia_pixels] using h

theorem scan_ia_pixels_trans (pixels : List IAPixel) :
    (scan_ia_pixels pixels).2 = true ↔ ∃ p ∈ pixels, p.alpha ≤ 127 := by
  have h := (scan_ia_pixels_foldl pixels (fun _ => false, false)).2
  simpa [scan_ia_pixels] using h

theorem ia_has_transparent_pixels_iff (pixels : List IAPixel) :
    ia_has_transparent_pixels pixels = true ↔ ∃ p ∈ pixels, p.alpha ≤ 127 := by
  simp [ia_has_transparent_pixels]

theorem find_unused_ia_color_le (pixels : List IAPixel) (colors t : Nat)
    (hcolors : colors ≤ 256) (h : (find_unused_ia_color pixels colors).1 = (t : Int)) :
    t ≤ 255 := by
  unfold find_unused_ia_color at h
  simp only [] at h
  split at h
  · simp only [] at h; omega
  · split at h
    · rename_i i hfind
      have hi := (List.find?_range_eq_some.1 hfind).2.1
      simp only [List.mem_range] at hi
      simp only [] at h
      omega
    · split at h
      · simp only [] at h; omega
      · simp only [] at h; omega

theorem find_unused_ia_color_first (pixels : List IAPixel) (colors i : Nat)
    (htrans : ∃ p ∈ pixels, p.alpha ≤ 127)
    (hunused : ∀ p ∈ pixels, p.alpha > 127 → p.index ≠ i)
    (hused : ∀ j, j < i → ∃ p ∈ pixels, p.alpha > 127 ∧ p.index = j)
    (hi : i ≤ colors) (h256 : i < 256) :
    (find_unused_ia_color pixels colors).1 = (i : Int) := by
  have hst : (scan_ia_pixels pixels).2 = true := (scan_ia_pixels_trans pixels).2 htrans
  have hui : (scan_ia_pixels pixels).1 i = false := by
    cases hb : (scan_ia_pixels pixels).1 i with
    | false => rfl
    | true =>
      obtain ⟨p, hp, ha, hidx⟩ := (scan_ia_pixels_used pixels i).1 hb
      exact absurd hidx (hunused p hp ha)
  have huj : ∀ j, j < i → (scan_ia_pixels pixels).1 j = true :=
    fun j hj => (scan_ia_pixels_used pixels j).2 (hused j hj)
  unfold find_unused_ia_color
  simp only [hst, Bool.true_eq_false, if_false]
  rcases Nat.eq_or_lt_of_le hi with heq | hlt
  · subst heq
    have hnone : (List.range i).find? (fun k => decide ((scan_ia_pixels pixels).1 k = false))
        = none := by
      rw [List.find?_range_eq_none]
      intro j hj
      simp [huj j hj]
    rw [hnone]
    simp only [if_pos h256]
    omega
  · have hsome : (List.range colors).find? (fun k => decide ((scan_ia_pixels pixels).1 k = false))
        = some i := by
      rw [List.find?_range_eq_some]
      refine ⟨by simp [hui], by simp [hlt], ?_⟩
      intro j hj
      simp [huj j hj]
    rw [hsome]

/-- C10, as stated, fails in its particular case.  With a colormap of two
entries and pixels that use indices 0, 1, 2 opaquely and not index 3 (and a
transparent pixel), `find_unused_ia_color` only looks at the indices below the
colour count 2, finds both used, grows the palette and designates index 2:
`remap[0..3]` is 2, 0, 1, 3, not 3, 0, 1, 2. -/
theorem respin_cmap_remap_small_colormap :
    ia_has_transparent_pixels
        [IAPixel.mk 0 255, IAPixel.mk 1 255, IAPixel.mk 2 255, IAPixel.mk 0 0] = true ∧
    (∀ j, j < 3 →
      ∃ p ∈ [IAPixel.mk 0 255, IAPixel.mk 1 255, IAPixel.mk 2 255, IAPixel.mk 0 0],
        p.alpha > 127 ∧ p.index = j) ∧
    (∀ p ∈ [IAPixel.mk 0 255, IAPixel.mk 1 255, IAPixel.mk 2 255, IAPixel.mk 0 0],
      p.alpha > 127 → p.index ≠ 3) ∧
    find_unused_ia_color
        [IAPixel.mk 0 255, IAPixel.mk 1 255, IAPixel.mk 2 255, IAPixel.mk 0 0]
        (colormap_colors two_colormap) = (2, 3) ∧
    (List.range 5).map (respin_cmap init_remap two_colormap
        [IAPixel.mk 0 255, IAPixel.mk 1 255, IAPixel.mk 2 255, IAPixel.mk 0 0]).remap
      = [2, 0, 1, 3, 4] := by
  decide

/-- C10, amended. Whenever `respin_cmap` designates a transparent index `t`,
the remap table it produces is `remap[0] = t`, `remap[i] = i - 1` for every
`1 <= i <= t`, and `remap[i] = i` for every `t < i <= 255`; in particular,
when the colormap has at least three entries, indices 0, 1, 2 are used
opaquely and index 3 is not, `remap[0..3]` is 3, 0, 1, 2 and the table is the
identity beyond 3. -/
theorem respin_cmap_remap_table (colormap : List PngColor) (pixels : List IAPixel)
    (hcolors : colormap.length ≤ 256) (htrans : ia_has_transparent_pixels pixels = true) :
    (∀ t : Nat, (find_unused_ia_color pixels (colormap_colors colormap)).1 = (t : Int) →
      (respin_cmap init_remap colormap pixels).trns = true ∧
      (respin_cmap init_remap colormap pixels).remap 0 = t ∧
      (∀ i, 1 ≤ i → i ≤ t → (respin_cmap init_remap colormap pixels).remap i = i - 1) ∧
      (∀ i, t < i → i ≤ 255 → (respin_cmap init_remap colormap pixels).remap i = i)) ∧
    (3 ≤ colormap.length →
      (∀ j, j < 3 → ∃ p ∈ pixels, p.alpha > 127 ∧ p.index = j) →
      (∀ p ∈ pixels, p.alpha > 127 → p.index ≠ 3) →
      (respin_cmap init_remap colormap pixels).remap 0 = 3 ∧
      (respin_cmap init_remap colormap pixels).remap 1 = 0 ∧
      (respin_cmap init_remap colormap pixels).remap 2 = 1 ∧
      (respin_cmap init_remap colormap pixels).remap 3 = 2 ∧
      (∀ i, 3 < i → i ≤ 255 → (respin_cmap init_remap colormap pixels).remap i = i)) := by
  have hcc : colormap_colors colormap ≤ 256 := by
    unfold colormap_colors; split <;> omega
  have key : ∀ t : Nat, (find_unused_ia_color pixels (colormap_colors colormap)).1 = (t : Int) →
      (respin_cmap init_remap colormap pixels).trns = true ∧
      (respin_cmap init_remap colormap pixels).remap 0 = t ∧
      (∀ i, 1 ≤ i → i ≤ t → (respin_cmap init_remap colormap pixels).remap i = i - 1) ∧
      (∀ i, t < i → i ≤ 255 → (respin_cmap init_remap colormap pixels).remap i = i) := by
    intro t ht
    have ht255 := find_unused_ia_color_le pixels _ t hcc ht
    have hne : ((t : Nat) : Int) ≠ -1 := by omega
    simp only [respin_cmap, htrans, if_true, ht, Int.toNat_ofNat, if_pos hne]
    refine ⟨trivial, ?_, ?_, ?_⟩
    · rw [remap_shift_apply, if_neg (by omega)]
      simp only [array_set, if_true, to_uchar]
      omega
    · intro i h1 h2
      rw [remap_shift_apply, if_pos ⟨h1, h2⟩]
      simp only [to_uchar]
      omega
    · intro i h1 _
      rw [remap_shift_apply, if_neg (by omega)]
      simp only [array_set, init_remap]
      rw [if_neg (by omega)]
  refine ⟨key, ?_⟩
  intro hlen3 hused hunused
  have hfind : (find_unused_ia_color pixels (colormap_colors colormap)).1 = ((3 : Nat) : Int) :=
    find_unused_ia_color_first pixels _ 3 ((ia_has_transparent_pixels_iff pixels).1 htrans)
      hunused hused (by unfold colormap_colors; split <;> omega) (by omega)
  obtain ⟨_, h0, h1, h2⟩ := key 3 hfind
  exact ⟨h0, h1 1 (by omega) (by omega), h1 2 (by omega) (by omega),
    h1 3 (by omega) (by omega), h2⟩

/-- Witness for C10, amended: a four colour image whose pixels use indices
0, 1, 2 opaquely and index 3 transparently. -/
theorem respin_cmap_remap_table_witness :
    ia_has_transparent_pixels example_pixels = true ∧
    (find_unused_ia_color example_pixels (colormap_colors example_colormap)).1 = ((3 : Nat) : Int) ∧
    (respin_cmap init_remap example_colormap example_pixels).remap 0 = 3 ∧
    (respin_cmap init_remap example_colormap example_pixels).remap 3 = 3 - 1 ∧
    (respin_cmap init_remap example_colormap example_pixels).remap 200 = 200 ∧
    3 ≤ example_colormap.length ∧
    ((respin_cmap init_remap example_colormap example_pixels).remap 0 = 3 ∧
      (respin_cmap init_remap example_colormap example_pixels).remap 1 = 0 ∧
      (respin_cmap init_remap example_colormap example_pixels).remap 2 = 1 ∧
      (respin_cmap init_remap example_colormap example_pixels).remap 3 = 2 ∧
      (∀ i, 3 < i → i ≤ 255 →
        (respin_cmap init_remap example_colormap example_pixels).remap i = i)) := by
  have h := (respin_cmap_remap_table example_colormap example_pixels (by decide) (by decide)).1
    3 (by decide)
  exact ⟨by decide, by decide, h.2.1, h.2.2.1 3 (by decide) (by decide),
    h.2.2.2 200 (by decide) (by decide), by decide,
    (respin_cmap_remap_table example_colormap example_pixels (by decide) (by decide)).2
      (by decide) (by decide) (by decide)⟩

/-! ## `find_unused_ia_color` -/

theorem find_unused_ia_color_found (pixels : List IAPixel) (colors i : Nat)
    (htrans : ∃ p ∈ pixels, p.alpha ≤ 127) (hi : i < colors)
    (hunused : ∀ p ∈ pixels, p.alpha > 127 → p.index ≠ i)
    (hused : ∀ j, j < i → ∃ p ∈ pixels, p.alpha > 127 ∧ p.index = j) :
    find_unused_ia_color pixels colors = ((i : Int), colors) := by
  have hst : (scan_ia_pixels pixels).2 = true := (scan_ia_pixels_trans pixels).2 htrans
  have hui : (scan_ia_pixels pixels).1 i = false := by
    cases hb : (scan_ia_pixels pixels).1 i with
    | false => rfl
    | true =>
      obtain ⟨p, hp, ha, hidx⟩ := (scan_ia_pixels_used pixels i).1 hb
      exact absurd hidx (hunused p hp ha)
  have huj : ∀ j, j < i → (scan_ia_pixels pixels).1 j = true :=
    fun j hj => (scan_ia_pixels_used pixels j).2 (hused j hj)
  have hsome : (List.range colors).find? (fun k => decide ((scan_ia_pixels pixels).1 k = false))
      = some i := by
    rw [List.find?_range_eq_some]
    refine ⟨by simp [hui], by simp [hi], ?_⟩
    intro j hj
    simp [huj j hj]
  unfold find_unused_ia_color
  simp only [hst, Bool.true_eq_false, if_false, hsome]

theorem find_unused_ia_color_all_used (pixels : List IAPixel) (colors : Nat)
    (htrans : ∃ p ∈ pixels, p.alpha ≤ 127)
    (hused : ∀ j, j < colors → ∃ p ∈ pixels, p.alpha > 127 ∧ p.index = j) :
    find_unused_ia_color pixels colors
      = if colors < 256 then ((colors : Int), colors + 1) else (-1, colors) := by
  have hst : (scan_ia_pixels pixels).2 = true := (scan_ia_pixels_trans pixels).2 htrans
  have hnone : (List.range colors).find? (fun k => decide ((scan_ia_pixels pixels).1 k = false))
      = none := by
    rw [List.find?_range_eq_none]
    intro j hj
    simp [(scan_ia_pixels_used pixels j).2 (hused j hj)]
  unfold find_unused_ia_color
  simp only [hst, Bool.true_eq_false, if_false, hnone]
  split
  · simp
  · rfl

/-- The first index below `colors` that no opaque pixel uses exists unless
all of them are used. -/
theorem exists_least_unused (pixels : List IAPixel) (colors : Nat) :
    (∀ j, j < colors → ∃ p ∈ pixels, p.alpha > 127 ∧ p.index = j) ∨
    (∃ i, i < colors ∧ (∀ p ∈ pixels, p.alpha > 127 → p.index ≠ i) ∧
      (∀ j, j < i → ∃ p ∈ pixels, p.alpha > 127 ∧ p.index = j)) := by
  induction colors with
  | zero => left; intro j hj; omega
  | succ n ih =>
    rcases ih with hall | ⟨i, hi, h1, h2⟩
    · by_cases hn : ∃ p ∈ pixels, p.alpha > 127 ∧ p.index = n
      · left
        intro j hj
        rcases Nat.lt_succ_iff_lt_or_eq.1 hj with h | h
        · exact hall j h
        · subst h; exact hn
      · right
        refine ⟨n, Nat.lt_succ_self n, ?_, hall⟩
        intro p hp ha hidx
        exact hn ⟨p, hp, ha, hidx⟩
    · right
      exact ⟨i, Nat.lt_succ_of_lt hi, h1, h2⟩

/-- What a designated index of `find_unused_ia_color` is: either an index
below `colors` that no opaque pixel uses, with the colour count kept, or
`colors` itself with the colour count grown by one. -/
theorem find_unused_ia_color_designated (pixels : List IAPixel) (colors t : Nat)
    (htrans : ∃ p ∈ pixels, p.alpha ≤ 127)
    (h : (find_unused_ia_color pixels colors).1 = (t : Int)) :
    (t < colors ∧ (find_unused_ia_color pixels colors).2 = colors ∧
      (∀ p ∈ pixels, p.alpha > 127 → p.index ≠ t)) ∨
    (t = colors ∧ (find_unused_ia_color pixels colors).2 = colors + 1 ∧ colors < 256) := by
  rcases exists_least_unused pixels colors with hall | ⟨i, hi, h1, h2⟩
  · rw [find_unused_ia_color_all_used pixels colors htrans hall] at h ⊢
    by_cases hc : colors < 256
    · rw [if_pos hc] at h ⊢
      right
      simp only [] at h
      exact ⟨by omega, rfl, hc⟩
    · rw [if_neg hc] at h
      simp only [] at h
      omega
  · rw [find_unused_ia_color_found pixels colors i htrans hi h1 h2] at h ⊢
    simp only [] at h
    have : i = t := by omega
    subst this
    left
    exact ⟨hi, rfl, h1⟩

/-- C11. For every indexed image with alpha that has at least one pixel with
alpha `<= 127` and a colormap of `colors` entries (`1 <= colors <= 256`),
`find_unused_ia_color` returns the least index in `[0, colors)` that no pixel
with alpha `> 127` uses; if every index in `[0, colors)` is used opaquely and
`colors < 256` it returns `colors` and grows the colour count to `colors + 1`
(never above 256); otherwise the colour count is unchanged. -/
theorem find_unused_ia_color_least (pixels : List IAPixel) (colors : Nat)
    (htrans : ∃ p ∈ pixels, p.alpha ≤ 127) (h1 : 1 ≤ colors) (h256 : colors ≤ 256) :
    (∀ i, i < colors → (∀ p ∈ pixels, p.alpha > 127 → p.index ≠ i) →
      (∀ j, j < i → ∃ p ∈ pixels, p.alpha > 127 ∧ p.index = j) →
      find_unused_ia_color pixels colors = ((i : Int), colors)) ∧
    ((∀ j, j < colors → ∃ p ∈ pixels, p.alpha > 127 ∧ p.index = j) → colors < 256 →
      find_unused_ia_color pixels colors = ((colors : Int), colors + 1)) ∧
    ((∀ j, j < colors → ∃ p ∈ pixels, p.alpha > 127 ∧ p.index = j) → colors = 256 →
      find_unused_ia_color pixels colors = (-1, colors)) ∧
    1 ≤ (find_unused_ia_color pixels colors).2 ∧ (find_unused_ia_color pixels colors).2 ≤ 256 := by
  refine ⟨?_, ?_, ?_, ?_⟩
  · intro i hi hunused hused
    exact find_unused_ia_color_found pixels colors i htrans hi hunused hused
  · intro hall hc
    rw [find_unused_ia_color_all_used pixels colors htrans hall, if_pos hc]
  · intro hall hc
    rw [find_unused_ia_color_all_used pixels colors htrans hall, if_neg (by omega)]
  · rcases exists_least_unused pixels colors with hall | ⟨i, hi, hu1, hu2⟩
    · rw [find_unused_ia_color_all_used pixels colors htrans hall]
      split
      · simp only []; omega
      · simp only []; omega
    · rw [find_unused_ia_color_found pixels colors i htrans hi hu1 hu2]
      simp only []
      omega

/-- Witness for C11: four colours, indices 0, 1, 2 used opaquely, index 3 only
transparently. -/
theorem find_unused_ia_color_least_witness :
    find_unused_ia_color example_pixels 4 = (((3 : Nat) : Int), 4) :=
  (find_unused_ia_color_least example_pixels 4 (by decide) (by decide) (by decide)).1 3
    (by decide) (by decide) (by decide)

/-! ## `respin_cmap` -/

theorem colormap_colors_le (colormap : List PngColor) (h : colormap.length ≤ 256) :
    colormap_colors colormap ≤ 256 := by
  unfold colormap_colors; split <;> omega

theorem colormap_before_of_ne_nil (colormap : List PngColor) (h : colormap ≠ []) :
    colormap_before colormap = colormap := by
  unfold colormap_before
  rw [if_neg]
  intro h0
  exact h (List.length_eq_zero.1 h0)

theorem colormap_colors_of_ne_nil (colormap : List PngColor) (h : colormap ≠ []) :
    colormap_colors colormap = colormap.length := by
  unfold colormap_colors
  rw [if_neg]
  intro h0
  exact h (List.length_eq_zero.1 h0)

/-- The result of `respin_cmap` when a transparent index `t` is designated. -/
theorem respin_cmap_designated (remap : Nat → Nat) (colormap : List PngColor)
    (pixels : List IAPixel) (t : Nat)
    (htrans : ia_has_transparent_pixels pixels = true)
    (hfind : (find_unused_ia_color pixels (colormap_colors colormap)).1 = (t : Int)) :
    (respin_cmap remap colormap pixels).trns = true ∧
    (respin_cmap remap colormap pixels).warned = false ∧
    (respin_cmap remap colormap pixels).remap
      = remap_shift (array_set remap 0 (to_uchar t)) t ∧
    (respin_cmap remap colormap pixels).palette
      = (List.range (find_unused_ia_color pixels (colormap_colors colormap)).2).map
          (fun i => (colormap_before colormap).get?
            (remap_shift (array_set remap 0 (to_uchar t)) t i)) := by
  have hne : ((t : Nat) : Int) ≠ -1 := by omega
  simp only [respin_cmap, htrans, if_true, hfind, Int.toNat_ofNat, if_pos hne]
  exact ⟨trivial, trivial, trivial, trivial⟩

/-- The result of `respin_cmap` when no transparent index can be designated. -/
theorem respin_cmap_overflow (remap : Nat → Nat) (colormap : List PngColor)
    (pixels : List IAPixel)
    (htrans : ia_has_transparent_pixels pixels = true)
    (hfind : (find_unused_ia_color pixels (colormap_colors colormap)).1 = -1) :
    (respin_cmap remap colormap pixels).trns = false ∧
    (respin_cmap remap colormap pixels).warned = true ∧
    (respin_cmap remap colormap pixels).remap = remap ∧
    (respin_cmap remap colormap pixels).palette = (colormap_before colormap).map some := by
  simp only [respin_cmap, htrans, if_true, hfind, ne_eq, not_true_eq_false, if_false]
  exact ⟨trivial, trivial, trivial, trivial⟩

/-- The result of `respin_cmap` when the drawable has no transparent pixel. -/
theorem respin_cmap_opaque (remap : Nat → Nat) (colormap : List PngColor)
    (pixels : List IAPixel)
    (htrans : ia_has_transparent_pixels pixels = false) :
    (respin_cmap remap colormap pixels).trns = false ∧
    (respin_cmap remap colormap pixels).warned = false ∧
    (respin_cmap remap colormap pixels).remap = remap ∧
    (respin_cmap remap colormap pixels).palette = (colormap_before colormap).map some := by
  simp only [respin_cmap, htrans, Bool.false_eq_true, if_false]
  exact ⟨trivial, trivial, trivial, trivial⟩

/-- With a transparent pixel present, `find_unused_ia_color` returns `-1`
exactly when the 256 entries of the colormap are all used opaquely. -/
theorem find_unused_ia_color_none_iff (pixels : List IAPixel) (colors : Nat)
    (htrans : ∃ p ∈ pixels, p.alpha ≤ 127) (h256 : colors ≤ 256) :
    (find_unused_ia_color pixels colors).1 = -1 ↔
      (colors = 256 ∧ ∀ i, i < 256 → ∃ p ∈ pixels, p.alpha > 127 ∧ p.index = i) := by
  rcases exists_least_unused pixels colors with hall | ⟨i, hi, h1, h2⟩
  · rw [find_unused_ia_color_all_used pixels colors htrans hall]
    by_cases hc : colors < 256
    · rw [if_pos hc]
      simp only []
      constructor
      · intro h; omega
      · intro h; omega
    · rw [if_neg hc]
      have hc2 : colors = 256 := by omega
      simp only [true_iff]
      refine ⟨hc2, ?_⟩
      intro j hj
      exact hall j (by omega)
  · rw [find_unused_ia_color_found pixels colors i htrans hi h1 h2]
    simp only []
    constructor
    · intro h; omega
    · intro h
      obtain ⟨hc, hall⟩ := h
      obtain ⟨p, hp, ha, hidx⟩ := hall i (by omega)
      exact absurd hidx (h1 p hp ha)

theorem find_unused_ia_color_fst_cases (pixels : List IAPixel) (colors : Nat) :
    (find_unused_ia_color pixels colors).1 = -1 ∨
      ∃ t : Nat, (find_unused_ia_color pixels colors).1 = (t : Int) := by
  unfold find_unused_ia_color
  simp only []
  split
  · left; rfl
  · split
    · rename_i i _
      right; exact ⟨i, rfl⟩
    · split
      · right; exact ⟨colors + 1 - 1, rfl⟩
      · left; rfl

/-- C12. For an indexed image with alpha that has at least one pixel with
alpha `<= 127`, the palette remapper fails to designate a transparent index
(identity remap table, no transparency chunk, colormap emitted unchanged,
lossy-transparency warning) if and only if the colormap has 256 entries and
every index 0..255 is used by some pixel with alpha `> 127`. -/
theorem respin_cmap_overflow_iff (colormap : List PngColor) (pixels : List IAPixel)
    (hlen : colormap.length ≤ 256) (htrans : ia_has_transparent_pixels pixels = true) :
    ((respin_cmap init_remap colormap pixels).warned = true ↔
      (colormap.length = 256 ∧ ∀ i, i < 256 → ∃ p ∈ pixels, p.alpha > 127 ∧ p.index = i)) ∧
    ((respin_cmap init_remap colormap pixels).trns = false ↔
      (colormap.length = 256 ∧ ∀ i, i < 256 → ∃ p ∈ pixels, p.alpha > 127 ∧ p.index = i)) ∧
    ((colormap.length = 256 ∧ ∀ i, i < 256 → ∃ p ∈ pixels, p.alpha > 127 ∧ p.index = i) →
      (∀ i, (respin_cmap init_remap colormap pixels).remap i = i) ∧
      (respin_cmap init_remap colormap pixels).palette = colormap.map some) := by
  have htr := (ia_has_transparent_pixels_iff pixels).1 htrans
  have hcc := colormap_colors_le colormap hlen
  have hiff := find_unused_ia_color_none_iff pixels (colormap_colors colormap) htr hcc
  have hcol : colormap_colors colormap = 256 ↔ colormap.length = 256 := by
    unfold colormap_colors; split <;> omega
  rw [hcol] at hiff
  rcases find_unused_ia_color_fst_cases pixels (colormap_colors colormap) with hnone | ⟨t, ht⟩
  · obtain ⟨h1, h2, h3, h4⟩ := respin_cmap_overflow init_remap colormap pixels htrans hnone
    have hcond := hiff.1 hnone
    have hne : colormap ≠ [] := by
      intro h0; rw [h0] at hcond; simp at hcond
    refine ⟨⟨fun _ => hcond, fun _ => h2⟩, ⟨fun _ => hcond, fun _ => h1⟩, ?_⟩
    intro _
    refine ⟨?_, ?_⟩
    · intro i; rw [h3]; rfl
    · rw [h4, colormap_before_of_ne_nil colormap hne]
  · obtain ⟨h1, h2, _, _⟩ := respin_cmap_designated init_remap colormap pixels t htrans ht
    have hncond : ¬ (colormap.length = 256 ∧
        ∀ i, i < 256 → ∃ p ∈ pixels, p.alpha > 127 ∧ p.index = i) := by
      intro hc
      have := hiff.2 hc
      rw [ht] at this
      omega
    refine ⟨⟨fun h => ?_, fun h => absurd h hncond⟩, ⟨fun h => ?_, fun h => absurd h hncond⟩,
      fun h => absurd h hncond⟩
    · rw [h2] at h; exact absurd h (by simp)
    · rw [h1] at h; exact absurd h (by simp)

/-- Witness for C12: a colormap of 256 entries, all used opaquely, and one
transparent pixel. -/
theorem respin_cmap_overflow_iff_witness :
    (respin_cmap init_remap full_colormap full_pixels).warned = true ∧
    (respin_cmap init_remap full_colormap full_pixels).trns = false := by
  have h := respin_cmap_overflow_iff full_colormap full_pixels (by simp [full_colormap])
    (by simp [ia_has_transparent_pixels, full_pixels])
  have hcond : full_colormap.length = 256 ∧
      ∀ i, i < 256 → ∃ p ∈ full_pixels, p.alpha > 127 ∧ p.index = i := by
    refine ⟨by simp [full_colormap], ?_⟩
    intro i hi
    exact ⟨IAPixel.mk i 255, by simp [full_pixels, hi], by simp, rfl⟩
  exact ⟨h.1.2 hcond, h.2.1.2 hcond⟩

/-! ## The palette rows of `write_frame` -/

theorem fix_row_trns_apply (inverse_remap fixed : Nat → Nat) (n j : Nat) :
    fix_row_trns inverse_remap fixed n j
      = if j < n then
          (if fixed (j * 2 + 1) > 127 then inverse_remap (fixed (j * 2)) else 0)
        else fixed j := by
  induction n generalizing j with
  | zero => simp [fix_row_trns]
  | succ n ih =>
    have e1 : fix_row_trns inverse_remap fixed n (n * 2 + 1) = fixed (n * 2 + 1) := by
      rw [ih]; exact if_neg (by omega)
    have e2 : fix_row_trns inverse_remap fixed n (n * 2) = fixed (n * 2) := by
      rw [ih]; exact if_neg (by omega)
    simp only [fix_row_trns, array_set, e1, e2]
    by_cases hj : j = n
    · subst hj
      simp only [if_true, Nat.lt_succ_self]
    · have hiff : j < n + 1 ↔ j < n := by omega
      simp only [if_neg hj, ih, hiff]

theorem fix_row_plte_apply (fixed : Nat → Nat) (n j : Nat) :
    fix_row_plte fixed n j = if j < n then fixed (j * 2) else fixed j := by
  induction n generalizing j with
  | zero => simp [fix_row_plte]
  | succ n ih =>
    have e2 : fix_row_plte fixed n (n * 2) = fixed (n * 2) := by
      rw [ih]; exact if_neg (by omega)
    simp only [fix_row_plte, array_set, e2]
    by_cases hj : j = n
    · subst hj
      simp only [if_true, Nat.lt_succ_self]
    · have hiff : j < n + 1 ↔ j < n := by omega
      simp only [if_neg hj, ih, hiff]

theorem write_frame_row_trns (remap uninit : Nat → Nat) (width : Nat) (fixed : Nat → Nat)
    (plte_valid : Bool) :
    write_frame_row true plte_valid remap uninit width fixed
      = (List.range width).map (fun k =>
          if (row_pixel fixed k).alpha > 127 then
            build_inverse_remap uninit remap (row_pixel fixed k).index
          else 0) := by
  simp only [write_frame_row, if_true, row_pixel]
  apply List.map_congr_left
  intro k hk
  rw [fix_row_trns_apply, if_pos (List.mem_range.1 hk)]

theorem write_frame_row_plte (remap uninit : Nat → Nat) (width : Nat) (fixed : Nat → Nat) :
    write_frame_row false true remap uninit width fixed
      = (List.range width).map (fun k => (row_pixel fixed k).index) := by
  simp only [write_frame_row, Bool.false_eq_true, if_false, if_true, row_pixel]
  apply List.map_congr_left
  intro k hk
  rw [fix_row_plte_apply, if_pos (List.mem_range.1 hk)]

theorem get?_map_range {β : Type} (f : Nat → β) (n k : Nat) (hk : k < n) :
    ((List.range n).map f).get? k = some (f k) := by
  simp [List.get?_eq_getElem?, List.getElem?_map, List.getElem?_range hk]

theorem inverse_remap_loop_of_injective (remap init : Nat → Nat) (n : Nat) (hn : n ≤ 256)
    (hinj : ∀ i j, i < n → j < n → remap i = remap j → i = j) :
    ∀ i, i < n → inverse_remap_loop remap init n (remap i) = i := by
  induction n with
  | zero => intro i hi; omega
  | succ n ih =>
    intro i hi
    simp only [inverse_remap_loop, array_set]
    by_cases h : remap i = remap n
    · rw [if_pos h]
      have := hinj i n hi (Nat.lt_succ_self n) h
      subst this
      unfold to_uchar
      omega
    · rw [if_neg h]
      have hlt : i < n := by
        rcases Nat.lt_succ_iff_lt_or_eq.1 hi with h1 | h1
        · exact h1
        · subst h1; exact absurd rfl h
      exact ih (by omega) (fun a b ha hb => hinj a b (by omega) (by omega)) i hlt

/-- The `remap` table of a designated index `t <= 255`, entry by entry. -/
theorem remap_designated_apply (t i : Nat) (ht : t ≤ 255) :
    remap_shift (array_set init_remap 0 (to_uchar t)) t i
      = if i = 0 then t else if i ≤ t then i - 1 else i := by
  rw [remap_shift_apply]
  by_cases h0 : i = 0
  · subst h0
    rw [if_neg (by omega), if_pos rfl]
    simp only [array_set, if_true, to_uchar]
    omega
  · rw [if_neg h0]
    by_cases h1 : i ≤ t
    · rw [if_pos ⟨by omega, h1⟩, if_pos h1]
      unfold to_uchar; omega
    · rw [if_neg (by omega), if_neg h1]
      simp only [array_set, init_remap, if_neg h0]

/-- The index `write_frame` emits for palette index `p` under the table of a
designated index `t`: `p + 1` below `t`, `p` above `t`. -/
theorem inverse_remap_designated (uninit : Nat → Nat) (t p : Nat) (ht : t ≤ 255)
    (hp : p ≤ 255) (hne : p ≠ t) :
    build_inverse_remap uninit (remap_shift (array_set init_remap 0 (to_uchar t)) t) p
      = if p < t then p + 1 else p := by
  have hinj : ∀ i j, i < 256 → j < 256 →
      remap_shift (array_set init_remap 0 (to_uchar t)) t i
        = remap_shift (array_set init_remap 0 (to_uchar t)) t j → i = j := by
    intro i j _ _ h
    rw [remap_designated_apply t i ht, remap_designated_apply t j ht] at h
    split_ifs at h <;> omega
  have hinv := inverse_remap_loop_of_injective
    (remap_shift (array_set init_remap 0 (to_uchar t)) t) uninit 256 (le_refl _) hinj
  unfold build_inverse_remap
  by_cases hlt : p < t
  · rw [if_pos hlt]
    have h := hinv (p + 1) (by omega)
    rw [remap_designated_apply t (p + 1) ht, if_neg (by omega), if_pos (by omega)] at h
    simpa using h
  · rw [if_neg hlt]
    have h := hinv p (by omega)
    rw [remap_designated_apply t p ht, if_neg (by omega), if_neg (by omega)] at h
    exact h

theorem mem_drawable_pixels (drawable : IADrawable) (row : Nat → Nat) (k : Nat)
    (hrow : row ∈ drawable.rows) (hk : k < drawable.width) :
    row_pixel row k ∈ drawable_pixels drawable := by
  simp only [drawable_pixels, List.mem_flatMap, List.mem_map, List.mem_range]
  exact ⟨row, hrow, k, hk, rfl⟩

theorem ia_has_transparent_pixels_false (pixels : List IAPixel)
    (h : ∀ p ∈ pixels, p.alpha > 127) : ia_has_transparent_pixels pixels = false := by
  cases hb : ia_has_transparent_pixels pixels with
  | false => rfl
  | true =>
    obtain ⟨p, hp, ha⟩ := (ia_has_transparent_pixels_iff pixels).1 hb
    have := h p hp
    omega

/-- C13, as stated, fails for an empty colormap: `respin_cmap` then emits a
palette of one zeroed entry rather than the colormap. -/
theorem respin_cmap_empty_colormap :
    ia_has_transparent_pixels [IAPixel.mk 0 255] = false ∧
    (respin_cmap init_remap [] [IAPixel.mk 0 255]).palette = [some (PngColor.mk 0 0 0)] ∧
    (respin_cmap init_remap [] [IAPixel.mk 0 255]).palette
      ≠ ([] : List PngColor).map some := by
  decide

/-- C13, amended. If the indexed image with alpha has no pixel with alpha
`<= 127`, `respin_cmap` leaves the remap table as the identity, emits the
colormap unchanged (for an empty colormap: the one zeroed entry it puts in
its place) and sets no transparency chunk, and `write_frame` emits for every
pixel its original palette index. -/
theorem respin_cmap_no_transparency (colormap : List PngColor) (drawable : IADrawable)
    (uninit : Nat → Nat) (h : ∀ p ∈ drawable_pixels drawable, p.alpha > 127) :
    (∀ i, (respin_cmap init_remap colormap (drawable_pixels drawable)).remap i = i) ∧
    (respin_cmap init_remap colormap (drawable_pixels drawable)).trns = false ∧
    (respin_cmap init_remap colormap (drawable_pixels drawable)).warned = false ∧
    (colormap ≠ [] →
      (respin_cmap init_remap colormap (drawable_pixels drawable)).palette = colormap.map some) ∧
    (colormap = [] →
      (respin_cmap init_remap colormap (drawable_pixels drawable)).palette
        = [some (PngColor.mk 0 0 0)]) ∧
    (∀ row ∈ drawable.rows,
      write_frame_row (respin_cmap init_remap colormap (drawable_pixels drawable)).trns true
          (respin_cmap init_remap colormap (drawable_pixels drawable)).remap uninit
          drawable.width row
        = (List.range drawable.width).map (fun k => (row_pixel row k).index)) := by
  obtain ⟨h1, h2, h3, h4⟩ := respin_cmap_opaque init_remap colormap (drawable_pixels drawable)
    (ia_has_transparent_pixels_false _ h)
  refine ⟨?_, h1, h2, ?_, ?_, ?_⟩
  · intro i; rw [h3]; rfl
  · intro hne; rw [h4, colormap_before_of_ne_nil colormap hne]
  · intro he; rw [h4, he]; rfl
  · intro row _
    rw [h1, write_frame_row_plte]

/-- Witness for C13, amended: a drawable of two opaque pixels. -/
theorem respin_cmap_no_transparency_witness :
    (respin_cmap init_remap two_colormap
        (drawable_pixels (example_drawable [IAPixel.mk 1 255, IAPixel.mk 0 200]))).trns = false ∧
    write_frame_row false true init_remap (fun _ => 0) 2
        (row_of_pixels [IAPixel.mk 1 255, IAPixel.mk 0 200]) = [1, 0] := by
  have h := respin_cmap_no_transparency two_colormap
    (example_drawable [IAPixel.mk 1 255, IAPixel.mk 0 200]) (fun _ => 0) (by decide)
  exact ⟨h.2.1, by decide⟩

/-- C14. When a transparent index is designated, for every pixel of the
drawable the table was computed from that has alpha `> 127` and a palette
index `p` below the original colour count, the index `q` that `write_frame`
emits (`q = inverse_remap[p]`) looks up the pixel's original colour:
`new_palette[q] = original_colormap[p]`. -/
theorem write_frame_looks_up_colour (colormap : List PngColor) (drawable : IADrawable)
    (uninit : Nat → Nat) (t : Nat) (hlen : colormap.length ≤ 256)
    (htrans : ia_has_transparent_pixels (drawable_pixels drawable) = true)
    (hfind : (find_unused_ia_color (drawable_pixels drawable) (colormap_colors colormap)).1
      = (t : Int)) :
    ∀ row ∈ drawable.rows, ∀ k, k < drawable.width →
      (row_pixel row k).alpha > 127 → (row_pixel row k).index < colormap.length →
      ∃ q,
        (write_frame_row (respin_cmap init_remap colormap (drawable_pixels drawable)).trns true
          (respin_cmap init_remap colormap (drawable_pixels drawable)).remap uninit
          drawable.width row).get? k = some q ∧
        q = build_inverse_remap uninit
          (respin_cmap init_remap colormap (drawable_pixels drawable)).remap
          (row_pixel row k).index ∧
        (respin_cmap init_remap colormap (drawable_pixels drawable)).palette.get? q
          = some (colormap.get? (row_pixel row k).index) := by
  intro row hrow k hk ha hp
  obtain ⟨htr, _, hremap, hpal⟩ :=
    respin_cmap_designated init_remap colormap (drawable_pixels drawable) t htrans hfind
  have hcc := colormap_colors_le colormap hlen
  have ht255 := find_unused_ia_color_le _ _ t hcc hfind
  have hne0 : colormap ≠ [] := by
    intro h0; rw [h0] at hp; simp at hp
  have hcol := colormap_colors_of_ne_nil colormap hne0
  have hmem := mem_drawable_pixels drawable row k hrow hk
  have hdes := find_unused_ia_color_designated _ _ t
    ((ia_has_transparent_pixels_iff _).1 htrans) hfind
  rw [hcol] at hdes
  have hne : (row_pixel row k).index ≠ t := by
    rcases hdes with ⟨_, _, hun⟩ | ⟨ht, _, _⟩
    · exact hun _ hmem ha
    · omega
  have hq : (if (row_pixel row k).index < t then (row_pixel row k).index + 1
      else (row_pixel row k).index)
      < (find_unused_ia_color (drawable_pixels drawable) (colormap_colors colormap)).2 := by
    rw [hcol]
    rcases hdes with ⟨h1, h2, _⟩ | ⟨h1, h2, _⟩
    · rw [h2]; split <;> omega
    · rw [h2]; split <;> omega
  have hinv := inverse_remap_designated uninit t (row_pixel row k).index ht255 (by omega) hne
  refine ⟨if (row_pixel row k).index < t then (row_pixel row k).index + 1
      else (row_pixel row k).index, ?_, ?_, ?_⟩
  · rw [htr, hremap, write_frame_row_trns, get?_map_range _ _ _ hk]
    simp only [if_pos ha, hinv]
  · rw [hremap, hinv]
  · have hidx : remap_shift (array_set init_remap 0 (to_uchar t)) t
        (if (row_pixel row k).index < t then (row_pixel row k).index + 1
          else (row_pixel row k).index) = (row_pixel row k).index := by
      rw [remap_designated_apply _ _ ht255]
      by_cases hlt : (row_pixel row k).index < t
      · rw [if_pos hlt, if_neg (by omega), if_pos (by omega)]; omega
      · rw [if_neg hlt, if_neg (by omega), if_neg (by omega)]
    rw [hpal, get?_map_range _ _ _ hq, hidx, colormap_before_of_ne_nil colormap hne0]

/-- Witness for C14: the four colour example; the opaque pixel with index 2
is emitted as 3 and entry 3 of the new palette is entry 2 of the colormap. -/
theorem write_frame_looks_up_colour_witness :
    ∃ q,
      (write_frame_row
        (respin_cmap init_remap example_colormap
          (drawable_pixels (example_drawable example_pixels))).trns true
        (respin_cmap init_remap example_colormap
          (drawable_pixels (example_drawable example_pixels))).remap (fun _ => 0)
        (example_drawable example_pixels).width (row_of_pixels example_pixels)).get? 2 = some q ∧
      (respin_cmap init_remap example_colormap
        (drawable_pixels (example_drawable example_pixels))).palette.get? q
        = some (example_colormap.get? 2) := by
  obtain ⟨q, h1, _, h3⟩ := write_frame_looks_up_colour example_colormap
    (example_drawable example_pixels) (fun _ => 0) 3 (by decide) (by decide) (by decide)
    (row_of_pixels example_pixels) (by simp [example_drawable]) 2 (by decide) (by decide)
    (by decide)
  exact ⟨q, h1, h3⟩

set_option maxRecDepth 100000 in
/-- C16 fails on the code. Two layers over a colormap of two entries:
`layers[0]` uses index 0 opaquely and has a transparent pixel, so index 1 is
designated from it alone; `layers[1]`, written first, has an opaque pixel with
index 1, which is emitted as index 0, the transparent entry. -/
theorem save_image_opaque_pixel_lost :
    (save_image_palette two_colormap
      [example_drawable [IAPixel.mk 0 255, IAPixel.mk 0 0],
       example_drawable [IAPixel.mk 1 255, IAPixel.mk 0 255]]).trns = true ∧
    save_image_rows two_colormap (fun _ => 0)
      [example_drawable [IAPixel.mk 0 255, IAPixel.mk 0 0],
       example_drawable [IAPixel.mk 1 255, IAPixel.mk 0 255]]
      = [[[0, 1]], [[1, 0]]] := by
  decide

/-! ## `read_frame` and `on_read_error` -/

theorem set_rect_rows_in {α : Type} (fb : FrameBuffer α) (pixel : Nat → α) (y num j : Nat)
    (h1 : y ≤ j) (h2 : j < y + num) :
    (gimp_pixel_rgn_set_rect fb pixel y num).rows j = pixel (j - y) ∧
    (gimp_pixel_rgn_set_rect fb pixel y num).written j = true := by
  simp only [gimp_pixel_rgn_set_rect, if_pos (And.intro h1 h2), and_self]

theorem set_rect_rows_out {α : Type} (fb : FrameBuffer α) (pixel : Nat → α) (y num j : Nat)
    (h : ¬ (y ≤ j ∧ j < y + num)) :
    (gimp_pixel_rgn_set_rect fb pixel y num).rows j = fb.rows j ∧
    (gimp_pixel_rgn_set_rect fb pixel y num).written j = fb.written j := by
  simp only [gimp_pixel_rgn_set_rect, if_neg h, and_self]

/-- The zero-fill loop of `on_read_error` zeroes and writes every row from
`begin` to the frame height and leaves the other rows alone. -/
theorem zero_fill_loop_rows {α : Type} (zero : α) (t h : Nat) (ht : 1 ≤ t) :
    ∀ (n b e : Nat) (fb : FrameBuffer α), h - b ≤ n → (b < h → e = b + t) →
      (∀ j, b ≤ j → j < h →
        (zero_fill_loop zero t h n b e fb).rows j = zero ∧
        (zero_fill_loop zero t h n b e fb).written j = true) ∧
      (∀ j, (j < b ∨ h ≤ j) →
        (zero_fill_loop zero t h n b e fb).rows j = fb.rows j ∧
        (zero_fill_loop zero t h n b e fb).written j = fb.written j) := by
  intro n
  induction n with
  | zero =>
    intro b e fb hn _
    refine ⟨fun j h1 h2 => by omega, fun j _ => ⟨rfl, rfl⟩⟩
  | succ n ih =>
    intro b e fb hn he
    simp only [zero_fill_loop]
    by_cases hb : b < h
    · rw [if_pos hb]
      have hee := he hb
      subst hee
      have hnext : b + t < h → (if b + t > h then h else b + t) + t = b + t + t := by
        intro h1
        rw [if_neg (by omega)]
      obtain ⟨ih1, ih2⟩ := ih (b + t) ((if b + t > h then h else b + t) + t)
        (gimp_pixel_rgn_set_rect fb (fun _ => zero) b ((if b + t > h then h else b + t) - b))
        (by omega) hnext
      have hnum : ∀ j, b ≤ j → j < h → j < b + t →
          j < b + ((if b + t > h then h else b + t) - b) := by
        intro j h1 h2 h3
        split <;> omega
      have hnum2 : b + ((if b + t > h then h else b + t) - b) ≤ h ∧
          b + ((if b + t > h then h else b + t) - b) ≤ b + t := by
        split <;> omega
      refine ⟨?_, ?_⟩
      · intro j h1 h2
        by_cases h3 : j < b + t
        · obtain ⟨r1, r2⟩ := ih2 j (Or.inl h3)
          obtain ⟨s1, s2⟩ := set_rect_rows_in fb (fun _ => zero) b _ j h1 (hnum j h1 h2 h3)
          rw [r1, r2, s1, s2]
          exact ⟨rfl, rfl⟩
        · exact ih1 j (by omega) h2
      · intro j hj
        have hj2 : j < b + t ∨ h ≤ j := by omega
        obtain ⟨r1, r2⟩ := ih2 j hj2
        obtain ⟨s1, s2⟩ := set_rect_rows_out fb (fun _ => zero) b
          ((if b + t > h then h else b + t) - b) j (by omega)
        rw [r1, r2, s1, s2]
        exact ⟨rfl, rfl⟩
    · rw [if_neg hb]
      refine ⟨fun j h1 h2 => by omega, fun j _ => ⟨rfl, rfl⟩⟩

/-- The tile buffer at the start of a band holds, for each row of the band,
what the earlier passes left in it. -/
theorem band_buffer_row {α : Type} (codec : Nat → Nat → α → α) (zero : α) (h P b num : Nat)
    (fb : FrameBuffer α) (hnum : b + num ≤ h)
    (hfb : P ≠ 0 → ∀ j, b ≤ j → j < h →
      fb.rows j = refined codec zero P j ∧ fb.written j = true) :
    ∀ i, i < num →
      (if P ≠ 0 then gimp_pixel_rgn_get_rect fb (fun _ => zero) b num else (fun _ => zero)) i
        = refined codec zero P (b + i) := by
  intro i hi
  by_cases hP : P = 0
  · subst hP
    rw [if_neg (by simp)]
    rfl
  · rw [if_pos hP]
    simp only [gimp_pixel_rgn_get_rect, if_pos hi]
    exact (hfb hP (b + i) (by omega) (by omega)).1

/-- A band written back after `k` of its rows were decoded: the first `k` rows
hold the data of this pass, the others what the earlier passes left. -/
theorem band_flush_rows {α : Type} (codec : Nat → Nat → α → α) (zero : α) (h P b num k : Nat)
    (fb : FrameBuffer α) (hnum : b + num ≤ h)
    (hfb : P ≠ 0 → ∀ j, b ≤ j → j < h →
      fb.rows j = refined codec zero P j ∧ fb.written j = true) :
    ∀ j, b ≤ j → j < b + num →
      (gimp_pixel_rgn_set_rect fb
        (png_read_rows codec P b
          (if P ≠ 0 then gimp_pixel_rgn_get_rect fb (fun _ => zero) b num else (fun _ => zero))
          k) b num).rows j
        = (if j < b + k then refined codec zero (P + 1) j else refined codec zero P j) ∧
      (gimp_pixel_rgn_set_rect fb
        (png_read_rows codec P b
          (if P ≠ 0 then gimp_pixel_rgn_get_rect fb (fun _ => zero) b num else (fun _ => zero))
          k) b num).written j = true := by
  intro j h1 h2
  obtain ⟨s1, s2⟩ := set_rect_rows_in fb
    (png_read_rows codec P b
      (if P ≠ 0 then gimp_pixel_rgn_get_rect fb (fun _ => zero) b num else (fun _ => zero)) k)
    b num j h1 h2
  refine ⟨?_, s2⟩
  rw [s1]
  have hbuf := band_buffer_row codec zero h P b num fb hnum hfb (j - b) (by omega)
  have hj : b + (j - b) = j := by omega
  rw [hj] at hbuf
  simp only [png_read_rows]
  by_cases hk : j - b < k
  · rw [if_pos hk, if_pos (show j < b + k by omega), hbuf, hj]
    rfl
  · rw [if_neg hk, if_neg (show ¬ j < b + k by omega), hbuf]

theorem fault_in_band_some (P r b e : Nat) (h1 : b ≤ r) (h2 : r < e) :
    fault_in_band (some (P, r)) P b e = some r := by
  simp only [fault_in_band, true_and]
  rw [if_pos ⟨h1, h2⟩]

theorem fault_in_band_none (P r b e : Nat) (h : ¬ (b ≤ r ∧ r < e)) :
    fault_in_band (some (P, r)) P b e = none := by
  simp only [fault_in_band, true_and]
  rw [if_neg h]

theorem fault_in_band_other_pass (p r P : Nat) (hp : p ≠ P) (b e : Nat) :
    fault_in_band (some (p, r)) P b e = none := by
  simp only [fault_in_band]
  rw [if_neg (fun h => hp h.1)]

/-- The band loop of a pass in which the row codec does not fail: every row of
the frame is refined by the pass and written, the tile buffer is left zeroed. -/
theorem read_band_loop_complete {α : Type} (codec : Nat → Nat → α → α) (zero : α)
    (fault : Option (Nat × Nat)) (t h P : Nat) (ht : 1 ≤ t)
    (hno : ∀ b e, fault_in_band fault P b e = none) :
    ∀ (n b e : Nat) (fb : FrameBuffer α), h - b ≤ n → (b < h → e = b + t) →
      (∀ j, j < b → j < h → fb.rows j = refined codec zero (P + 1) j ∧ fb.written j = true) →
      (P ≠ 0 → ∀ j, b ≤ j → j < h →
        fb.rows j = refined codec zero P j ∧ fb.written j = true) →
      (read_band_loop codec zero fault t h P n b e fb (fun _ => zero)).truncated = false ∧
      (read_band_loop codec zero fault t h P n b e fb (fun _ => zero)).pixel = (fun _ => zero) ∧
      (∀ j, j < h →
        (read_band_loop codec zero fault t h P n b e fb (fun _ => zero)).fb.rows j
          = refined codec zero (P + 1) j ∧
        (read_band_loop codec zero fault t h P n b e fb (fun _ => zero)).fb.written j = true) := by
  intro n
  induction n with
  | zero =>
    intro b e fb hn _ hdone _
    refine ⟨rfl, rfl, fun j hj => hdone j (by omega) hj⟩
  | succ n ih =>
    intro b e fb hn he hdone hprev
    simp only [read_band_loop]
    by_cases hb : b < h
    · rw [if_pos hb]
      have hee := he hb
      subst hee
      simp only [hno]
      have hnum : b + ((if b + t > h then h else b + t) - b) ≤ h := by split <;> omega
      have hend : b + ((if b + t > h then h else b + t) - b)
          = (if b + t > h then h else b + t) := by split <;> omega
      have hnext : b + t < h → (if b + t > h then h else b + t) + t = b + t + t := by
        intro h1
        rw [if_neg (by omega)]
      apply ih (b + t) _ _ (by omega) hnext
      · intro j hj1 hj2
        by_cases hjb : b ≤ j
        · have hj3 : j < b + ((if b + t > h then h else b + t) - b) := by
            rw [hend]; split <;> omega
          obtain ⟨r1, r2⟩ := band_flush_rows codec zero h P b _
            ((if b + t > h then h else b + t) - b) fb hnum hprev j hjb hj3
          rw [r1, r2, if_pos hj3]
          exact ⟨rfl, rfl⟩
        · obtain ⟨s1, s2⟩ := set_rect_rows_out fb
            (png_read_rows codec P b
              (if P ≠ 0 then gimp_pixel_rgn_get_rect fb (fun _ => zero) b
                ((if b + t > h then h else b + t) - b) else (fun _ => zero))
              ((if b + t > h then h else b + t) - b))
            b ((if b + t > h then h else b + t) - b) j (by omega)
          rw [s1, s2]
          exact hdone j (by omega) hj2
      · intro hP j hj1 hj2
        obtain ⟨s1, s2⟩ := set_rect_rows_out fb
          (png_read_rows codec P b
            (if P ≠ 0 then gimp_pixel_rgn_get_rect fb (fun _ => zero) b
              ((if b + t > h then h else b + t) - b) else (fun _ => zero))
            ((if b + t > h then h else b + t) - b))
          b ((if b + t > h then h else b + t) - b) j (by rw [hend]; split <;> omega)
        rw [s1, s2]
        exact hprev hP j (by omega) hj2
    · rw [if_neg hb]
      refine ⟨rfl, rfl, fun j hj => hdone j (by omega) hj⟩

/-- The band loop of the pass in which the row codec fails at row `r`: control
leaves through `on_read_error` with every row of the frame written; the rows
before `r` hold the data of this pass, the rest of the current band what the
earlier passes left, and every later band zeros. -/
theorem read_band_loop_fault {α : Type} (codec : Nat → Nat → α → α) (zero : α)
    (t h P r : Nat) (ht : 1 ≤ t) (hr : r < h) :
    ∀ (n b e : Nat) (fb : FrameBuffer α), h - b ≤ n → (b < h → e = b + t) → b ≤ r → t ∣ b →
      (∀ j, j < b → j < h → fb.rows j = refined codec zero (P + 1) j ∧ fb.written j = true) →
      (P ≠ 0 → ∀ j, b ≤ j → j < h →
        fb.rows j = refined codec zero P j ∧ fb.written j = true) →
      (read_band_loop codec zero (some (P, r)) t h P n b e fb (fun _ => zero)).truncated = true ∧
      (∀ j, j < h →
        (read_band_loop codec zero (some (P, r)) t h P n b e fb (fun _ => zero)).fb.written j
          = true) ∧
      (∀ j, j < r →
        (read_band_loop codec zero (some (P, r)) t h P n b e fb (fun _ => zero)).fb.rows j
          = refined codec zero (P + 1) j) ∧
      (∃ e1, e1 = min h (r / t * t + t) ∧ r < e1 ∧ e1 ≤ h ∧ e1 ≤ r + t ∧
        (∀ j, r ≤ j → j < e1 →
          (read_band_loop codec zero (some (P, r)) t h P n b e fb (fun _ => zero)).fb.rows j
            = refined codec zero P j) ∧
        (∀ j, e1 ≤ j → j < h →
          (read_band_loop codec zero (some (P, r)) t h P n b e fb (fun _ => zero)).fb.rows j
            = zero)) := by
  intro n
  induction n with
  | zero => intro b e fb hn _ hbr; omega
  | succ n ih =>
    intro b e fb hn he hbr hdvd hdone hprev
    have hb : b < h := by omega
    have hee := he hb
    subst hee
    simp only [read_band_loop]
    rw [if_pos hb]
    have hnum : b + ((if b + t > h then h else b + t) - b) ≤ h := by split <;> omega
    have hend : b + ((if b + t > h then h else b + t) - b)
        = (if b + t > h then h else b + t) := by split <;> omega
    have hend_le : (if b + t > h then h else b + t) ≤ b + t := by split <;> omega
    have hend_h : (if b + t > h then h else b + t) ≤ h := by split <;> omega
    have hend_gt : b < (if b + t > h then h else b + t) := by split <;> omega
    have hnext : b + t < h → (if b + t > h then h else b + t) + t = b + t + t := by
      intro h1
      rw [if_neg (by omega)]
    by_cases hin : r < (if b + t > h then h else b + t)
    · rw [fault_in_band_some P r b _ hbr hin]
      simp only [on_read_error]
      obtain ⟨z1, z2⟩ := zero_fill_loop_rows zero t h ht h (b + t)
        ((if b + t > h then h else b + t) + t)
        (gimp_pixel_rgn_set_rect fb
          (png_read_rows codec P b
            (if P ≠ 0 then gimp_pixel_rgn_get_rect fb (fun _ => zero) b
              ((if b + t > h then h else b + t) - b) else (fun _ => zero))
            (r - b)) b ((if b + t > h then h else b + t) - b))
        (by omega) hnext
      have hflush := band_flush_rows codec zero h P b
        ((if b + t > h then h else b + t) - b) (r - b) fb hnum hprev
      have hbr2 : b + (r - b) = r := by omega
      rw [hend, hbr2] at hflush
      -- rows below the current band
      have hbelow : ∀ j, j < b →
          (gimp_pixel_rgn_set_rect fb
            (png_read_rows codec P b
              (if P ≠ 0 then gimp_pixel_rgn_get_rect fb (fun _ => zero) b
                ((if b + t > h then h else b + t) - b) else (fun _ => zero))
              (r - b)) b ((if b + t > h then h else b + t) - b)).rows j = fb.rows j ∧
          (gimp_pixel_rgn_set_rect fb
            (png_read_rows codec P b
              (if P ≠ 0 then gimp_pixel_rgn_get_rect fb (fun _ => zero) b
                ((if b + t > h then h else b + t) - b) else (fun _ => zero))
              (r - b)) b ((if b + t > h then h else b + t) - b)).written j = fb.written j :=
        fun j hj => set_rect_rows_out fb _ b _ j (by omega)
      have hband : (if b + t > h then h else b + t) = min h (r / t * t + t) := by
        obtain ⟨k, hk⟩ := hdvd
        have hkt : k * t = b := by rw [hk, Nat.mul_comm]
        have hdiv : r / t = k :=
          Nat.div_eq_of_lt_le (by rw [hkt]; exact hbr)
            (by
              have e : (k + 1) * t = b + t := by rw [← hkt]; ring
              rw [e]; omega)
        rw [hdiv, hkt]
        split <;> omega
      refine ⟨trivial, ?_, ?_, (if b + t > h then h else b + t), hband, hin, hend_h, by omega,
        ?_, ?_⟩
      · intro j hj
        by_cases hj1 : j < b + t
        · rw [(z2 j (Or.inl hj1)).2]
          by_cases hjb : b ≤ j
          · exact (hflush j hjb (by split <;> omega)).2
          · rw [(hbelow j (by omega)).2]
            exact (hdone j (by omega) hj).2
        · exact (z1 j (by omega) hj).2
      · intro j hj
        rw [(z2 j (Or.inl (by omega))).1]
        by_cases hjb : b ≤ j
        · rw [(hflush j hjb (by omega)).1, if_pos hj]
        · rw [(hbelow j (by omega)).1]
          exact (hdone j (by omega) (by omega)).1
      · intro j hj1 hj2
        rw [(z2 j (Or.inl (by omega))).1, (hflush j (by omega) hj2).1, if_neg (by omega)]
      · intro j hj1 hj2
        have hfull : (if b + t > h then h else b + t) = b + t := by
          split at hj1 <;> omega
        exact (z1 j (by omega) hj2).1
    · rw [fault_in_band_none P r b _ (fun hc => hin hc.2)]
      simp only []
      have hfull : (if b + t > h then h else b + t) = b + t := by
        split at hin <;> omega
      have hflush := band_flush_rows codec zero h P b
        ((if b + t > h then h else b + t) - b) ((if b + t > h then h else b + t) - b)
        fb hnum hprev
      rw [hend] at hflush
      apply ih (b + t) _ _ (by omega) hnext (by omega) (Dvd.dvd.add hdvd (dvd_refl t))
      · intro j hj1 hj2
        by_cases hjb : b ≤ j
        · obtain ⟨r1, r2⟩ := hflush j hjb (by omega)
          rw [r1, r2, if_pos (by omega)]
          exact ⟨rfl, rfl⟩
        · obtain ⟨s1, s2⟩ := set_rect_rows_out fb
            (png_read_rows codec P b
              (if P ≠ 0 then gimp_pixel_rgn_get_rect fb (fun _ => zero) b
                ((if b + t > h then h else b + t) - b) else (fun _ => zero))
              ((if b + t > h then h else b + t) - b))
            b ((if b + t > h then h else b + t) - b) j (by omega)
          rw [s1, s2]
          exact hdone j (by omega) hj2
      · intro hP j hj1 hj2
        obtain ⟨s1, s2⟩ := set_rect_rows_out fb
          (png_read_rows codec P b
            (if P ≠ 0 then gimp_pixel_rgn_get_rect fb (fun _ => zero) b
              ((if b + t > h then h else b + t) - b) else (fun _ => zero))
            ((if b + t > h then h else b + t) - b))
          b ((if b + t > h then h else b + t) - b) j (by omega)
        rw [s1, s2]
        exact hprev hP j (by omega) hj2

/-- The pass loop of `read_frame` when the row codec fails at row `r` of pass
`p`: the passes before `p` run to their end, pass `p` leaves through
`on_read_error`. -/
theorem read_pass_loop_fault {α : Type} (codec : Nat → Nat → α → α) (zero : α)
    (t h p r : Nat) (ht : 1 ≤ t) (hr : r < h) :
    ∀ (n P : Nat) (fb : FrameBuffer α), P ≤ p → p < P + n →
      (P ≠ 0 → ∀ j, j < h → fb.rows j = refined codec zero P j ∧ fb.written j = true) →
      (read_pass_loop codec zero (some (p, r)) t h n P fb (fun _ => zero)).truncated = true ∧
      (∀ j, j < h →
        (read_pass_loop codec zero (some (p, r)) t h n P fb (fun _ => zero)).fb.written j
          = true) ∧
      (∀ j, j < r →
        (read_pass_loop codec zero (some (p, r)) t h n P fb (fun _ => zero)).fb.rows j
          = refined codec zero (p + 1) j) ∧
      (∃ e1, e1 = min h (r / t * t + t) ∧ r < e1 ∧ e1 ≤ h ∧ e1 ≤ r + t ∧
        (∀ j, r ≤ j → j < e1 →
          (read_pass_loop codec zero (some (p, r)) t h n P fb (fun _ => zero)).fb.rows j
            = refined codec zero p j) ∧
        (∀ j, e1 ≤ j → j < h →
          (read_pass_loop codec zero (some (p, r)) t h n P fb (fun _ => zero)).fb.rows j
            = zero)) := by
  intro n
  induction n with
  | zero => intro P fb h1 h2; omega
  | succ n ih =>
    intro P fb hPp hpn hprev
    simp only [read_pass_loop]
    by_cases hP : P = p
    · subst hP
      have hA := read_band_loop_fault codec zero t h P r ht hr h 0 t fb (by omega)
        (fun _ => by omega) (Nat.zero_le _) (dvd_zero t) (fun j hj _ => by omega)
        (fun hP0 j _ hj => hprev hP0 j hj)
      rw [if_pos hA.1]
      exact hA
    · have hB := read_band_loop_complete codec zero (some (p, r)) t h P ht
        (fault_in_band_other_pass p r P (fun hc => hP hc.symm)) h 0 t fb (by omega)
        (fun _ => by omega) (fun j hj _ => by omega) (fun hP0 j _ hj => hprev hP0 j hj)
      rw [if_neg (by rw [hB.1]; simp), hB.2.1]
      exact ih (P + 1) _ (by omega) (by omega) (fun _ j hj => hB.2.2 j hj)

/-- What `read_frame` leaves when the row codec fails at row `r` of pass `p`. -/
theorem read_frame_fault {α : Type} (codec : Nat → Nat → α → α) (zero : α) (init : Nat → α)
    (t h np p r : Nat) (ht : 1 ≤ t) (hp : p < np) (hr : r < h) :
    (read_frame codec zero init (some (p, r)) t h np).truncated = true ∧
    (∀ j, j < h → (read_frame codec zero init (some (p, r)) t h np).fb.written j = true) ∧
    (∀ j, j < r →
      (read_frame codec zero init (some (p, r)) t h np).fb.rows j
        = refined codec zero (p + 1) j) ∧
    (∃ e1, e1 = min h (r / t * t + t) ∧ r < e1 ∧ e1 ≤ h ∧ e1 ≤ r + t ∧
      (∀ j, r ≤ j → j < e1 →
        (read_frame codec zero init (some (p, r)) t h np).fb.rows j = refined codec zero p j) ∧
      (∀ j, e1 ≤ j → j < h →
        (read_frame codec zero init (some (p, r)) t h np).fb.rows j = zero)) :=
  read_pass_loop_fault codec zero t h p r ht hr np 0 _ (Nat.zero_le _) (by omega)
    (fun h0 => absurd rfl h0)

/-- C17. For every frame height `h`, tile height `t >= 1` and failure point,
if the row codec reports a fatal error while `read_frame` is reading a band,
then by the time control leaves the error handler every row `0..h-1` of the
frame's framebuffer has been written (for `h = 100`, `t = 16` and a failure
after 40 rows, all 100 rows are written). -/
theorem read_frame_all_rows_written {α : Type} (codec : Nat → Nat → α → α) (zero : α)
    (init : Nat → α) (t h np p r : Nat) (ht : 1 ≤ t) (hp : p < np) (hr : r < h) :
    (read_frame codec zero init (some (p, r)) t h np).truncated = true ∧
    ∀ j, j < h → (read_frame codec zero init (some (p, r)) t h np).fb.written j = true :=
  ⟨(read_frame_fault codec zero init t h np p r ht hp hr).1,
   (read_frame_fault codec zero init t h np p r ht hp hr).2.1⟩

/-- Witness for C17: 100 rows, tile height 16, the codec fails after 40 rows. -/
theorem read_frame_all_rows_written_witness :
    (read_frame example_codec 0 (fun _ => 99) (some (0, 40)) 16 100 1).truncated = true ∧
    ∀ j, j < 100 →
      (read_frame example_codec 0 (fun _ => 99) (some (0, 40)) 16 100 1).fb.written j = true :=
  read_frame_all_rows_written example_codec 0 (fun _ => 99) 16 100 1 0 40 (by decide)
    (by decide) (by decide)

/-- C18, as stated, fails in a pass after the first. Sixteen rows in one band,
two interlace passes that touch rows 0 and 8, the codec fails in the second
pass when it comes to row 8: row 8, one of the remaining rows of the band, is
not zero, it keeps the data of the first pass. -/
theorem read_frame_later_pass_keeps_rows :
    (read_frame example_interlaced_codec 0 (fun _ => 99) (some (1, 8)) 16 16 2).truncated
      = true ∧
    (List.range 16).map
        (read_frame example_interlaced_codec 0 (fun _ => 99) (some (1, 8)) 16 16 2).fb.rows
      = [3, 0, 0, 0, 0, 0, 0, 0, 9, 0, 0, 0, 0, 0, 0, 0] := by
  decide

/-- C18, amended. For every number of interlace passes and every failure
point, when the row codec fails mid-band after `r` rows of the frame have been
decoded in the current pass, the framebuffer afterwards holds the data decoded
in the current pass in the rows before the failure, in the remaining rows of
the current band (the rows from `r` up to the band end
`min (h, (r / t) * t + t)`) what the earlier passes left there (zeros when the
failure is in the first pass), and zeros in every row of every later band down
to the frame height. -/
theorem read_frame_fault_rows {α : Type} (codec : Nat → Nat → α → α) (zero : α)
    (init : Nat → α) (t h np p r : Nat) (ht : 1 ≤ t) (hp : p < np) (hr : r < h) :
    (∀ j, j < r →
      (read_frame codec zero init (some (p, r)) t h np).fb.rows j
        = codec p j (refined codec zero p j)) ∧
    (r < min h (r / t * t + t) ∧ min h (r / t * t + t) ≤ r + t) ∧
    (∀ j, r ≤ j → j < min h (r / t * t + t) →
      (read_frame codec zero init (some (p, r)) t h np).fb.rows j = refined codec zero p j) ∧
    (∀ j, min h (r / t * t + t) ≤ j → j < h →
      (read_frame codec zero init (some (p, r)) t h np).fb.rows j = zero) ∧
    (p = 0 →
      (∀ j, j < r →
        (read_frame codec zero init (some (p, r)) t h np).fb.rows j = codec 0 j zero) ∧
      (∀ j, r ≤ j → j < h →
        (read_frame codec zero init (some (p, r)) t h np).fb.rows j = zero)) := by
  obtain ⟨_, _, h3, e1, hband, he1, _, he3, h4, h5⟩ :=
    read_frame_fault codec zero init t h np p r ht hp hr
  subst hband
  refine ⟨fun j hj => h3 j hj, ⟨he1, he3⟩, h4, h5, ?_⟩
  intro hp0
  subst hp0
  refine ⟨fun j hj => h3 j hj, ?_⟩
  intro j hj1 hj2
  by_cases hje : j < min h (r / t * t + t)
  · exact h4 j hj1 hje
  · exact h5 j (by omega) hj2

/-- Witness for C18, amended: 100 rows, tile height 16, one pass, the codec
fails after 40 rows; the first 40 rows are decoded, the other 60 are zero.
And 8 rows, tile height 4, two passes, the codec fails in the second pass
after row 0: rows 1 to 3, the rest of the band, keep the data of the first
pass, rows 4 to 7 are zero. -/
theorem read_frame_fault_rows_witness :
    ((∀ j, j < 40 →
      (read_frame example_codec 0 (fun _ => 99) (some (0, 40)) 16 100 1).fb.rows j
        = example_codec 0 j 0) ∧
     (∀ j, 40 ≤ j → j < 100 →
      (read_frame example_codec 0 (fun _ => 99) (some (0, 40)) 16 100 1).fb.rows j = 0)) ∧
    (∀ j, 1 ≤ j → j < min 8 (1 / 4 * 4 + 4) →
      (read_frame example_codec 0 (fun _ => 99) (some (1, 1)) 4 8 2).fb.rows j
        = refined example_codec 0 1 j) ∧
    (∀ j, min 8 (1 / 4 * 4 + 4) ≤ j → j < 8 →
      (read_frame example_codec 0 (fun _ => 99) (some (1, 1)) 4 8 2).fb.rows j = 0) ∧
    (List.range 8).map (read_frame example_codec 0 (fun _ => 99) (some (1, 1)) 4 8 2).fb.rows
      = [1, 2, 3, 4, 0, 0, 0, 0] :=
  ⟨(read_frame_fault_rows example_codec 0 (fun _ => 99) 16 100 1 0 40 (by decide) (by decide)
      (by decide)).2.2.2.2 rfl,
   (read_frame_fault_rows example_codec 0 (fun _ => 99) 4 8 2 1 1 (by decide) (by decide)
      (by decide)).2.2.1,
   (read_frame_fault_rows example_codec 0 (fun _ => 99) 4 8 2 1 1 (by decide) (by decide)
      (by decide)).2.2.2.1,
   by decide⟩

/-! ## The error path of `load_image` -/

/-- C19, as stated, fails. When the row codec fails while the rows of a frame
are read, `load_image` sets the error but returns the image it has created,
and the load procedure returns success with that image. -/
theorem run_load_truncated_succeeds :
    load_image example_truncated_load = (1, some LoadError.error_while_reading) ∧
    run_load example_truncated_load
      = { status := GimpPDBStatusType.GIMP_PDB_SUCCESS, nreturn_vals := 2,
          value1 := some (ReturnValue.image 1) } := by
  decide

/-- C19, amended. If the row codec fails fatally while a frame's rows are
being read, `load_image` records the error message but returns the ID of the
image it has created, not `-1`, and the load procedure returns success with
that image; the returned status is an execution error, carrying the error
message, exactly when `load_image` returns `-1`. -/
theorem run_load_status (inp : LoadInput) :
    (inp.fopen_ok = true → inp.color_type_known = true → inp.new_image ≠ -1 →
      inp.fault = LoadFault.in_frame_rows →
      load_image inp = (inp.new_image, some LoadError.error_while_reading) ∧
      run_load inp = { status := GimpPDBStatusType.GIMP_PDB_SUCCESS, nreturn_vals := 2,
                       value1 := some (ReturnValue.image inp.new_image) }) ∧
    ((run_load inp).status = GimpPDBStatusType.GIMP_PDB_EXECUTION_ERROR ↔
      (load_image inp).1 = -1) ∧
    ((load_image inp).1 = -1 →
      ∃ e, (load_image inp).2 = some e ∧
        (run_load inp).value1 = some (ReturnValue.message e)) := by
  refine ⟨?_, ?_, ?_⟩
  · intro h1 h2 h3 h4
    have hl : load_image inp = (inp.new_image, some LoadError.error_while_reading) := by
      simp [load_image, h1, h2, h3, h4]
    refine ⟨hl, ?_⟩
    simp [run_load, hl, h3]
  · unfold run_load
    by_cases h : (load_image inp).1 = -1
    · cases he : (load_image inp).2 <;> simp [h, he]
    · cases he : (load_image inp).2 <;> simp [h, he]
  · intro h
    have hex : ∃ e, (load_image inp).2 = some e := by
      unfold load_image at h ⊢
      split_ifs at h ⊢ <;> first | exact ⟨_, rfl⟩ | exact absurd h (by assumption)
    obtain ⟨e, he⟩ := hex
    refine ⟨e, he, ?_⟩
    simp [run_load, h, he]

/-- Witness for C19, amended: the load whose codec fails in a frame. -/
theorem run_load_status_witness :
    load_image example_truncated_load
      = (example_truncated_load.new_image, some LoadError.error_while_reading) ∧
    run_load example_truncated_load
      = { status := GimpPDBStatusType.GIMP_PDB_SUCCESS, nreturn_vals := 2,
          value1 := some (ReturnValue.image example_truncated_load.new_image) } :=
  (run_load_status example_truncated_load).1 (by decide) (by decide) (by decide) (by decide)

/-! ## `parse_delay_tag`: the delay as a fraction -/

theorem delay_divisor_loop_largest (d n : Nat) (hn : n ∈ powers_of_ten) (hdiv : n ∣ d)
    (hmax : ∀ m ∈ powers_of_ten, m ∣ d → m ≤ n) : delay_divisor_loop d 4 1000 = n := by
  rw [delay_divisor_loop_eq]
  have h1000 := hmax 1000 (by simp [powers_of_ten])
  have h100 := hmax 100 (by simp [powers_of_ten])
  have h10 := hmax 10 (by simp [powers_of_ten])
  simp only [Nat.dvd_iff_mod_eq_zero] at h1000 h100 h10 hdiv
  simp only [powers_of_ten, List.mem_cons, List.mem_singleton, List.not_mem_nil, or_false] at hn
  rcases hn with rfl | rfl | rfl | rfl <;> split_ifs <;> omega

/-- C20, as stated, fails above the 16-bit range: the name `(65536ms)` parses
to 65536 ms, no power of ten above 1 divides it, and the numerator 65536 is
cut to 0. -/
theorem parse_delay_tag_truncates :
    parse_ms_tag "(65536ms)".toList = 65536 ∧
    parse_delay_tag defaults "(65536ms)".toList = (0, 1000) ∧
    (parse_delay_tag defaults "(65536ms)".toList).1 * 1000
      ≠ 65536 * (parse_delay_tag defaults "(65536ms)".toList).2 := by
  decide

/-- C20, amended. For every layer name whose delay tag parses to a millisecond
value `d >= 0` with `d / n <= 65535`, where `n` is the largest element of
`{1000, 100, 10, 1}` that divides `d` (so for every `d <= 65535`), the pair
`(delay_num, delay_den)` emitted by `parse_delay_tag` represents exactly `d`
milliseconds: `delay_num * 1000 = d * delay_den`. -/
theorem parse_delay_tag_exact (pngvals : PngSaveVals) (str : List Char) (d n : Nat)
    (hparse : parse_ms_tag str = (d : Int))
    (hn : n ∈ powers_of_ten) (hdiv : n ∣ d)
    (hmax : ∀ m ∈ powers_of_ten, m ∣ d → m ≤ n) (hq : d / n ≤ 65535) :
    (parse_delay_tag pngvals str).1 * 1000 = d * (parse_delay_tag pngvals str).2 := by
  have hloop := delay_divisor_loop_largest d n hn hdiv hmax
  have hq2 : 1000 / n ≤ 65535 := le_trans (Nat.div_le_self 1000 n) (by omega)
  have hpd : parse_delay_tag pngvals str = (d / n, 1000 / n) := by
    unfold parse_delay_tag
    simp only [hparse, Int.toNat_ofNat, hloop]
    rw [if_neg (by omega), to_uint16_of_le _ hq, to_uint16_of_le _ hq2]
  rw [hpd]
  simp only []
  obtain ⟨k, rfl⟩ := hdiv
  simp only [powers_of_ten, List.mem_cons, List.mem_singleton, List.not_mem_nil, or_false] at hn
  rcases hn with rfl | rfl | rfl | rfl <;> simp <;> ring

/-- Witness for C20, amended: the name `Frame 2 (120ms)` gives 12/100. -/
theorem parse_delay_tag_exact_witness :
    (parse_delay_tag defaults "Frame 2 (120ms)".toList).1 * 1000
      = 120 * (parse_delay_tag defaults "Frame 2 (120ms)".toList).2 :=
  parse_delay_tag_exact defaults "Frame 2 (120ms)".toList 120 10 (by decide) (by decide)
    (by decide) (by decide) (by decide)

/-! ## The order of the frames in a load-save cycle -/

theorem save_layer_order_eq (n : Nat) : save_layer_order n = (List.range n).reverse := by
  induction n with
  | zero => rfl
  | succ n ih => simp [save_layer_order, ih, List.range_succ]

theorem save_layer_order_filterMap (layers : List Layer) :
    (save_layer_order layers.length).filterMap layers.get? = layers.reverse := by
  induction layers using List.reverseRecOn with
  | nil => rfl
  | append_singleton l a ih =>
    have hlen : (l ++ [a]).length = l.length + 1 := by simp
    rw [hlen]
    simp only [save_layer_order, List.reverse_append, List.reverse_singleton,
      List.singleton_append]
    have h0 : (l ++ [a]).get? l.length = some a := by simp
    rw [List.filterMap_cons_some h0]
    congr 1
    rw [← ih]
    apply List.filterMap_congr
    intro i hi
    rw [save_layer_order_eq, List.mem_reverse, List.mem_range] at hi
    simp only [List.get?_eq_getElem?]
    rw [List.getElem?_append_left hi]

theorem save_frames_loop_eq (pngvals : PngSaveVals) (offx offy : Int) (layers : List Layer) :
    ∀ n, save_frames_loop pngvals offx offy layers n
      = ((save_layer_order n).filterMap layers.get?).map (save_frame pngvals offx offy) := by
  intro n
  induction n with
  | zero => rfl
  | succ n ih =>
    cases h : layers.get? n with
    | none =>
      simp only [save_frames_loop, h, save_layer_order, ih]
      rw [List.filterMap_cons_none h]
    | some layer =>
      simp only [save_frames_loop, h, save_layer_order, ih]
      rw [List.filterMap_cons_some h, List.map_cons]

theorem load_frames_in_order_length (info : PngInfo) (heads : List (Option FcTL)) :
    ∀ frame prev, (load_frames_in_order info heads frame prev).length = heads.length := by
  induction heads with
  | nil => intro frame prev; rfl
  | cons head rest ih => intro frame prev; simp [load_frames_in_order, ih]

theorem load_image_frames_length (info : PngInfo) (heads : List (Option FcTL)) :
    (load_image_frames info heads).length = heads.length := by
  rw [← List.length_reverse, load_image_frames_reverse, load_frames_in_order_length]

/-- C21, as stated, fails for `N = 1`.  The decoder makes one layer for a
one-frame animation; handed that layer the encoder sets no animation header
at all, because `png_set_acTL` is only called when `nlayers > 1`. -/
theorem save_image_single_frame_no_acTL :
    (load_image_frames example_info [some (example_fctl PNG_DISPOSE_OP_NONE)]).length = 1 ∧
    save_image_acTL
      (load_image_frames example_info [some (example_fctl PNG_DISPOSE_OP_NONE)]).length
      = none := by
  decide

/-- C21, amended.  For `N >= 2`: the layers the decoder creates for frames
0, 1, ..., N-1 (each new layer inserted at position 0 of the layer list), when
handed unchanged to the encoder (which walks the layer list from index N-1
down to 0), are written as frames in the original order 0, 1, ..., N-1, each
layer exactly once, under an animation header whose frame count is N.  (For
`N = 1` the single layer is written once, without an animation header.) -/
theorem save_image_frame_order (info : PngInfo) (pngvals : PngSaveVals) (base : Int × Int)
    (heads : List (Option FcTL)) (hN : 2 ≤ heads.length) :
    save_image_acTL (load_image_frames info heads).length = some heads.length ∧
    (save_image_layer_order (load_image_frames info heads).length).length = heads.length ∧
    (save_image_layer_order (load_image_frames info heads).length).Nodup ∧
    (∀ k, k < heads.length →
      (save_image_layer_order (load_image_frames info heads).length).get? k
        = some (heads.length - 1 - k)) ∧
    (save_image_layer_order (load_image_frames info heads).length).filterMap
        (load_image_frames info heads).get?
      = load_frames_in_order info heads 0 PNG_DISPOSE_OP_NONE ∧
    (∀ k, k < heads.length →
      ((save_image_layer_order (load_image_frames info heads).length).filterMap
          (load_image_frames info heads).get?).get? k
        = frame_layer (load_image_frames info heads) k) ∧
    (save_image_frames pngvals base (load_image_frames info heads)).num_frames = heads.length ∧
    (save_image_frames pngvals base (load_image_frames info heads)).frames
      = (load_frames_in_order info heads 0 PNG_DISPOSE_OP_NONE).map
          (save_frame pngvals (save_offsets pngvals base).1 (save_offsets pngvals base).2) := by
  have hlen := load_image_frames_length info heads
  have hgt : (load_image_frames info heads).length > 1 := by omega
  have hord : save_image_layer_order (load_image_frames info heads).length
      = save_layer_order (load_image_frames info heads).length := by
    simp only [save_image_layer_order, if_pos hgt]
  have hfm := save_layer_order_filterMap (load_image_frames info heads)
  rw [load_image_frames_reverse] at hfm
  refine ⟨?_, ?_, ?_, ?_, ?_, ?_, ?_, ?_⟩
  · rw [save_image_acTL, if_pos hgt, hlen]
  · rw [hord, save_layer_order_eq, List.length_reverse, List.length_range, hlen]
  · rw [hord, save_layer_order_eq, List.nodup_reverse]
    exact List.nodup_range _
  · intro k hk
    rw [hord, save_layer_order_eq, hlen, List.get?_eq_getElem?,
      List.getElem?_reverse (by simpa using hk)]
    simp only [List.length_range]
    rw [List.getElem?_range (by omega)]
  · rw [hord, hfm]
  · intro k _
    rw [hord, hfm, frame_layer, load_image_frames_reverse]
  · simp only [save_image_frames, hlen]
  · simp only [save_image_frames]
    rw [save_frames_loop_eq, hfm]

/-- Witness for C21, amended: a two-frame animation. -/
theorem save_image_frame_order_witness :
    save_image_acTL (load_image_frames example_info
        [some (example_fctl PNG_DISPOSE_OP_NONE), some (example_fctl PNG_DISPOSE_OP_BACKGROUND)]).length
      = some 2 ∧
    (save_image_layer_order (load_image_frames example_info
        [some (example_fctl PNG_DISPOSE_OP_NONE),
         some (example_fctl PNG_DISPOSE_OP_BACKGROUND)]).length).filterMap
        (load_image_frames example_info
          [some (example_fctl PNG_DISPOSE_OP_NONE),
           some (example_fctl PNG_DISPOSE_OP_BACKGROUND)]).get?
      = load_frames_in_order example_info
          [some (example_fctl PNG_DISPOSE_OP_NONE), some (example_fctl PNG_DISPOSE_OP_BACKGROUND)]
          0 PNG_DISPOSE_OP_NONE :=
  ⟨(save_image_frame_order example_info defaults (0, 0)
      [some (example_fctl PNG_DISPOSE_OP_NONE), some (example_fctl PNG_DISPOSE_OP_BACKGROUND)]
      (by decide)).1,
   (save_image_frame_order example_info defaults (0, 0)
      [some (example_fctl PNG_DISPOSE_OP_NONE), some (example_fctl PNG_DISPOSE_OP_BACKGROUND)]
      (by decide)).2.2.2.2.1⟩

/-! ## The persisted defaults -/

theorem digit_char_toNat (d : Nat) (h : d < 10) : (digit_char d).toNat = 48 + d := by
  interval_cases d <;> rfl

theorem digit_char_isdigit (d : Nat) (h : d < 10) : g_ascii_isdigit (digit_char d) = true := by
  interval_cases d <;> rfl

theorem decimal_value_from_append (v : Nat) (a b : List Char) :
    decimal_value_from v (a ++ b) = decimal_value_from (decimal_value_from v a) b := by
  simp [decimal_value_from, List.foldl_append]

theorem fmt_nat_aux_spec : ∀ (k n : Nat) (acc : List Char), n < k →
    ∃ d ds, fmt_nat_aux k n acc = d :: ds ++ acc ∧
      (∀ c ∈ d :: ds, g_ascii_isdigit c = true) ∧
      ∀ v, decimal_value_from v (d :: ds) = v * 10 ^ (ds.length + 1) + n := by
  intro k
  induction k with
  | zero => intro n acc h; omega
  | succ k ih =>
    intro n acc h
    have hd : n % 10 < 10 := Nat.mod_lt _ (by omega)
    by_cases h0 : n / 10 = 0
    · refine ⟨digit_char (n % 10), [], ?_, ?_, ?_⟩
      · simp [fmt_nat_aux, h0]
      · intro c hc
        simp only [List.mem_singleton] at hc
        rw [hc]; exact digit_char_isdigit _ hd
      · intro v
        simp only [decimal_value_from, List.foldl_cons, List.foldl_nil, digit_char_toNat _ hd,
          List.length_nil]
        omega
    · have hlt : n / 10 < k := by omega
      obtain ⟨d, ds, heq, hdig, hval⟩ := ih (n / 10) (digit_char (n % 10) :: acc) hlt
      refine ⟨d, ds ++ [digit_char (n % 10)], ?_, ?_, ?_⟩
      · simp only [fmt_nat_aux, if_neg h0, heq]
        simp
      · intro c hc
        rw [← List.cons_append, List.mem_append] at hc
        rcases hc with hc | hc
        · exact hdig c hc
        · simp only [List.mem_singleton] at hc
          rw [hc]; exact digit_char_isdigit _ hd
      · intro v
        rw [← List.cons_append, decimal_value_from_append, hval v]
        simp only [decimal_value_from, List.foldl_cons, List.foldl_nil, digit_char_toNat _ hd,
          List.length_append, List.length_singleton]
        have hm := Nat.div_add_mod n 10
        have e : v * 10 ^ (ds.length + 1 + 1) = v * 10 ^ (ds.length + 1) * 10 := by ring
        rw [e]
        generalize v * 10 ^ (ds.length + 1) = X
        omega

/-- The text of a natural number: at least one digit, only digits, and its
decimal value is the number. -/
theorem fmt_nat_spec (n : Nat) :
    ∃ d ds, fmt_nat n = d :: ds ∧ (∀ c ∈ d :: ds, g_ascii_isdigit c = true) ∧
      decimal_value (d :: ds) = n := by
  obtain ⟨d, ds, heq, hdig, hval⟩ := fmt_nat_aux_spec (n + 1) n [] (by omega)
  refine ⟨d, ds, by simpa [fmt_nat] using heq, hdig, ?_⟩
  have := hval 0
  simpa [decimal_value] using this

theorem takeWhile_digits_append (ds r : List Char)
    (hdig : ∀ c ∈ ds, g_ascii_isdigit c = true) (hr : g_ascii_isdigit (cstr_at r 0) = false) :
    (ds ++ r).takeWhile g_ascii_isdigit = ds ∧ (ds ++ r).dropWhile g_ascii_isdigit = r := by
  induction ds with
  | nil =>
    cases r with
    | nil => simp
    | cons c cs =>
      rw [cstr_at_cons_zero] at hr
      simp [List.takeWhile, List.dropWhile, hr]
  | cons d ds ih =>
    have hd := hdig d (by simp)
    have := ih (fun c hc => hdig c (by simp [hc]))
    simp [List.takeWhile, List.dropWhile, hd, this]

theorem isdigit_not_space (c : Char) (h : g_ascii_isdigit c = true) :
    isspace c = false ∧ c ≠ '-' ∧ c ≠ '+' ∧ c ≠ Char.ofNat 0 ∧ c ≠ '(' := by
  simp only [g_ascii_isdigit, decide_eq_true_eq] at h
  refine ⟨?_, ?_, ?_, ?_, ?_⟩
  · simp only [isspace, decide_eq_false_iff_not]; omega
  · intro hc; rw [hc] at h; revert h; decide
  · intro hc; rw [hc] at h; revert h; decide
  · intro hc; rw [hc] at h; revert h; decide
  · intro hc; rw [hc] at h; revert h; decide

theorem scan_d_fmt_d (v : Int) (r : List Char) (hr : g_ascii_isdigit (cstr_at r 0) = false) :
    scan_d (fmt_d v ++ r) = some (v, r) := by
  by_cases hv : v < 0
  · obtain ⟨d, ds, heq, hdig, hval⟩ := fmt_nat_spec v.natAbs
    have hs1 : (fmt_d v ++ r).dropWhile isspace = '-' :: (d :: ds ++ r) := by
      simp only [fmt_d, if_pos hv, heq, List.cons_append]
      rw [List.dropWhile_cons_of_neg (by decide)]
    have htd := takeWhile_digits_append (d :: ds) r hdig hr
    unfold scan_d
    simp only [hs1, cstr_at_cons_zero, true_or, if_true, List.drop_succ_cons, List.drop_zero,
      htd.1, htd.2, hval]
    rw [if_neg (by simp)]
    congr 2
    omega
  · obtain ⟨d, ds, heq, hdig, hval⟩ := fmt_nat_spec v.toNat
    have hd := isdigit_not_space d (hdig d (by simp))
    have hs1 : (fmt_d v ++ r).dropWhile isspace = d :: ds ++ r := by
      simp only [fmt_d, if_neg hv, heq, List.cons_append]
      rw [List.dropWhile_cons_of_neg (by simp [hd.1])]
    have htd := takeWhile_digits_append (d :: ds) r hdig hr
    unfold scan_d
    have hsign : ¬(d = '-' ∨ d = '+') := by simp [hd.2.1, hd.2.2.1]
    simp only [hs1, List.cons_append, cstr_at_cons_zero, if_neg hsign, if_neg hd.2.1]
    rw [← List.cons_append, htd.1, htd.2, hval]
    rw [if_neg (show ¬(d :: ds = []) by simp)]
    congr 2
    omega

theorem fmt_d_chars (v : Int) :
    ∀ c ∈ fmt_d v, c = '-' ∨ g_ascii_isdigit c = true := by
  intro c hc
  by_cases hv : v < 0
  · obtain ⟨d, ds, heq, hdig, _⟩ := fmt_nat_spec v.natAbs
    simp only [fmt_d, if_pos hv, heq, List.mem_cons] at hc
    rcases hc with hc | hc
    · exact Or.inl hc
    · exact Or.inr (hdig c (by simpa using hc))
  · obtain ⟨d, ds, heq, hdig, _⟩ := fmt_nat_spec v.toNat
    simp only [fmt_d, if_neg hv, heq] at hc
    exact Or.inr (hdig c hc)

theorem scan_d_space (s : List Char) : scan_d (' ' :: s) = scan_d s := by
  unfold scan_d
  rw [List.dropWhile_cons_of_pos (by decide)]

theorem sscanf_d_space (k : Nat) (s : List Char) : sscanf_d k (' ' :: s) = sscanf_d k s := by
  cases k with
  | zero => rfl
  | succ k => simp only [sscanf_d, scan_d_space]

theorem sscanf_d_zero (s : List Char) : sscanf_d 0 s = [] := rfl

theorem isdigit_space {s : List Char} : g_ascii_isdigit (cstr_at (' ' :: s) 0) = false := by
  rw [cstr_at_cons_zero]; decide

/-- Reading a blob of integers followed by text that does not start with a
digit: the integers are converted one by one, then the text is tried. -/
theorem sscanf_d_blob (r : List Char) (hr : g_ascii_isdigit (cstr_at r 0) = false) :
    ∀ (vs : List Int) (k : Nat),
      sscanf_d k (blob_of_integers vs ++ r) = vs.take k ++ sscanf_d (k - vs.length) r := by
  intro vs
  induction vs with
  | nil => intro k; simp [blob_of_integers]
  | cons v ws ih =>
    intro k
    cases k with
    | zero => simp [sscanf_d]
    | succ k =>
      cases ws with
      | nil =>
        simp only [blob_of_integers, sscanf_d, scan_d_fmt_d v r hr, List.take_succ_cons,
          List.take_nil, List.length_singleton, List.singleton_append,
          Nat.add_sub_cancel, List.cons.injEq, true_and]
      | cons w rest =>
        have h1 : blob_of_integers (v :: w :: rest) ++ r
            = fmt_d v ++ (' ' :: (blob_of_integers (w :: rest) ++ r)) := by
          simp [blob_of_integers]
        rw [h1]
        simp only [sscanf_d, scan_d_fmt_d v _ isdigit_space, sscanf_d_space, ih k,
          List.take_succ_cons, List.cons_append, List.length_cons, Nat.add_sub_add_right]

theorem sscanf_d_nil (k : Nat) : sscanf_d k [] = [] := by
  cases k with
  | zero => rfl
  | succ k => rfl

theorem blob_of_integers_chars : ∀ (vs : List Int),
    ∀ c ∈ blob_of_integers vs, c ≠ Char.ofNat 0 := by
  intro vs
  induction vs with
  | nil => intro c hc; simp [blob_of_integers] at hc
  | cons v ws ih =>
    have hv : ∀ c ∈ fmt_d v, c ≠ Char.ofNat 0 := by
      intro c hc
      rcases fmt_d_chars v c hc with h | h
      · rw [h]; decide
      · exact (isdigit_not_space c h).2.2.2.1
    cases ws with
    | nil => intro c hc; exact hv c (by simpa [blob_of_integers] using hc)
    | cons w rest =>
      intro c hc
      simp only [blob_of_integers, List.mem_append, List.mem_cons] at hc
      rcases hc with hc | hc | hc
      · exact hv c hc
      · rw [hc]; decide
      · exact ih c hc

theorem takeWhile_append_all (p : Char → Bool) (a b : List Char) (h : ∀ c ∈ a, p c = true) :
    (a ++ b).takeWhile p = a ++ b.takeWhile p := by
  induction a with
  | nil => rfl
  | cons c cs ih =>
    rw [List.cons_append, List.takeWhile_cons_of_pos (h c (by simp)),
      ih (fun x hx => h x (by simp [hx]))]
    rfl

theorem g_strndup_blob (vs : List Int) (extra : List Char) :
    g_strndup (blob_of_integers vs ++ extra) (blob_of_integers vs ++ extra).length
      = blob_of_integers vs ++ g_strndup extra extra.length := by
  unfold g_strndup
  simp only [List.take_length]
  exact takeWhile_append_all _ _ _ (fun c hc => by simpa using blob_of_integers_chars vs c hc)

theorem save_defaults_eq (v : PngSaveVals) :
    save_defaults v = blob_of_integers (persisted_fields v) := rfl

theorem g_strndup_head (extra : List Char)
    (h : g_ascii_isdigit (cstr_at extra 0) = false) :
    g_ascii_isdigit (cstr_at (g_strndup extra extra.length) 0) = false := by
  unfold g_strndup
  simp only [List.take_length]
  cases extra with
  | nil => exact h
  | cons c cs =>
    by_cases hc : c = Char.ofNat 0
    · rw [List.takeWhile_cons_of_neg (by simp [hc])]; exact isdigit_nul
    · rw [List.takeWhile_cons_of_pos (by simp [hc]), cstr_at_cons_zero]
      rwa [cstr_at_cons_zero] at h

theorem sscanf_return_nine (s : List Char) (fields : List Int) :
    sscanf_return s fields = 9 ↔ fields.length = 9 := by
  unfold sscanf_return
  constructor
  · intro h
    split_ifs at h with hc
    · omega
  · intro h
    rw [if_neg (by rintro ⟨hf, _⟩; rw [hf] at h; simp at h)]
    omega

/-- A blob that starts with nine integers is accepted, whatever follows them:
the nine persisted fields become those integers. -/
theorem load_defaults_blob (tmpvals : PngSaveVals) (vs : List Int) (extra : List Char)
    (hlen : vs.length = 9) (hextra : g_ascii_isdigit (cstr_at extra 0) = false) :
    persisted_fields (load_defaults tmpvals (some (blob_of_integers vs ++ extra))) = vs := by
  have hscan : sscanf_d 9 (g_strndup (blob_of_integers vs ++ extra)
      (blob_of_integers vs ++ extra).length) = vs := by
    rw [g_strndup_blob, sscanf_d_blob _ (g_strndup_head extra hextra), hlen]
    simp [sscanf_d, ← hlen]
  simp only [load_defaults, hscan, (sscanf_return_nine _ vs).2 hlen, if_true, persisted_fields]
  match vs, hlen with
  | [a, b, c, d, e, f, g, h, i], _ => rfl

/-- A blob from which `sscanf` does not convert nine integers is replaced by
`defaults`. -/
theorem load_defaults_not_nine (tmpvals : PngSaveVals) (data : List Char)
    (h : (sscanf_d 9 (g_strndup data data.length)).length ≠ 9) :
    load_defaults tmpvals (some data) = defaults := by
  simp only [load_defaults]
  rw [if_neg (fun h9 => h ((sscanf_return_nine _ _).1 h9))]

/-- C22, as stated, fails.  A blob of ten integers and a blob of nine integers
followed by other text are both accepted by `load_defaults`: `sscanf` converts
the first nine integers, returns 9 and never looks at what follows. -/
theorem load_defaults_accepts_longer_blob :
    load_defaults defaults (some "1 0 0 0 0 0 0 0 5 7".toList) ≠ defaults ∧
    (load_defaults defaults (some "1 0 0 0 0 0 0 0 5 7".toList)).compression_level = 5 ∧
    load_defaults defaults (some "1 0 0 0 0 0 0 0 5 and more".toList) ≠ defaults ∧
    (load_defaults defaults (some "1 0 0 0 0 0 0 0 5 and more".toList)).interlaced = 1 := by
  decide

/-- C22, amended.  `load_defaults` sets the current settings to the hard-coded
`defaults` when the parasite is absent and for every blob from which `sscanf`
cannot read nine integers in a row (in particular every blob that consists of
fewer than nine integers); a blob that starts with nine integers in the range
of `int` (-2147483648 .. 2147483647) is accepted whatever follows the ninth
(further integers or other text), and the nine persisted fields become those
nine integers. -/
theorem load_defaults_fewer_than_nine (tmpvals : PngSaveVals) :
    load_defaults tmpvals none = defaults ∧
    (∀ data : List Char, (sscanf_d 9 (g_strndup data data.length)).length ≠ 9 →
      load_defaults tmpvals (some data) = defaults) ∧
    (∀ vs : List Int, vs.length < 9 →
      load_defaults tmpvals (some (blob_of_integers vs)) = defaults) ∧
    (∀ (vs : List Int) (extra : List Char), vs.length = 9 →
      (∀ v ∈ vs, -2147483648 ≤ v ∧ v ≤ 2147483647) →
      g_ascii_isdigit (cstr_at extra 0) = false →
      persisted_fields (load_defaults tmpvals (some (blob_of_integers vs ++ extra))) = vs) := by
  refine ⟨rfl, load_defaults_not_nine tmpvals, ?_, ?_⟩
  · intro vs hlen
    apply load_defaults_not_nine
    have h := g_strndup_blob vs []
    simp only [List.append_nil] at h
    have hnil : g_strndup [] ([] : List Char).length = [] := rfl
    rw [h, hnil, sscanf_d_blob [] isdigit_nul vs 9, sscanf_d_nil]
    simp only [List.append_nil, List.length_take]
    omega
  · intro vs extra hlen _ hextra
    exact load_defaults_blob tmpvals vs extra hlen hextra

/-- Witness for C22, amended: the blob `1 0 0` of three integers gives
`defaults`, the blob of nine integers followed by ` x` is accepted. -/
theorem load_defaults_fewer_than_nine_witness :
    load_defaults defaults (some (blob_of_integers [1, 0, 0])) = defaults ∧
    persisted_fields
        (load_defaults defaults (some (blob_of_integers [1, 0, 0, 0, 0, 0, 0, 0, 5] ++ " x".toList)))
      = [1, 0, 0, 0, 0, 0, 0, 0, 5] :=
  ⟨(load_defaults_fewer_than_nine defaults).2.2.1 [1, 0, 0] (by decide),
   (load_defaults_fewer_than_nine defaults).2.2.2 [1, 0, 0, 0, 0, 0, 0, 0, 5] " x".toList
     (by decide) (by decide) (by decide)⟩

/-- C23.  For every settings record, the blob `save_defaults` writes is the
nine fields interlaced, bkgd, gama, offs, phys, time, comment,
save_transp_pixels, compression_level in decimal in exactly that order, and
`load_defaults` applied to that blob restores these nine fields to the values
they had; consequently the get-defaults procedure returns the nine values last
given to the set-defaults procedure. -/
theorem save_defaults_load_defaults (pngvals tmpvals : PngSaveVals)
    (p0 p1 p2 p3 p4 p5 p6 p7 p8 : Int) :
    save_defaults pngvals
      = blob_of_integers [pngvals.interlaced, pngvals.bkgd, pngvals.gama, pngvals.offs,
          pngvals.phys, pngvals.time, pngvals.comment, pngvals.save_transp_pixels,
          pngvals.compression_level] ∧
    (let loaded := load_defaults tmpvals (some (save_defaults pngvals))
     loaded.interlaced = pngvals.interlaced ∧ loaded.bkgd = pngvals.bkgd ∧
     loaded.gama = pngvals.gama ∧ loaded.offs = pngvals.offs ∧ loaded.phys = pngvals.phys ∧
     loaded.time = pngvals.time ∧ loaded.comment = pngvals.comment ∧
     loaded.save_transp_pixels = pngvals.save_transp_pixels ∧
     loaded.compression_level = pngvals.compression_level) ∧
    run_get_defaults tmpvals (run_set_defaults pngvals [p0, p1, p2, p3, p4, p5, p6, p7, p8]).2.2
      = [p0, p1, p2, p3, p4, p5, p6, p7, p8] := by
  have hload : ∀ v : PngSaveVals,
      persisted_fields (load_defaults tmpvals (some (save_defaults v))) = persisted_fields v := by
    intro v
    have h := load_defaults_blob tmpvals (persisted_fields v) [] rfl isdigit_nul
    rwa [List.append_nil, ← save_defaults_eq] at h
  refine ⟨rfl, ?_, ?_⟩
  · have h := hload pngvals
    simp only [persisted_fields, List.cons.injEq, and_true] at h
    exact h
  · have h := hload (run_set_defaults pngvals [p0, p1, p2, p3, p4, p5, p6, p7, p8]).2.1
    simp only [persisted_fields, run_set_defaults, List.cons.injEq, and_true] at h
    obtain ⟨h0, h1, h2, h3, h4, h5, h6, h7, h8⟩ := h
    simp only [run_get_defaults, run_set_defaults, h0, h1, h2, h3, h4, h5, h6, h7, h8]

/-! ## The band loop -/

theorem lt_ceil_div_iff (t h k : Nat) (ht : 1 ≤ t) : k < (h + t - 1) / t ↔ k * t < h := by
  rw [Nat.lt_iff_add_one_le, Nat.le_div_iff_mul_le (by omega)]
  have e : (k + 1) * t = k * t + t := by ring
  rw [e]
  omega

/-- The band loop entered at band number `k` leaves through its loop condition
once the bound allows for the bands still to come, and visits the bands
`k`, `k + 1`, ... below `ceil (height / tile_height)`. -/
theorem band_loop_eq (t h : Nat) (ht : 1 ≤ t) :
    ∀ (n k e : Nat), (k * t < h → e = k * t + t) → h ≤ (k + n) * t →
      band_loop t h (n + 1) (k * t) e
        = some ((List.range' k ((h + t - 1) / t - k)).map
            (fun j => (j * t, min (j * t + t) h))) := by
  intro n
  induction n with
  | zero =>
    intro k e _ hfuel
    have hk : ¬ k * t < h := by simpa using hfuel
    have hc : (h + t - 1) / t - k = 0 := by
      have := (lt_ceil_div_iff t h k ht).not.2 hk
      omega
    simp only [band_loop, if_neg hk, hc, List.range'_zero, List.map_nil]
  | succ n ih =>
    intro k e he hfuel
    by_cases hk : k * t < h
    · have hkc := (lt_ceil_div_iff t h k ht).2 hk
      have hek := he hk
      have hnext : (k + 1) * t = k * t + t := by ring
      have hrec := ih (k + 1) ((if e > h then h else e) + t)
        (by
          intro hlt
          rw [hnext] at hlt
          rw [if_neg (by omega), hek, hnext])
        (by
          have e2 : (k + 1 + n) * t = (k + (n + 1)) * t := by ring_nf
          rw [e2]; exact hfuel)
      rw [hnext] at hrec
      have hcount : (h + t - 1) / t - k = ((h + t - 1) / t - (k + 1)) + 1 := by omega
      rw [band_loop, if_pos hk]
      simp only []
      rw [hrec, hcount, List.range'_succ, List.map_cons, Option.map_some']
      congr 3
      rw [hek]
      split_ifs <;> omega
    · have hc : (h + t - 1) / t - k = 0 := by
        have := (lt_ceil_div_iff t h k ht).not.2 hk
        omega
      simp only [band_loop, if_neg hk, hc, List.range'_zero, List.map_nil]

theorem pass_bands_eq (t h : Nat) (ht : 1 ≤ t) :
    ∀ n, h ≤ n → band_loop t h (n + 1) 0 t
      = some ((List.range ((h + t - 1) / t)).map (fun j => (j * t, min (j * t + t) h))) := by
  intro n hn
  have h1 := band_loop_eq t h ht n 0 t (by intro _; omega)
    (by
      have : n * 1 ≤ n * t := Nat.mul_le_mul_left n ht
      simp only [Nat.zero_add]; omega)
  simp only [Nat.zero_mul, Nat.sub_zero] at h1
  rw [h1, List.range_eq_range']

/-- C24.  For every height `h >= 0` and tile height `t >= 1`, the band loop of
`read_frame` and of `write_frame` terminates (it leaves through its loop
condition, whatever larger bound on the iterations is given) and in each pass
visits the bands `[begin, end)` with `begin = 0, t, 2t, ...` and
`end = min (begin + t, h)`: there are `ceil (h / t)` bands, every band is
non-empty and at most `t` rows high, the bands are pairwise disjoint and
ascending, and their union is exactly rows `0 .. h - 1`. -/
theorem band_loop_partition (t h : Nat) (ht : 1 ≤ t) :
    (∀ n, h ≤ n → band_loop t h (n + 1) 0 t = pass_bands t h) ∧
    ∃ bands, pass_bands t h = some bands ∧
      bands.length = (h + t - 1) / t ∧
      (∀ k, k < bands.length → bands.get? k = some (k * t, min (k * t + t) h)) ∧
      (∀ b ∈ bands, b.1 < b.2 ∧ b.2 - b.1 ≤ t) ∧
      bands.Pairwise (fun b c => b.2 ≤ c.1) ∧
      (∀ r, r < h ↔ ∃ b ∈ bands, b.1 ≤ r ∧ r < b.2) := by
  have hp := pass_bands_eq t h ht h (le_refl _)
  refine ⟨fun n hn => by rw [pass_bands, hp, pass_bands_eq t h ht n hn], _, hp, ?_, ?_, ?_, ?_, ?_⟩
  · simp
  · intro k hk
    simp only [List.length_map, List.length_range] at hk
    exact get?_map_range _ _ k hk
  · intro b hb
    simp only [List.mem_map, List.mem_range] at hb
    obtain ⟨j, hj, rfl⟩ := hb
    have := (lt_ceil_div_iff t h j ht).1 hj
    simp only []
    omega
  · rw [List.pairwise_map]
    refine List.Pairwise.imp ?_ (List.pairwise_lt_range _)
    intro a b hab
    have h1 : (a + 1) * t ≤ b * t := Nat.mul_le_mul_right t hab
    have h2 : (a + 1) * t = a * t + t := by ring
    simp only []
    omega
  · intro r
    constructor
    · intro hr
      have hdm := Nat.div_add_mod r t
      have hmod := Nat.mod_lt r (show t > 0 by omega)
      have hmul : r / t * t = t * (r / t) := Nat.mul_comm _ _
      refine ⟨(r / t * t, min (r / t * t + t) h), ?_, ?_, ?_⟩
      · simp only [List.mem_map, List.mem_range]
        exact ⟨r / t, (lt_ceil_div_iff t h (r / t) ht).2 (by omega), rfl⟩
      · simp only []; omega
      · simp only []; omega
    · rintro ⟨b, hb, _, h2⟩
      simp only [List.mem_map, List.mem_range] at hb
      obtain ⟨j, _, rfl⟩ := hb
      simp only [] at h2
      omega

/-- Witness for C24: height 5 with tile height 2 gives the bands `[0, 2)`,
`[2, 4)`, `[4, 5)`. -/
theorem band_loop_partition_witness :
    pass_bands 2 5 = some [(0, 2), (2, 4), (4, 5)] ∧
    ∃ bands, pass_bands 2 5 = some bands ∧
      bands.length = (5 + 2 - 1) / 2 ∧
      (∀ k, k < bands.length → bands.get? k = some (k * 2, min (k * 2 + 2) 5)) ∧
      (∀ b ∈ bands, b.1 < b.2 ∧ b.2 - b.1 ≤ 2) ∧
      bands.Pairwise (fun b c => b.2 ≤ c.1) ∧
      (∀ r, r < 5 ↔ ∃ b ∈ bands, b.1 ≤ r ∧ r < b.2) :=
  ⟨by decide, (band_loop_partition 2 5 (by decide)).2⟩

/-! ## The `remap` table and its inverse -/

theorem inverse_remap_identity (uninit : Nat → Nat) (i : Nat) (hi : i < 256) :
    build_inverse_remap uninit init_remap i = i := by
  have h := inverse_remap_loop_of_injective init_remap uninit 256 (le_refl _)
    (fun a b _ _ hab => hab) i hi
  exact h

/-- The table of a designated index `t <= 255` and the `inverse_remap` table
built from it are inverse bijections of 0..255 that keep every range
`[0, colors)` with `t < colors`. -/
theorem remap_designated_bijection (uninit : Nat → Nat) (t : Nat) (ht : t ≤ 255) :
    (∀ i, i < 256 →
      remap_shift (array_set init_remap 0 (to_uchar t)) t i < 256 ∧
      build_inverse_remap uninit (remap_shift (array_set init_remap 0 (to_uchar t)) t) i < 256 ∧
      build_inverse_remap uninit (remap_shift (array_set init_remap 0 (to_uchar t)) t)
        (remap_shift (array_set init_remap 0 (to_uchar t)) t i) = i ∧
      remap_shift (array_set init_remap 0 (to_uchar t)) t
        (build_inverse_remap uninit (remap_shift (array_set init_remap 0 (to_uchar t)) t) i)
        = i) ∧
    (∀ colors i, t < colors → colors ≤ 256 → i < colors →
      remap_shift (array_set init_remap 0 (to_uchar t)) t i < colors ∧
      build_inverse_remap uninit (remap_shift (array_set init_remap 0 (to_uchar t)) t) i
        < colors) := by
  have hinv : ∀ p, p < 256 →
      build_inverse_remap uninit (remap_shift (array_set init_remap 0 (to_uchar t)) t) p
        = if p = t then 0 else if p < t then p + 1 else p := by
    intro p hp
    by_cases hpt : p = t
    · rw [if_pos hpt]
      have hinj : ∀ i j, i < 256 → j < 256 →
          remap_shift (array_set init_remap 0 (to_uchar t)) t i
            = remap_shift (array_set init_remap 0 (to_uchar t)) t j → i = j := by
        intro i j _ _ h
        rw [remap_designated_apply t i ht, remap_designated_apply t j ht] at h
        split_ifs at h <;> omega
      have h := inverse_remap_loop_of_injective
        (remap_shift (array_set init_remap 0 (to_uchar t)) t) uninit 256 (le_refl _) hinj 0
        (by omega)
      rw [remap_designated_apply t 0 ht, if_pos rfl] at h
      rw [hpt]
      exact h
    · rw [if_neg hpt]
      exact inverse_remap_designated uninit t p ht (by omega) hpt
  refine ⟨?_, ?_⟩
  · intro i hi
    rw [hinv i hi]
    refine ⟨?_, ?_, ?_, ?_⟩
    · rw [remap_designated_apply t i ht]; split_ifs <;> omega
    · split_ifs <;> omega
    · rw [hinv _ (by rw [remap_designated_apply t i ht]; split_ifs <;> omega),
        remap_designated_apply t i ht]
      by_cases h0 : i = 0
      · simp only [h0, if_true]
      · by_cases h1 : i ≤ t
        · rw [if_neg h0, if_pos h1, if_neg (by omega), if_pos (by omega)]; omega
        · rw [if_neg h0, if_neg h1, if_neg (by omega), if_neg (by omega)]
    · rw [remap_designated_apply t _ ht]
      by_cases h0 : i = t
      · simp only [h0, if_true]
      · by_cases h1 : i < t
        · rw [if_neg h0, if_pos h1, if_neg (by omega), if_pos (by omega)]; omega
        · rw [if_neg h0, if_neg h1, if_neg (by omega), if_neg (by omega)]
  · intro colors i htc hc hi
    rw [hinv i (by omega), remap_designated_apply t i ht]
    constructor
    · split_ifs <;> omega
    · split_ifs <;> omega

theorem colormap_before_length (colormap : List PngColor) :
    (colormap_before colormap).length = colormap_colors colormap := by
  unfold colormap_before colormap_colors
  split_ifs <;> simp_all

theorem remap_identity_bijection (uninit : Nat → Nat) (colors : Nat) (hc : colors ≤ 256) :
    (∀ i, i < 256 →
      init_remap i < 256 ∧ build_inverse_remap uninit init_remap i < 256 ∧
      build_inverse_remap uninit init_remap (init_remap i) = i ∧
      init_remap (build_inverse_remap uninit init_remap i) = i) ∧
    (∀ i, i < colors →
      init_remap i < colors ∧ build_inverse_remap uninit init_remap i < colors) := by
  refine ⟨?_, ?_⟩
  · intro i hi
    rw [inverse_remap_identity uninit i hi]
    exact ⟨hi, hi, inverse_remap_identity uninit i hi, rfl⟩
  · intro i hi
    rw [inverse_remap_identity uninit i (by omega)]
    exact ⟨hi, hi⟩

/-- C25.  For every outcome of `respin_cmap` (colormap of at most 256 entries)
with emitted palette size `colors`, the `remap` table is a bijection on 0..255
that maps `[0, colors)` onto `[0, colors)`, and the `inverse_remap` table built
in `write_frame` is its two-sided inverse: `inverse_remap[remap[i]] = i` and
`remap[inverse_remap[i]] = i` for every `i` in 0..255. -/
theorem respin_cmap_remap_bijection (colormap : List PngColor) (pixels : List IAPixel)
    (uninit : Nat → Nat) (hlen : colormap.length ≤ 256) :
    (respin_cmap init_remap colormap pixels).palette.length ≤ 256 ∧
    (∀ i, i < 256 →
      (respin_cmap init_remap colormap pixels).remap i < 256 ∧
      build_inverse_remap uninit (respin_cmap init_remap colormap pixels).remap i < 256 ∧
      build_inverse_remap uninit (respin_cmap init_remap colormap pixels).remap
        ((respin_cmap init_remap colormap pixels).remap i) = i ∧
      (respin_cmap init_remap colormap pixels).remap
        (build_inverse_remap uninit (respin_cmap init_remap colormap pixels).remap i) = i) ∧
    (∀ i, i < (respin_cmap init_remap colormap pixels).palette.length →
      (respin_cmap init_remap colormap pixels).remap i
        < (respin_cmap init_remap colormap pixels).palette.length ∧
      build_inverse_remap uninit (respin_cmap init_remap colormap pixels).remap i
        < (respin_cmap init_remap colormap pixels).palette.length) := by
  have hcol := colormap_colors_le colormap hlen
  have hid := remap_identity_bijection uninit (colormap_colors colormap) hcol
  cases htrans : ia_has_transparent_pixels pixels with
  | false =>
    obtain ⟨_, _, hr, hp⟩ := respin_cmap_opaque init_remap colormap pixels htrans
    rw [hr, hp, List.length_map, colormap_before_length]
    exact ⟨hcol, hid.1, hid.2⟩
  | true =>
    rcases find_unused_ia_color_fst_cases pixels (colormap_colors colormap) with hf | ⟨t, hf⟩
    · obtain ⟨_, _, hr, hp⟩ := respin_cmap_overflow init_remap colormap pixels htrans hf
      rw [hr, hp, List.length_map, colormap_before_length]
      exact ⟨hcol, hid.1, hid.2⟩
    · obtain ⟨_, _, hr, hp⟩ := respin_cmap_designated init_remap colormap pixels t htrans hf
      have ht := find_unused_ia_color_le pixels _ t hcol hf
      have hex := (ia_has_transparent_pixels_iff pixels).1 htrans
      have hb := remap_designated_bijection uninit t ht
      have hsize : t < (find_unused_ia_color pixels (colormap_colors colormap)).2 ∧
          (find_unused_ia_color pixels (colormap_colors colormap)).2 ≤ 256 := by
        rcases find_unused_ia_color_designated pixels _ t hex hf with ⟨h1, h2, _⟩ | ⟨h1, h2, h3⟩
        · omega
        · omega
      rw [hr, hp, List.length_map, List.length_range]
      exact ⟨hsize.2, hb.1, fun i hi => hb.2 _ i hsize.1 hsize.2 hi⟩

set_option maxRecDepth 100000 in
/-- Witness for C25: a colormap of four entries whose index 3 is designated;
the tables are inverse to each other at index 1 and keep it below the palette
size 4. -/
theorem respin_cmap_remap_bijection_witness :
    (respin_cmap init_remap example_colormap example_pixels).palette.length ≤ 256 ∧
    build_inverse_remap init_remap (respin_cmap init_remap example_colormap example_pixels).remap
        ((respin_cmap init_remap example_colormap example_pixels).remap 1) = 1 ∧
    (respin_cmap init_remap example_colormap example_pixels).remap 1
        < (respin_cmap init_remap example_colormap example_pixels).palette.length :=
  ⟨(respin_cmap_remap_bijection example_colormap example_pixels init_remap (by decide)).1,
   ((respin_cmap_remap_bijection example_colormap example_pixels init_remap (by decide)).2.1
      1 (by decide)).2.2.1,
   ((respin_cmap_remap_bijection example_colormap example_pixels init_remap (by decide)).2.2
      1 (by decide)).1⟩

/-! ## Disposal operations in a load-save cycle -/

/-- C26 fails on the code.  A file whose two frames have the disposals
Background and None is decoded to layers labelled ` (combine)` and
` (replace)`; saved unchanged (session disposal None), the encoder reads each
layer's own label and writes None for frame 0 and Background for frame 1: each
disposal has moved to the next frame. -/
theorem load_save_disposal_shifted :
    (load_frames_in_order example_info
        [some (example_fctl PNG_DISPOSE_OP_BACKGROUND), some (example_fctl PNG_DISPOSE_OP_NONE)]
        0 PNG_DISPOSE_OP_NONE).map (fun l => l.name)
      = ["Background (100ms) (combine)".toList, "Frame 2 (100ms) (replace)".toList] ∧
    (save_image_frames (defaults_with_dispose PNG_DISPOSE_OP_NONE) (0, 0)
        (load_image_frames example_info
          [some (example_fctl PNG_DISPOSE_OP_BACKGROUND),
           some (example_fctl PNG_DISPOSE_OP_NONE)])).frames.map (fun f => f.dispose_op)
      = [PNG_DISPOSE_OP_NONE, PNG_DISPOSE_OP_BACKGROUND] ∧
    [PNG_DISPOSE_OP_NONE, PNG_DISPOSE_OP_BACKGROUND]
      ≠ [PNG_DISPOSE_OP_BACKGROUND, PNG_DISPOSE_OP_NONE] := by
  decide

/-! ## The palette shift of the decoder -/

/-- The loop that counts the leading fully transparent entries leaves through
its condition: the entries below the result are zero, and the result is 256
or the index of a non-zero entry. -/
theorem count_empty_spec (alpha : Nat → Nat) :
    ∀ (n e : Nat), (∀ i, i < e → alpha i = 0) → e ≤ 256 → 256 ≤ e + n →
      e ≤ count_empty alpha n e ∧ count_empty alpha n e ≤ 256 ∧
      (∀ i, i < count_empty alpha n e → alpha i = 0) ∧
      (count_empty alpha n e = 256 ∨ alpha (count_empty alpha n e) ≠ 0) := by
  intro n
  induction n with
  | zero =>
    intro e hz he hfuel
    have : e = 256 := by omega
    simp only [count_empty]
    exact ⟨le_refl _, he, hz, Or.inl this⟩
  | succ n ih =>
    intro e hz he hfuel
    by_cases hc : e < 256 ∧ alpha e = 0
    · simp only [count_empty, if_pos hc]
      have := ih (e + 1)
        (fun i hi => by
          rcases Nat.lt_succ_iff_lt_or_eq.1 hi with h | h
          · exact hz i h
          · rw [h]; exact hc.2)
        (by omega) (by omega)
      exact ⟨by omega, this.2.1, this.2.2.1, this.2.2.2⟩
    · simp only [count_empty, if_neg hc]
      refine ⟨le_refl _, he, hz, ?_⟩
      by_cases h256 : e = 256
      · exact Or.inl h256
      · right
        intro h0
        exact hc ⟨by omega, h0⟩

/-- C27.  When an indexed image with a transparency table and a palette of
`num_palette >= 1` entries is decoded, the count `empty` of dropped leading
fully transparent entries satisfies `0 <= empty <= num_palette - 1`, and the
palette shift agrees with the pixel shift: for every pixel index
`p < num_palette` (a byte), either `alpha[p] = 0`, or `p >= empty` and the
stored index `p - empty` looks up in the shifted colormap the same colour as
`palette[p]`, with the pixel's alpha set to `alpha[p]`. -/
theorem load_palette_shift (palette : List PngColor) (alpha_ptr : List Nat)
    (hpal : 1 ≤ palette.length) :
    0 ≤ load_empty (load_alpha alpha_ptr) palette.length ∧
    load_empty (load_alpha alpha_ptr) palette.length ≤ (palette.length : Int) - 1 ∧
    (load_colormap palette (load_empty (load_alpha alpha_ptr) palette.length)).length
      = palette.length - (load_empty (load_alpha alpha_ptr) palette.length).toNat ∧
    ∀ p, p < palette.length → p < 256 →
      load_alpha alpha_ptr p = 0 ∨
      ((load_empty (load_alpha alpha_ptr) palette.length ≤ (p : Int)) ∧
       ((read_frame_trns_pixel (load_alpha alpha_ptr)
            (load_empty (load_alpha alpha_ptr) palette.length) p).index : Int)
          = (p : Int) - load_empty (load_alpha alpha_ptr) palette.length ∧
       (∃ c, palette.get? p = some c ∧
         (load_colormap palette (load_empty (load_alpha alpha_ptr) palette.length)).get?
            (read_frame_trns_pixel (load_alpha alpha_ptr)
              (load_empty (load_alpha alpha_ptr) palette.length) p).index = some (some c)) ∧
       (read_frame_trns_pixel (load_alpha alpha_ptr)
            (load_empty (load_alpha alpha_ptr) palette.length) p).alpha
          = load_alpha alpha_ptr p) := by
  obtain ⟨_, hle, hzero, _⟩ := count_empty_spec (load_alpha alpha_ptr) 256 0
    (fun i hi => by omega) (by omega) (by omega)
  generalize hcnt : count_empty (load_alpha alpha_ptr) 256 0 = cnt at hle hzero
  have hempty : load_empty (load_alpha alpha_ptr) palette.length
      = ((min cnt (palette.length - 1) : Nat) : Int) := by
    simp only [load_empty, hcnt]
    omega
  rw [hempty]
  generalize hm : min cnt (palette.length - 1) = m
  have hm1 : m ≤ cnt := by omega
  have hm2 : m ≤ palette.length - 1 := by omega
  refine ⟨by omega, by omega, ?_, ?_⟩
  · simp only [load_colormap, List.length_map, List.length_range, Int.toNat_ofNat]
    omega
  · intro p hp hp256
    by_cases hpm : p < m
    · exact Or.inl (hzero p (by omega))
    · right
      have hidx : (read_frame_trns_pixel (load_alpha alpha_ptr) (m : Int) p).index = p - m := by
        simp only [read_frame_trns_pixel]
        omega
      refine ⟨by omega, by rw [hidx]; omega, ?_, rfl⟩
      refine ⟨palette.get ⟨p, hp⟩, List.get?_eq_get hp, ?_⟩
      rw [hidx]
      simp only [load_colormap]
      rw [get?_map_range _ _ (p - m) (by omega)]
      rw [if_pos (by omega)]
      have e : ((m : Int) + ((p - m : Nat) : Int)).toNat = p := by omega
      rw [e, List.get?_eq_get hp]

/-- Witness for C27: a palette of three entries whose first entry is fully
transparent: `empty = 1`, index 2 is stored as 1 and finds the same colour. -/
theorem load_palette_shift_witness :
    load_empty (load_alpha [0, 128]) 3 = 1 ∧
    0 ≤ load_empty (load_alpha [0, 128])
      ([PngColor.mk 1 1 1, PngColor.mk 2 2 2, PngColor.mk 3 3 3].length) ∧
    load_empty (load_alpha [0, 128])
        ([PngColor.mk 1 1 1, PngColor.mk 2 2 2, PngColor.mk 3 3 3].length)
      ≤ (([PngColor.mk 1 1 1, PngColor.mk 2 2 2, PngColor.mk 3 3 3].length : Nat) : Int) - 1 :=
  ⟨by decide,
   (load_palette_shift [PngColor.mk 1 1 1, PngColor.mk 2 2 2, PngColor.mk 3 3 3] [0, 128]
      (by decide)).1,
   (load_palette_shift [PngColor.mk 1 1 1, PngColor.mk 2 2 2, PngColor.mk 3 3 3] [0, 128]
      (by decide)).2.1⟩

/-! ## The colormap entries `respin_cmap` reads -/

/-- C28 fails on the code.  A colormap of one entry whose index 0 is used by an
opaque pixel, and a transparent pixel: `find_unused_ia_color` grows the colour
count to 2 and returns 1, `remap[0]` becomes 1, and the palette loop reads
`before[3 * remap[0]]`, entry 1 of a colormap that has only entry 0. -/
theorem respin_cmap_reads_past_colormap :
    find_unused_ia_color [IAPixel.mk 0 255, IAPixel.mk 0 0] 1 = (1, 2) ∧
    (respin_cmap init_remap [PngColor.mk 7 7 7] [IAPixel.mk 0 255, IAPixel.mk 0 0]).remap 0 = 1 ∧
    ¬ ((respin_cmap init_remap [PngColor.mk 7 7 7] [IAPixel.mk 0 255, IAPixel.mk 0 0]).remap 0
        < [PngColor.mk 7 7 7].length) ∧
    (respin_cmap init_remap [PngColor.mk 7 7 7] [IAPixel.mk 0 255, IAPixel.mk 0 0]).palette
      = [none, some (PngColor.mk 7 7 7)] := by
  decide

/-! ## Delays in a load-save cycle -/

theorem first_bra_digit_skip (pre t : List Char) (h : ∀ c ∈ pre, c ≠ '(') :
    first_bra_digit (pre ++ t) = first_bra_digit t := by
  induction pre with
  | nil => rfl
  | cons c cs ih =>
    have hc := h c (by simp)
    simp only [List.cons_append, first_bra_digit]
    rw [if_neg (by simp [hc])]
    exact ih (fun x hx => h x (by simp [hx]))

theorem ms_tag_here_digits (d : Char) (ds suf : List Char)
    (hdig : ∀ c ∈ d :: ds, g_ascii_isdigit c = true) :
    ms_tag_here ('(' :: (d :: ds ++ 'm' :: 's' :: ')' :: suf)) = some (decimal_value (d :: ds)) := by
  have htd := takeWhile_digits_append (d :: ds) ('m' :: 's' :: ')' :: suf) hdig
    (by rw [cstr_at_cons_zero]; decide)
  simp only [ms_tag_here, if_true, htd.1, htd.2]
  simp

theorem fmt_d_no_bra (v : Int) : ∀ c ∈ fmt_d v, c ≠ '(' := by
  intro c hc
  rcases fmt_d_chars v c hc with h | h
  · rw [h]; decide
  · exact (isdigit_not_space c h).2.2.2.2

/-- The name the decoder gives to a frame with a delay `d >= 0`, whatever is
appended to it, parses back to `d`. -/
theorem parse_ms_tag_framename (frame d : Nat) (suf : List Char) (hd : d ≤ 2147483647) :
    (∃ pre, framename_base frame (d : Int) ++ suf
        = pre ++ ('(' :: fmt_nat d ++ 'm' :: 's' :: ')' :: suf)) ∧
    parse_ms_tag (framename_base frame (d : Int) ++ suf) = (d : Int) := by
  obtain ⟨c, cs, heq, hdig, hval⟩ := fmt_nat_spec d
  have hfd : fmt_d (d : Int) = c :: cs := by
    simp only [fmt_d, Int.toNat_ofNat]
    rw [if_neg (by omega), heq]
  have key : ∀ pre : List Char, (∀ x ∈ pre, x ≠ '(') →
      parse_ms_tag (pre ++ ('(' :: (c :: cs ++ 'm' :: 's' :: ')' :: suf))) = (d : Int) := by
    intro pre hpre
    have hf : first_bra_digit (pre ++ ('(' :: (c :: cs ++ 'm' :: 's' :: ')' :: suf)))
        = some ('(' :: (c :: cs ++ 'm' :: 's' :: ')' :: suf)) := by
      rw [first_bra_digit_skip _ _ hpre]
      simp only [first_bra_digit, List.cons_append, cstr_at_cons_zero]
      simp [hdig c (by simp)]
    have hm := ms_tag_here_digits c cs suf hdig
    rw [hval] at hm
    have h := parse_ms_tag_from_first_bra_digit
      (pre ++ ('(' :: (c :: cs ++ 'm' :: 's' :: ')' :: suf))) []
      (pre ++ ('(' :: (c :: cs ++ 'm' :: 's' :: ')' :: suf))).length
      ('(' :: (c :: cs ++ 'm' :: 's' :: ')' :: suf)) d (le_refl _) hf hm hd
    rw [List.nil_append, List.length_nil] at h
    exact h
  have hnn : ¬ ((d : Int) < 0) := by omega
  have hgen : ∀ g : List Char, (if frame = 0 then
    if (d : Int) < 0 then "Background".toList
    else "Background (".toList ++ fmt_d (d : Int) ++ "ms".toList ++ ")".toList
  else
    if (d : Int) < 0 then "Frame ".toList ++ g
    else "Frame ".toList ++ g
          ++ " (".toList ++ fmt_d (d : Int) ++ "ms".toList ++ ")".toList) ++ suf
        = (if frame = 0 then "Background ".toList else "Frame ".toList ++ g ++ [' '])
            ++ ('(' :: (c :: cs ++ 'm' :: 's' :: ')' :: suf)) := by
    intro g
    rw [if_neg hnn, if_neg hnn, hfd]
    split_ifs <;> simp
  have hname := hgen (fmt_d (to_gint ((frame + 1) % 4294967296)))
  have hpre : ∀ g : List Char, (∀ x ∈ g, x ≠ '(') →
      ∀ x ∈ (if frame = 0 then "Background ".toList else "Frame ".toList ++ g ++ [' ']),
        x ≠ '(' := by
    intro g hg x hx
    split_ifs at hx
    · exact (show ∀ y ∈ "Background ".toList, y ≠ '(' by decide) x hx
    · simp only [List.mem_append, List.mem_singleton] at hx
      rcases hx with (hx | hx) | hx
      · exact (show ∀ y ∈ "Frame ".toList, y ≠ '(' by decide) x hx
      · exact hg x hx
      · rw [hx]; decide
  have hbase : framename_base frame (d : Int) ++ suf
      = (if frame = 0 then "Background ".toList
          else "Frame ".toList ++ fmt_d (to_gint ((frame + 1) % 4294967296)) ++ [' '])
        ++ ('(' :: (c :: cs ++ 'm' :: 's' :: ')' :: suf)) := hname
  refine ⟨⟨_, by rw [hbase, heq]; rfl⟩, ?_⟩
  rw [hbase]
  exact key _ (hpre _ (fmt_d_no_bra _))

theorem parse_delay_tag_of_ms (pngvals : PngSaveVals) (str : List Char) (d : Nat)
    (hparse : parse_ms_tag str = (d : Int)) (hd : d ≤ 65535) :
    (parse_delay_tag pngvals str).2 ≠ 0 ∧
      1000 * (parse_delay_tag pngvals str).1 / (parse_delay_tag pngvals str).2 = d := by
  have hpd : parse_delay_tag pngvals str
      = (to_uint16 (d / delay_divisor_loop d 4 1000), to_uint16 (1000 / delay_divisor_loop d 4 1000)) := by
    unfold parse_delay_tag
    simp only [hparse, Int.toNat_ofNat]
    rw [if_neg (by omega)]
  rw [hpd, delay_divisor_loop_eq]
  have hq : ∀ n, d / n ≤ 65535 := fun n => le_trans (Nat.div_le_self d n) hd
  have hq2 : ∀ n, 1000 / n ≤ 65535 := fun n => le_trans (Nat.div_le_self 1000 n) (by omega)
  simp only [to_uint16_of_le _ (hq _), to_uint16_of_le _ (hq2 _)]
  split_ifs <;> simp <;> omega

theorem append_dispose_label_cases (prev : Nat) (base : List Char) :
    ∃ suf, append_dispose_label prev base = base ++ suf ∧
      suf ∈ [" (combine)".toList, " (replace)".toList, " (combine) (!)".toList, []] := by
  unfold append_dispose_label
  split_ifs
  · exact ⟨_, rfl, by simp⟩
  · exact ⟨_, rfl, by simp⟩
  · exact ⟨_, rfl, by simp⟩
  · exact ⟨[], by simp, by simp⟩

/-- C29.  For every frame number and every control chunk with delay
`(num, den)`, the decoder computes `d = floor (1000 * num / den')` with
`den' = 100` when `den = 0`, so it never divides by zero, and puts the text
`(<d>ms)` into the layer name; whenever `d <= 65535`, `parse_delay_tag`
applied to the generated name followed by any text, and so to the layer name
with the label ` (combine)`, ` (replace)` or ` (combine) (!)` appended, yields
`(num2, den2)` with `den2 != 0` and `floor (1000 * num2 / den2) = d`. -/
theorem load_save_delay (info : PngInfo) (pngvals : PngSaveVals) (frame prev : Nat)
    (fctl : FcTL)
    (hd : fctl.delay_num * 1000 / (if fctl.delay_den = 0 then 100 else fctl.delay_den)
            ≤ 65535) :
    (if fctl.delay_den = 0 then 100 else fctl.delay_den) ≠ 0 ∧
    head_delay (some fctl)
      = ((fctl.delay_num * 1000 / (if fctl.delay_den = 0 then 100 else fctl.delay_den) : Nat)
          : Int) ∧
    (∀ suf : List Char,
      (∃ pre, framename_base frame (head_delay (some fctl)) ++ suf
        = pre ++ ('(' :: fmt_nat (fctl.delay_num * 1000
              / (if fctl.delay_den = 0 then 100 else fctl.delay_den))
            ++ 'm' :: 's' :: ')' :: suf)) ∧
      (parse_delay_tag pngvals (framename_base frame (head_delay (some fctl)) ++ suf)).2 ≠ 0 ∧
      1000 * (parse_delay_tag pngvals (framename_base frame (head_delay (some fctl)) ++ suf)).1
          / (parse_delay_tag pngvals (framename_base frame (head_delay (some fctl)) ++ suf)).2
        = fctl.delay_num * 1000 / (if fctl.delay_den = 0 then 100 else fctl.delay_den)) ∧
    (∃ suf, (load_frame info frame prev (some fctl)).1.name
        = framename_base frame (head_delay (some fctl)) ++ suf ∧
      suf ∈ [" (combine)".toList, " (replace)".toList, " (combine) (!)".toList, []]) ∧
    (parse_delay_tag pngvals (load_frame info frame prev (some fctl)).1.name).2 ≠ 0 ∧
    1000 * (parse_delay_tag pngvals (load_frame info frame prev (some fctl)).1.name).1
        / (parse_delay_tag pngvals (load_frame info frame prev (some fctl)).1.name).2
      = fctl.delay_num * 1000 / (if fctl.delay_den = 0 then 100 else fctl.delay_den) := by
  have hdelay : head_delay (some fctl)
      = ((fctl.delay_num * 1000 / (if fctl.delay_den = 0 then 100 else fctl.delay_den) : Nat)
          : Int) := by
    simp only [head_delay, frame_delay]
  have hall : ∀ suf : List Char,
      (∃ pre, framename_base frame (head_delay (some fctl)) ++ suf
        = pre ++ ('(' :: fmt_nat (fctl.delay_num * 1000
              / (if fctl.delay_den = 0 then 100 else fctl.delay_den))
            ++ 'm' :: 's' :: ')' :: suf)) ∧
      (parse_delay_tag pngvals (framename_base frame (head_delay (some fctl)) ++ suf)).2 ≠ 0 ∧
      1000 * (parse_delay_tag pngvals (framename_base frame (head_delay (some fctl)) ++ suf)).1
          / (parse_delay_tag pngvals (framename_base frame (head_delay (some fctl)) ++ suf)).2
        = fctl.delay_num * 1000 / (if fctl.delay_den = 0 then 100 else fctl.delay_den) := by
    intro suf
    rw [hdelay]
    have h := parse_ms_tag_framename frame _ suf (le_trans hd (by omega))
    exact ⟨h.1, parse_delay_tag_of_ms pngvals _ _ h.2 hd⟩
  obtain ⟨suf, hsuf, hmem⟩ := append_dispose_label_cases prev
    (framename_base frame (head_delay (some fctl)))
  rw [← load_frame_name info] at hsuf
  refine ⟨by split_ifs <;> omega, hdelay, hall, ⟨suf, hsuf, hmem⟩, ?_⟩
  rw [hsuf]
  exact (hall suf).2

/-- Witness for C29: frame 1 with delay 1/10 s after a frame with disposal
`PNG_DISPOSE_OP_BACKGROUND` is named `Frame 2 (100ms) (replace)`, which parses
to 1/10. -/
theorem load_save_delay_witness :
    (load_frame example_info 1 PNG_DISPOSE_OP_BACKGROUND
        (some (example_fctl PNG_DISPOSE_OP_NONE))).1.name = "Frame 2 (100ms) (replace)".toList ∧
    parse_delay_tag defaults "Frame 2 (100ms) (replace)".toList = (1, 10) ∧
    1000 * (parse_delay_tag defaults (load_frame example_info 1 PNG_DISPOSE_OP_BACKGROUND
          (some (example_fctl PNG_DISPOSE_OP_NONE))).1.name).1
        / (parse_delay_tag defaults (load_frame example_info 1 PNG_DISPOSE_OP_BACKGROUND
          (some (example_fctl PNG_DISPOSE_OP_NONE))).1.name).2
      = 1 * 1000 / (if (10 : Nat) = 0 then 100 else 10) :=
  ⟨by decide, by decide,
   (load_save_delay example_info defaults 1 PNG_DISPOSE_OP_BACKGROUND
      (example_fctl PNG_DISPOSE_OP_NONE) (by decide)).2.2.2.2.2⟩

/-! ## The bit depth of a palette image -/

set_option maxRecDepth 100000 in
/-- C30 fails on the code.  The bit depth is decided from the local variable
`num_colors` before anything has been stored in it, so it does not depend on
the colormap: whenever the variable happens to hold a value of at most 2 the
depth is 1, also for a colormap of 256 colours.  And even when the variable
holds the colour count of the colormap, a two-colour colormap that is grown to
three entries for transparency gets depth 1, while `write_frame` emits the
palette index 2, which is not below `2 ^ 1`. -/
theorem save_image_bit_depth_uninitialised :
    save_image_bit_depth true 0 = 1 ∧
    palette_bit_depth full_colormap.length = 8 ∧
    save_image_bit_depth true two_colormap.length = 1 ∧
    (respin_cmap init_remap two_colormap two_pixels).palette.length = 3 ∧
    write_frame_row (respin_cmap init_remap two_colormap two_pixels).trns true
        (respin_cmap init_remap two_colormap two_pixels).remap init_remap 3
        (row_of_pixels two_pixels)
      = [1, 2, 0] ∧
    ¬ (2 < 2 ^ save_image_bit_depth true two_colormap.length) := by
  decide

end FileApng
